import Mathlib

/-!
# Keyset pagination of API-gateway routes

A shallow embedding of `store/rdbms/apigw_route.gen.go`: the page fetcher
`fetchFullPageOfApigwRoutes` with its refetch loop, the row query
`QueryApigwRoutes`, the row scanner and the cursor builder
`collectApigwRouteCursorValues`.

Conventions of the embedding.

* Go's `error` is an abstract type `ε`; a nil error is `none`.
* A nil slice and an empty slice are both the empty list; a nil cursor is `none`.
* `uint` is 64 bits wide: the one addition of the page fetcher that can wrap,
  `limit + 1`, is taken modulo `uintModulus`. The length of a slice always fits
  a `uint`, so `uint(len(set))` is the length of the list.
* The database session is explicit state `σ` threaded through every query.
* Every query the loop issues is recorded, in order, as a `RoundTrip`.

Further sections embed the offset paging of `store/rdbms/generic_selectors.go`
(`calculatePaging`, `ApplyPaging`, `FetchPaged`), the trigger helpers of
`pkg/corredor/util.go`, `store.check` of `internal/store/store.go`,
`jsenvHandler.execute` of `automation/automation/jsenv_handler.go` and the preview
sizing of `crm/service/attachment.go`. A call that can fail at run time yields a
`Run`.
-/

namespace Rdbms

/-! ## Data model -/

/-- The entity `types.Route`, one field per scanned column. -/
structure Route where
  ID : Nat
  Endpoint : String
  Method : String
  Debug : Bool
  Enabled : Bool
  Group : Nat
  CreatedBy : Nat
  UpdatedBy : Nat
  DeletedBy : Nat
  CreatedAt : Nat
  UpdatedAt : Option Nat
  DeletedAt : Option Nat
deriving DecidableEq, Repr

/-- The sort expression `filter.SortExpr`. -/
structure SortExpr where
  Column : String
  Descending : Bool
deriving DecidableEq, Repr

/-- The sort set `filter.SortExprSet`: sort expressions in precedence order. -/
abbrev SortExprSet := List SortExpr

/-- Modelled from the spec: `SortExprSet.Reversed` lives in `pkg/filter`, which is
not among the sources. The spec only calls it the sort set's reversed flag; it is
taken to be the direction of the leading sort expression (false for an empty set).
The page fetcher treats it as an opaque boolean. -/
def SortExprSet.Reversed : SortExprSet → Bool
  | [] => false
  | e :: _ => e.Descending

/-- Modelled from the spec: `SortExprSet.Reverse` (flip every descending flag),
from `pkg/filter`, which is not among the sources. -/
def SortExprSet.Reverse (set : SortExprSet) : SortExprSet :=
  set.map fun e => { e with Descending := !e.Descending }

/-- One binding of a paging cursor: column, boundary value, direction. The only
value the route store ever binds is a route ID. -/
structure CursorEntry where
  key : String
  value : Nat
  desc : Bool
deriving DecidableEq, Repr

/-- Modelled from the spec: `filter.PagingCursor` lives in `pkg/filter`, which is
not among the sources. Per the spec a cursor is an ordered mapping from column to
boundary value plus the two flags reversed-order (`ROrder`) and less-than
(`LThen`). -/
structure PagingCursor where
  entries : List CursorEntry
  ROrder : Bool
  LThen : Bool
deriving DecidableEq, Repr

/-- Modelled from the spec: `PagingCursor.Set` from `pkg/filter` (not among the
sources). The cursor is an ordered mapping: binding a column that is already
present replaces its value in place, a new column is appended. -/
def PagingCursor.Set (p : PagingCursor) (k : String) (v : Nat) (d : Bool) : PagingCursor :=
  if p.entries.any (fun e => decide (e.key = k)) then
    { p with entries := p.entries.map fun e => if e.key = k then { e with value := v } else e }
  else
    { p with entries := p.entries ++ [⟨k, v, d⟩] }

/-- The boundary value a cursor binds to a column, if any. -/
def PagingCursor.get (p : PagingCursor) (k : String) : Option Nat :=
  (p.entries.find? fun e => decide (e.key = k)).map CursorEntry.value

/-- The part of `squirrel.SelectBuilder` the page fetcher touches: ORDER BY terms,
WHERE conditions (of an abstract condition type `κ`) and the LIMIT. -/
structure SelectBuilder (κ : Type) where
  OrderByParts : List SortExpr
  WhereParts : List κ
  LimitPart : Option Nat

/-- The builder call `q.Where(cond)`: add one more condition. -/
def SelectBuilder.Where {κ : Type} (q : SelectBuilder κ) (cond : κ) : SelectBuilder κ :=
  { q with WhereParts := q.WhereParts ++ [cond] }

/-- The builder call `q.Limit(n)`: set the LIMIT. -/
def SelectBuilder.Limit {κ : Type} (q : SelectBuilder κ) (n : Nat) : SelectBuilder κ :=
  { q with LimitPart := some n }

/-- Number of values of Go's `uint` on a 64-bit platform. -/
def uintModulus : Nat := 2 ^ 64

/-- The package constants `MaxRefetches` and `MinEnsureFetchLimit`; their
declarations are not among the sources, so they are parameters. -/
structure Consts where
  MaxRefetches : Nat
  MinEnsureFetchLimit : Nat
deriving DecidableEq, Repr

/-- The receiver `s Store`: the collaborators the generated code calls.
`Query` runs a query against session state `σ` and yields either an error or the
rows; each row the iterator steps to carries either the iterator error
(`rows.Err()`) or a raw row of type `ρ`. `scan` is the raw row scan (the
configured scanner or `row.Scan`). `isErrNoRows` is the test
`err == sql.ErrNoRows`, `ErrNotFound` is `store.ErrNotFound.Stack(1)` and
`errStore` is `errors.Store("could not scan apigwRoute db row: %s", err).Wrap(err)`. -/
structure Store (ε ρ κ σ : Type) where
  Query : SelectBuilder κ → σ → Except ε (List (Except ε ρ)) × σ
  scan : ρ → Except ε Route
  isErrNoRows : ε → Bool
  ErrNotFound : ε
  errStore : ε → ε

/-! ## The generated store code -/

/-- The function `internalApigwRouteRowScanner`: scan a raw row, turning
`sql.ErrNoRows` into not-found and wrapping any other scan error. -/
def internalApigwRouteRowScanner {ε ρ κ σ : Type} (s : Store ε ρ κ σ) (row : ρ) :
    Except ε Route :=
  match s.scan row with
  | .error err => if s.isErrNoRows err then .error s.ErrNotFound else .error (s.errStore err)
  | .ok res => .ok res

/-- The row loop of `QueryApigwRoutes` (`for rows.Next()`): stop at the first
iterator or scan error, otherwise append the scanned entity to `tmp`. -/
def scanRows {ε ρ κ σ : Type} (s : Store ε ρ κ σ) :
    List (Except ε ρ) → List Route → Except ε (List Route)
  | [], tmp => .ok tmp
  | .error err :: _, _ => .error err
  | .ok row :: rest, tmp =>
    match internalApigwRouteRowScanner s row with
    | .error err => .error err
    | .ok res => scanRows s rest (tmp ++ [res])

/-- The function `QueryApigwRoutes`: run the query, scan every row, then copy the
scanned entities into the result. The `check` argument is accepted and, as in
the source, never called. -/
def QueryApigwRoutes {ε ρ κ σ : Type} (s : Store ε ρ κ σ) (q : SelectBuilder κ)
    (_check : Option (Route → Except ε Bool)) (st : σ) : Except ε (List Route) × σ :=
  match s.Query q st with
  | (.error err, st1) => (.error err, st1)
  | (.ok rows, st1) =>
    match scanRows s rows [] with
    | .error err => (.error err, st1)
    | .ok tmp => (.ok (tmp.foldl (fun set res => set ++ [res]) []), st1)

/-- The function `collectApigwRouteCursorValues`: a cursor with `LThen` taken from
the sort set; `collect` binds the ID for every sort expression on column `id`;
because `hasUnique` is never set, `collect` runs once more on `id` ascending. -/
def collectApigwRouteCursorValues (res : Route) (cc : SortExprSet) : PagingCursor :=
  let cursor : PagingCursor :=
    { entries := [], ROrder := false, LThen := SortExprSet.Reversed cc }
  let collect := fun (acc : PagingCursor × Bool) (cc : List SortExpr) =>
    cc.foldl (fun (acc : PagingCursor × Bool) c =>
      if c.Column = "id" then (acc.1.Set c.Column res.ID c.Descending, true) else acc) acc
  let hasUnique := false
  let acc := collect (cursor, false) cc
  let acc := if !hasUnique || !(acc.2 && true) then collect acc [⟨"id", false⟩] else acc
  acc.1

/-- One query issued by the refetch loop: the query, the session state it ran
against, and what `QueryApigwRoutes` returned for it. -/
structure RoundTrip (ε κ σ : Type) where
  query : SelectBuilder κ
  st : σ
  result : Except ε (List Route)

/-- What the refetch loop leaves behind: the accumulated set, `hasNext`, the
error (if the loop returned early with one), the round trips it made and the
final session state. -/
structure LoopResult (ε κ σ : Type) where
  set : List Route
  hasNext : Bool
  err : Option ε
  trips : List (RoundTrip ε κ σ)
  st : σ

/-- The query of one loop iteration (`tryQuery`): the base query, restricted by
the cursor condition when a cursor is active, limited to `limit + 1` rows (in
`uint` arithmetic) when `limit > 0`. -/
def tryQueryOf {κ : Type} (q : SelectBuilder κ) (cursor : Option PagingCursor) (limit : Nat)
    (cursorCond : PagingCursor → κ) : SelectBuilder κ :=
  let tryQuery := match cursor with
    | some c => q.Where (cursorCond c)
    | none => q
  if limit > 0 then tryQuery.Limit ((limit + 1) % uintModulus) else tryQuery

/-- The loop `for try := 0; try < MaxRefetches; try++` of
`fetchFullPageOfApigwRoutes`. The first argument counts the iterations still
allowed (`MaxRefetches - try`); `cursor`, `limit` and `set` are the loop-carried
variables. -/
def fetchLoop {ε ρ κ σ : Type} (c : Consts) (s : Store ε ρ κ σ) (q : SelectBuilder κ)
    (sort : SortExprSet) (reqItems : Nat) (check : Option (Route → Except ε Bool))
    (cursorCond : PagingCursor → κ) :
    Nat → Option PagingCursor → Nat → List Route → σ → LoopResult ε κ σ
  | 0, _, _, set, st => ⟨set, false, none, [], st⟩
  | fuel + 1, cursor, limit, set, st =>
    let tryQuery := tryQueryOf q cursor limit cursorCond
    match QueryApigwRoutes s tryQuery check st with
    | (.error err, st1) => ⟨[], false, some err, [⟨tryQuery, st, .error err⟩], st1⟩
    | (.ok [], st1) => ⟨set, false, none, [⟨tryQuery, st, .ok []⟩], st1⟩
    | (.ok (a :: aux), st1) =>
      let trip : RoundTrip ε κ σ := ⟨tryQuery, st, .ok (a :: aux)⟩
      let set := set ++ a :: aux
      if reqItems = 0 then ⟨set, false, none, [trip], st1⟩
      else
        let collected := set.length
        if reqItems > collected then
          let limit := reqItems - collected
          let limit := if limit < c.MinEnsureFetchLimit then c.MinEnsureFetchLimit else limit
          let cursor : PagingCursor :=
            { collectApigwRouteCursorValues ((a :: aux).getLast (List.cons_ne_nil a aux)) sort with
              LThen := SortExprSet.Reversed sort }
          let r := fetchLoop c s q sort reqItems check cursorCond fuel (some cursor) limit set st1
          { r with trips := trip :: r.trips }
        else if reqItems < collected then ⟨set.take reqItems, true, none, [trip], st1⟩
        else ⟨set, false, none, [trip], st1⟩

/-- What `fetchFullPageOfApigwRoutes` returns (`set`, `prev`, `next`, `err`),
together with the round trips made and the final session state. -/
structure FetchResult (ε κ σ : Type) where
  set : List Route
  prev : Option PagingCursor
  next : Option PagingCursor
  err : Option ε
  trips : List (RoundTrip ε κ σ)
  st : σ

/-- The cursor to the previous page built from entity `res`. -/
def prevCursorOf (res : Route) (sort : SortExprSet) : PagingCursor :=
  { collectApigwRouteCursorValues res sort with
    ROrder := true, LThen := !SortExprSet.Reversed sort }

/-- The cursor to the next page built from entity `res`. -/
def nextCursorOf (res : Route) (sort : SortExprSet) : PagingCursor :=
  { collectApigwRouteCursorValues res sort with LThen := SortExprSet.Reversed sort }

/-- The flag `reversedOrder := cursor != nil && cursor.ROrder`. -/
def reversedOrderOf (cursor : Option PagingCursor) : Bool :=
  match cursor with
  | some cur => cur.ROrder
  | none => false

/-- The function `fetchFullPageOfApigwRoutes`: run the refetch loop, return early
on an error or an empty set, undo the reversed order (the in-place swap loop is
list reversal, and `hasPrev`, `hasNext` trade places), and build the cursors from
`set[0]` and `set[collected-1]`. -/
def fetchFullPageOfApigwRoutes {ε ρ κ σ : Type} (c : Consts) (s : Store ε ρ κ σ)
    (q : SelectBuilder κ) (sort : SortExprSet) (cursor : Option PagingCursor) (reqItems : Nat)
    (check : Option (Route → Except ε Bool)) (cursorCond : PagingCursor → κ) (st : σ) :
    FetchResult ε κ σ :=
  let reversedOrder := reversedOrderOf cursor
  let limit := reqItems
  let hasPrev := cursor.isSome
  let loop := fetchLoop c s q sort reqItems check cursorCond c.MaxRefetches cursor limit [] st
  match loop.err with
  | some err => ⟨[], none, none, some err, loop.trips, loop.st⟩
  | none =>
    if loop.set.length = 0 then ⟨[], none, none, none, loop.trips, loop.st⟩
    else
      let set := if reversedOrder then loop.set.reverse else loop.set
      let hasPrev1 := if reversedOrder then loop.hasNext else hasPrev
      let hasNext1 := if reversedOrder then hasPrev else loop.hasNext
      let prev := if hasPrev1 then set.head?.map fun res => prevCursorOf res sort else none
      let next := if hasNext1 then set.getLast?.map fun res => nextCursorOf res sort else none
      ⟨set, prev, next, none, loop.trips, loop.st⟩

/-- The entities the row source handed to the loop, in order, over all round
trips. -/
def accumulated {ε κ σ : Type} (trips : List (RoundTrip ε κ σ)) : List Route :=
  trips.flatMap fun t =>
    match t.result with
    | .ok rows => rows
    | .error _ => []

/-! ## A table as row source -/

/-- Comparison of two rows under ORDER BY terms, term by term; `id` is the only
sortable column of the table (`sortableApigwRouteColumns`). -/
def orderLE : List SortExpr → Route → Route → Bool
  | [], _, _ => true
  | e :: es, a, b =>
    if e.Column = "id" then
      if a.ID = b.ID then orderLE es a b
      else if e.Descending then decide (b.ID < a.ID) else decide (a.ID < b.ID)
    else orderLE es a b

/-- The rows of a table in the order the ORDER BY terms ask for. -/
def orderRows (ob : List SortExpr) (table : List Route) : List Route :=
  table.insertionSort fun a b => orderLE ob a b = true

/-- Modelled from the spec: `builders.CursorCondition` is not among the sources.
Per the spec the condition keeps the rows beyond the cursor's boundary, `LThen`
choosing the comparison: below the boundary value when set, above it otherwise.
The boundary is on `id`, the only column the route cursor binds. -/
def CursorCondition (cur : PagingCursor) : Route → Bool := fun r =>
  match cur.get "id" with
  | none => true
  | some v => if cur.LThen then decide (r.ID < v) else decide (v < r.ID)

/-- The condition a loop query over a table puts on a row: beyond the cursor when
one is active, none otherwise. -/
def beyondCursor (cursor : Option PagingCursor) (r : Route) : Bool :=
  match cursor with
  | some cur => CursorCondition cur r
  | none => true

/-- The rows of a table a loop query can see: those that satisfy the conditions of
the base query and lie beyond the cursor (if any), in the applied order. -/
def matchingRows (table : List Route) (q : SelectBuilder (Route → Bool))
    (cursor : Option PagingCursor) : List Route :=
  (orderRows q.OrderByParts table).filter fun r =>
    (q.WhereParts.all fun p => p r) && beyondCursor cursor r

/-- A row source over an unchanging table: the rows satisfying every condition, in
the applied order, cut at the LIMIT. It never fails and its raw rows are routes. -/
def tableStore (table : List Route) : Store String Route (Route → Bool) Unit where
  Query q st :=
    let rows := (orderRows q.OrderByParts table).filter fun r => q.WhereParts.all fun p => p r
    let rows := match q.LimitPart with
      | some n => rows.take n
      | none => rows
    (.ok (rows.map .ok), st)
  scan row := .ok row
  isErrNoRows _ := false
  ErrNotFound := "not found"
  errStore err := err

/-- Row `a` comes strictly before row `b` when sorting by `id` in the given
direction (`true` is descending). -/
def strictlyBefore (d : Bool) (a b : Route) : Prop :=
  if d then b.ID < a.ID else a.ID < b.ID

/-- The ordering `SearchApigwRoutes` applies to the query: the sort set, with
every direction flipped when the page cursor is a reversed one. -/
def appliedSort (sort : SortExprSet) (cursor : Option PagingCursor) : SortExprSet :=
  if reversedOrderOf cursor then SortExprSet.Reverse sort else sort

/-- One page of a table: `fetchFullPageOfApigwRoutes` over `tableStore`, the query
ordered as `SearchApigwRoutes` orders it and the cursor condition being
`CursorCondition`. -/
def fetchTablePage (c : Consts) (table : List Route) (sort : SortExprSet) (reqItems : Nat)
    (check : Option (Route → Except String Bool)) (cursor : Option PagingCursor) :
    FetchResult String (Route → Bool) Unit :=
  fetchFullPageOfApigwRoutes c (tableStore table)
    { OrderByParts := appliedSort sort cursor, WhereParts := [], LimitPart := none }
    sort cursor reqItems check CursorCondition ()

/-- Forward traversal: fetch a page, then follow the next cursor it returned,
for at most the given number of pages. -/
def followNext {ε κ σ : Type} (fetch : Option PagingCursor → FetchResult ε κ σ) :
    Nat → Option PagingCursor → List (FetchResult ε κ σ)
  | 0, _ => []
  | fuel + 1, cursor =>
    let page := fetch cursor
    match page.next with
    | none => [page]
    | some next => page :: followNext fetch fuel (some next)

/-- A row source that serves one row on its first query and fails on every later
one; the session state counts the queries made. -/
def flakyStore : Store String Route Unit Nat where
  Query _ n :=
    match n with
    | 0 => (.ok [.ok ⟨1, "", "", false, false, 0, 0, 0, 0, 0, none, none⟩], 1)
    | n + 1 => (.error "connection lost", n + 2)
  scan row := .ok row
  isErrNoRows _ := false
  ErrNotFound := "not found"
  errStore err := err

/-- A route with the given ID and every other column empty. -/
def routeWithID (id : Nat) : Route :=
  { ID := id, Endpoint := "", Method := "", Debug := false, Enabled := false, Group := 0,
    CreatedBy := 0, UpdatedBy := 0, DeletedBy := 0, CreatedAt := 0,
    UpdatedAt := none, DeletedAt := none }

/-- A check predicate that rejects the rows whose ID is even. -/
def rejectEven : Route → Except String Bool := fun r => .ok (r.ID % 2 != 0)

/-- The table with IDs 1 to 10. -/
def tenRoutes : List Route := (List.range 10).map fun i => routeWithID (i + 1)

/-- The sort set: `id` ascending. -/
def sortByID : SortExprSet := [⟨"id", false⟩]

/-! ## Searching routes -/

/-- Modelled from the spec: `SortExprSet.Get` from `pkg/filter`, which is not among
the sources: the first sort expression on the given column, none when the set has
no such column. -/
def SortExprSet.Get (set : SortExprSet) (col : String) : Option SortExpr :=
  set.find? fun e => decide (e.Column = col)

/-- Modelled from the spec: `SortExprSet.LastDescending` from `pkg/filter`, which
is not among the sources: the direction of the trailing sort expression. An empty
set has no trailing expression; the flag is then the zero value, false. -/
def SortExprSet.LastDescending : SortExprSet → Bool
  | [] => false
  | [e] => e.Descending
  | _ :: e :: es => SortExprSet.LastDescending (e :: es)

/-- The method `sortableApigwRouteColumns`: the sortable columns, each with its
name in the table. -/
def sortableApigwRouteColumns : List (String × String) := [("id", "id")]

/-- The step of `SearchApigwRoutes` that makes sure results are always sorted at
least by primary keys: without a sort expression on `id`, one is appended, in the
direction `LastDescending` gives. -/
def normalizeSort (sort : SortExprSet) : SortExprSet :=
  if (SortExprSet.Get sort "id").isNone then
    sort ++ [⟨"id", SortExprSet.LastDescending sort⟩]
  else sort

/-- The fields of `types.RouteFilter` that `SearchApigwRoutes` reads or writes:
the sorting and paging parameters. The field `Sort` is written `sort`, the
capitalised word being reserved. -/
structure RouteFilter where
  sort : SortExprSet
  PageCursor : Option PagingCursor
  PrevPage : Option PagingCursor
  NextPage : Option PagingCursor
  Limit : Nat
deriving DecidableEq, Repr

/-- The functions `SearchApigwRoutes` calls that are not among the sources, taken
as parameters: `convertApigwRouteFilter` (filter to base query), the method
`PageCursor.Sort` (validate the cursor against the sort; both of its results are
kept, the sort set and the error), `setOrderBy` (apply the sort to the query,
given the sortable columns) and `builders.CursorCondition`. -/
structure SearchDeps (ε κ : Type) where
  convertApigwRouteFilter : RouteFilter → Except ε (SelectBuilder κ)
  cursorSort : PagingCursor → SortExprSet → SortExprSet × Option ε
  setOrderBy : SelectBuilder κ → SortExprSet → List (String × String) → Except ε (SelectBuilder κ)
  cursorCondition : PagingCursor → κ

/-- What `SearchApigwRoutes` returns (`set`, the filter `f`, the error), together
with the round trips made and the final session state. -/
structure SearchResult (ε κ σ : Type) where
  set : List Route
  f : RouteFilter
  err : Option ε
  trips : List (RoundTrip ε κ σ)
  st : σ

/-- The cursor validation of `SearchApigwRoutes`: with a page cursor, the sort set
and the error that `PageCursor.Sort` returns for the filter's sort; without one,
the filter's sort and no error. -/
def validatedSort {ε κ : Type} (deps : SearchDeps ε κ) (f : RouteFilter) :
    SortExprSet × Option ε :=
  match f.PageCursor with
  | some cur => deps.cursorSort cur f.sort
  | none => (f.sort, none)

/-- The function `SearchApigwRoutes`. Its body is a closure that assigns `set` and
`f` and returns the error; the returned `set` and `f` are the values the closure
left. No check predicate is passed to the page fetcher. -/
def SearchApigwRoutes {ε ρ κ σ : Type} (c : Consts) (s : Store ε ρ κ σ) (deps : SearchDeps ε κ)
    (f : RouteFilter) (st : σ) : SearchResult ε κ σ :=
  match deps.convertApigwRouteFilter f with
  | .error err => ⟨[], f, some err, [], st⟩
  | .ok q =>
    let f := { f with PrevPage := none, NextPage := none }
    let validated := validatedSort deps f
    let f := { f with sort := validated.1 }
    match validated.2 with
    | some err => ⟨[], f, some err, [], st⟩
    | none =>
      let f := { f with sort := normalizeSort f.sort }
      let sort := appliedSort f.sort f.PageCursor
      match deps.setOrderBy q sort sortableApigwRouteColumns with
      | .error err => ⟨[], f, some err, [], st⟩
      | .ok q =>
        let page := fetchFullPageOfApigwRoutes c s q f.sort f.PageCursor f.Limit none
          deps.cursorCondition st
        let f := { f with PrevPage := page.prev, NextPage := page.next }
        match page.err with
        | some err => ⟨page.set, f, some err, page.trips, page.st⟩
        | none => ⟨page.set, { f with PageCursor := none }, none, page.trips, page.st⟩

/-- Modelled from the spec: collaborators for searching a table. The filter
converts to the query over the whole table; a cursor is valid for a sort set when
its columns are the sort set's, in order (an empty sort set takes the cursor's
columns); a sort is applied when every column is sortable. The three functions
are not among the sources. -/
def tableDeps : SearchDeps String (Route → Bool) where
  convertApigwRouteFilter _ := .ok ⟨[], [], none⟩
  cursorSort cur sort :=
    if sort = [] then (cur.entries.map fun e => ⟨e.key, e.desc⟩, none)
    else if cur.entries.map CursorEntry.key = sort.map SortExpr.Column then (sort, none)
    else ([], some "cursor incompatible with sort")
  setOrderBy q sort sortable :=
    if sort.all fun e => sortable.any fun col => decide (col.1 = e.Column) then
      .ok { q with OrderByParts := q.OrderByParts ++ sort }
    else .error "column is not sortable"
  cursorCondition := CursorCondition

/-! ## Offset paging (`generic_selectors.go`) -/

/-- Modelled from the spec: `rh.PageFilter` is declared in `pkg/rh`, which is not
among the sources. These are the fields the paging functions read, each a `uint`
(a number below `uintModulus`). -/
structure PageFilter where
  Offset : Nat
  Limit : Nat
  Page : Nat
  PerPage : Nat
deriving DecidableEq, Repr

/-- The function `calculatePaging`. The test `o+l == 0`, the subtraction and the
product are in `uint` arithmetic; `p.Page - 1` cannot go below zero because the
page is raised to 1 first. -/
def calculatePaging (p : PageFilter) : Nat × Nat :=
  let o := p.Offset
  let l := p.Limit
  if (o + l) % uintModulus = 0 then
    let l := if p.PerPage > 0 then p.PerPage else l
    let p := if p.Page < 1 then { p with Page := 1 } else p
    let o := ((p.Page - 1) * p.PerPage) % uintModulus
    (o, l)
  else (o, l)

/-- The part of `squirrel.SelectBuilder` the offset paging touches: the builder of
the page fetcher together with the OFFSET. -/
structure PagedSelectBuilder (κ : Type) extends SelectBuilder κ where
  OffsetPart : Option Nat

/-- The builder call `q.Offset(n)`: set the OFFSET. -/
def PagedSelectBuilder.Offset {κ : Type} (q : PagedSelectBuilder κ) (n : Nat) :
    PagedSelectBuilder κ :=
  { q with OffsetPart := some n }

/-- The builder call `q.Limit(n)`: set the LIMIT. -/
def PagedSelectBuilder.Limit {κ : Type} (q : PagedSelectBuilder κ) (n : Nat) :
    PagedSelectBuilder κ :=
  { q with LimitPart := some n }

/-- The function `ApplyPaging`; the conversions `uint64(o)`, `uint64(l)` keep the
value of a 64-bit `uint`. -/
def ApplyPaging {κ : Type} (q : PagedSelectBuilder κ) (p : PageFilter) : PagedSelectBuilder κ :=
  let (o, l) := calculatePaging p
  let q := if o > 0 then q.Offset o else q
  let q := if l > 0 then q.Limit l else q
  q

/-- The database behind `FetchAll`: rendering a query to SQL text (`q.ToSql()`) and
running it (`db.SelectContext`), which yields an error or none. -/
structure SqlDb (ε κ τ : Type) where
  ToSql : PagedSelectBuilder κ → Except ε τ
  SelectContext : τ → Option ε

/-- The function `FetchAll`: render the query and run it; the error of either step
is returned. -/
def FetchAll {ε κ τ : Type} (db : SqlDb ε κ τ) (q : PagedSelectBuilder κ) : Option ε :=
  match db.ToSql q with
  | .error err => some err
  | .ok sqlSelect => db.SelectContext sqlSelect

/-- Lines 69 to 81 of `FetchPaged`: the page filter after the function has filled
in limit and offset from page and page size. -/
def fetchPagedFilter (p : PageFilter) : PageFilter :=
  if (p.Limit + p.Offset) % uintModulus = 0 then
    let p := if p.PerPage > 0 then { p with Limit := p.PerPage } else p
    let p := if p.Page < 1 then { p with Page := 1 } else p
    { p with Offset := ((p.Page - 1) * p.PerPage) % uintModulus }
  else p

/-- Lines 83 to 89 of `FetchPaged`: the query handed to `FetchAll`. -/
def fetchPagedQuery {κ : Type} (q : PagedSelectBuilder κ) (p : PageFilter) :
    PagedSelectBuilder κ :=
  let p := fetchPagedFilter p
  let q := if p.Limit > 0 then q.Limit p.Limit else q
  let q := if p.Offset > 0 then q.Offset p.Offset else q
  q

/-- The deprecated function `FetchPaged`. -/
def FetchPaged {ε κ τ : Type} (db : SqlDb ε κ τ) (q : PagedSelectBuilder κ) (p : PageFilter) :
    Option ε :=
  FetchAll db (fetchPagedQuery q p)

/-! ## Run-time failures -/

/-- What a Go call does: it returns a value, or it fails at run time (a panic). -/
inductive Run (α : Type) where
  | returns : α → Run α
  | panics : Run α
deriving DecidableEq, Repr

/-! ## Script triggers (`pkg/corredor/util.go`) -/

/-- Modelled from the spec: `corredor.Trigger` is declared in another file of the
package, which is not among the sources. These are the fields `util.go` reads. -/
structure Trigger where
  EventTypes : List String
  ResourceTypes : List String
deriving DecidableEq, Repr

/-- The loop of `popOnManualEventType`. The first argument is `i + 1` for the
loop variable `i`, which runs from `len - 1` down to `0`; the list is the
trigger's `EventTypes` and the flag is `found`. Indexing outside the list fails
at run time; `append(s[:i], s[i+1:]...)` is the list without its element `i`. -/
def popOnManualLoop (onManualEventType : String) :
    Nat → List String → Bool → Run (List String × Bool)
  | 0, eventTypes, found => .returns (eventTypes, found)
  | i + 1, eventTypes, found =>
    match eventTypes[i]? with
    | none => .panics
    | some e =>
      if e = onManualEventType then
        popOnManualLoop onManualEventType i (eventTypes.take i ++ eventTypes.drop (i + 1)) true
      else popOnManualLoop onManualEventType i eventTypes found

/-- The function `popOnManualEventType`: the trigger after the call, and `found`.
The constant `onManualEventType` is declared outside the sources and is a
parameter. -/
def popOnManualEventType (onManualEventType : String) (trigger : Trigger) :
    Run (Trigger × Bool) :=
  match popOnManualLoop onManualEventType trigger.EventTypes.length trigger.EventTypes false with
  | .panics => .panics
  | .returns (eventTypes, found) => .returns ({ trigger with EventTypes := eventTypes }, found)

/-- Modelled from the spec: `corredor.Script` is declared outside the sources. This
is the field `makeScriptFilter` reads. -/
structure Script where
  Triggers : List Trigger
deriving DecidableEq, Repr

/-- Modelled from the spec: `corredor.Filter` is declared outside the sources. These
are the fields `makeScriptFilter` reads. -/
structure Filter where
  ResourceTypes : List String
  EventTypes : List String
deriving DecidableEq, Repr

/-- Modelled from the spec: `slice.IntersectStrings` lives in `pkg/slice`, which is
not among the sources. By its name and its use it yields the strings of the first
slice that also occur in the second. -/
def IntersectStrings (a b : List String) : List String :=
  a.filter fun x => b.contains x

/-- The predicate `makeScriptFilter(f)` applied to a script: the pair `(b, err)`.
The helper `slice.IntersectStrings` is a parameter. -/
def makeScriptFilter (intersect : List String → List String → List String) (f : Filter)
    (s : Script) : Bool × Option String :=
  let b := true
  let err : Option String := none
  if f.ResourceTypes.length > 0 then
    let b := s.Triggers.foldl
      (fun b t => if (intersect f.ResourceTypes t.ResourceTypes).length > 0 then true else b) false
    if !b then (b, err)
    else if f.EventTypes.length > 0 then
      let b := s.Triggers.foldl
        (fun b t => if (intersect f.EventTypes t.EventTypes).length > 0 then true else b) false
      (b, err)
    else (b, err)
  else if f.EventTypes.length > 0 then
    let b := s.Triggers.foldl
      (fun b t => if (intersect f.EventTypes t.EventTypes).length > 0 then true else b) false
    (b, err)
  else (b, err)

/-! ## File store (`internal/store/store.go`) -/

/-- The bytes of a string; Go strings are byte sequences, and `len` and slicing
count bytes. -/
def bytes (s : String) : List UInt8 := s.toUTF8.data.toList

/-- The two errors `store.check` returns. -/
inductive CheckError where
  | invalidFilename
  | invalidNamespace
deriving DecidableEq, Repr

/-- The method `store.check`; `ns` is the receiver's field `namespace` (a reserved
word here). The result is the returned error, none for `nil`. The slice
expression `filename[:len(s.namespace)+1]` fails at run time when the bound
exceeds the length of `filename`. -/
def store.check (ns filename : List UInt8) : Run (Option CheckError) :=
  if filename.length = 0 then .returns (some .invalidFilename)
  else if ns.length + 1 > filename.length then .panics
  else if filename.take (ns.length + 1) ≠ ns ++ bytes "/" then
    .returns (some .invalidNamespace)
  else .returns none

/-! ## Script results (`automation/automation/jsenv_handler.go`) -/

/-- The value a script function yields, by dynamic type as the type switch of
`execute` tells them apart: `uint64`, `int64`, `string`, or a value of any other
type. -/
inductive JsValue (α : Type) where
  | uint64 : Nat → JsValue α
  | int64 : Int → JsValue α
  | string : String → JsValue α
  | other : α → JsValue α
deriving DecidableEq, Repr

/-- Modelled from the spec: `jsenvExecuteArgs` is declared in another file of the
package, which is not among the sources. These are the fields `execute` reads. -/
structure jsenvExecuteArgs where
  hasSource : Bool
  Source : String
  hasScope : Bool
  scopeString : String
deriving DecidableEq, Repr

/-- Modelled from the spec: `jsenvExecuteResults` is declared outside the sources.
These are the fields `execute` writes; `ResultAny` is an interface value, none
when `nil`. -/
structure jsenvExecuteResults (α : Type) where
  ResultInt : Int
  ResultString : String
  ResultAny : Option (JsValue α)
deriving DecidableEq, Repr

/-- The script engine (`pkg/jsenv`, not among the sources): registering a function
from its source and executing it in a scope; either may fail. -/
structure JsEnv (α φ : Type) where
  RegisterFunction : String → Except String φ
  Exec : φ → String → Except String (JsValue α)

/-- The conversion `int64(v)` of a `uint64`: the same 64 bits read as a signed
number. -/
def toInt64 (v : Nat) : Int :=
  if v % 2 ^ 64 < 2 ^ 63 then (v % 2 ^ 64 : Nat) else ((v % 2 ^ 64 : Nat) : Int) - 2 ^ 64

/-- The method `jsenvHandler.execute`: the pair `(res, err)`. In the case
`uint64, int64` of the type switch `vv` keeps the interface type, and the type
assertion `vv.(uint64)` fails at run time when the dynamic type is `int64`. -/
def jsenvHandler.execute {α φ : Type} (vm : JsEnv α φ) (args : jsenvExecuteArgs) :
    Run (jsenvExecuteResults α × Option String) :=
  let res : jsenvExecuteResults α := ⟨0, "", none⟩
  if !args.hasSource then .returns (res, some "could not process payload, function missing")
  else if !args.hasScope then .returns (res, some "could not process payload, scope missing")
  else
    match vm.RegisterFunction args.Source with
    | .error err => .returns (res, some ("could not register jsenv function: " ++ err))
    | .ok fn =>
      match vm.Exec fn args.scopeString with
      | .error err => .returns (res, some ("could not exec jsenv function: " ++ err))
      | .ok (.uint64 v) => .returns ({ res with ResultInt := toInt64 v }, none)
      | .ok (.int64 _) => .panics
      | .ok (.string v) => .returns ({ res with ResultString := v }, none)
      | .ok (.other v) => .returns ({ res with ResultAny := some (.other v) }, none)

/-- A script engine whose every function yields the given value. -/
def constEnv {α : Type} (out : JsValue α) : JsEnv α Unit where
  RegisterFunction _ := .ok ()
  Exec _ _ := .ok out

/-! ## Attachment previews (`crm/service/attachment.go`) -/

/-- The constant `attachmentPreviewMaxWidth`. -/
def attachmentPreviewMaxWidth : Nat := 320

/-- The constant `attachmentPreviewMaxHeight`. -/
def attachmentPreviewMaxHeight : Nat := 180

/-- Modelled from the spec: `imaging.Resize` belongs to an external library that is
not among the sources. This is the size of the image it returns for a source of
size `srcW` by `srcH`: a target dimension given as 0 is chosen to preserve the
aspect ratio, rounded to the nearest pixel and at least 1; the rounding is taken
in exact arithmetic. Without a target, or for an empty source, the result is an
empty image. -/
def resizeBounds (srcW srcH width height : Nat) : Nat × Nat :=
  if width = 0 ∧ height = 0 then (0, 0)
  else if srcW = 0 ∨ srcH = 0 then (0, 0)
  else
    let dstW := if width = 0 then max 1 ((2 * height * srcW + srcH) / (2 * srcH)) else width
    let dstH := if height = 0 then max 1 ((2 * dstW * srcH + srcW) / (2 * srcW)) else height
    (dstW, dstH)

/-- Lines 255 to 267 of `attachment.processImage`: the size of the preview chosen
for an image of the given width and height (`preview.Bounds().Max`, the bounds of
a decoded image starting at the origin). -/
def attachment.processImage (width height : Nat) : Nat × Nat :=
  if width > attachmentPreviewMaxWidth ∧ width > height then
    resizeBounds width height attachmentPreviewMaxWidth 0
  else if height > attachmentPreviewMaxHeight then
    resizeBounds width height 0 attachmentPreviewMaxHeight
  else (width, height)

/-! ## Properties of the refetch loop -/

theorem accumulated_nil {ε κ σ : Type} : accumulated ([] : List (RoundTrip ε κ σ)) = [] := rfl

theorem accumulated_cons {ε κ σ : Type} (t : RoundTrip ε κ σ) (ts : List (RoundTrip ε κ σ)) :
    accumulated (t :: ts) = accumulated [t] ++ accumulated ts := by
  simp [accumulated]

theorem accumulated_ok {ε κ σ : Type} (q : SelectBuilder κ) (st : σ) (rows : List Route) :
    accumulated [(⟨q, st, .ok rows⟩ : RoundTrip ε κ σ)] = rows := by
  simp [accumulated]

theorem accumulated_error {ε κ σ : Type} (q : SelectBuilder κ) (st : σ) (e : ε) :
    accumulated [(⟨q, st, .error e⟩ : RoundTrip ε κ σ)] = [] := by
  simp [accumulated]

/-- Unfolding of one iteration of the loop. -/
theorem fetchLoop_succ {ε ρ κ σ : Type} (c : Consts) (s : Store ε ρ κ σ) (q : SelectBuilder κ)
    (sort : SortExprSet) (N : Nat) (check : Option (Route → Except ε Bool))
    (cursorCond : PagingCursor → κ) (fuel : Nat) (cursor : Option PagingCursor) (limit : Nat)
    (set : List Route) (st : σ) :
    fetchLoop c s q sort N check cursorCond (fuel + 1) cursor limit set st =
      match QueryApigwRoutes s (tryQueryOf q cursor limit cursorCond) check st with
      | (.error err, st1) =>
        ⟨[], false, some err, [⟨tryQueryOf q cursor limit cursorCond, st, .error err⟩], st1⟩
      | (.ok [], st1) => ⟨set, false, none, [⟨tryQueryOf q cursor limit cursorCond, st, .ok []⟩], st1⟩
      | (.ok (a :: aux), st1) =>
        if N = 0 then
          ⟨set ++ a :: aux, false, none,
            [⟨tryQueryOf q cursor limit cursorCond, st, .ok (a :: aux)⟩], st1⟩
        else if N > (set ++ a :: aux).length then
          let r := fetchLoop c s q sort N check cursorCond fuel
            (some { collectApigwRouteCursorValues ((a :: aux).getLast (List.cons_ne_nil a aux)) sort
                    with LThen := SortExprSet.Reversed sort })
            (if N - (set ++ a :: aux).length < c.MinEnsureFetchLimit then c.MinEnsureFetchLimit
              else N - (set ++ a :: aux).length)
            (set ++ a :: aux) st1
          { r with trips := ⟨tryQueryOf q cursor limit cursorCond, st, .ok (a :: aux)⟩ :: r.trips }
        else if N < (set ++ a :: aux).length then
          ⟨(set ++ a :: aux).take N, true, none,
            [⟨tryQueryOf q cursor limit cursorCond, st, .ok (a :: aux)⟩], st1⟩
        else
          ⟨set ++ a :: aux, false, none,
            [⟨tryQueryOf q cursor limit cursorCond, st, .ok (a :: aux)⟩], st1⟩ := by
  rfl

/-- The loop invariant for a requested size `N > 0`, on a successful run started
with fewer than `N` entities: the final set is the start set followed by all rows
received, cut at `N`; `hasNext` tells whether anything was cut; and a further
query was made only while fewer than `N` entities were held. -/
theorem fetchLoop_acc {ε ρ κ σ : Type} (c : Consts) (s : Store ε ρ κ σ) (q : SelectBuilder κ)
    (sort : SortExprSet) (N : Nat) (check : Option (Route → Except ε Bool))
    (cursorCond : PagingCursor → κ) (hN : 0 < N) :
    ∀ (fuel : Nat) (cursor : Option PagingCursor) (limit : Nat) (set : List Route) (st : σ),
      set.length < N →
      (fetchLoop c s q sort N check cursorCond fuel cursor limit set st).err = none →
      (N < (set ++ accumulated (fetchLoop c s q sort N check cursorCond fuel cursor limit set st).trips).length →
        (fetchLoop c s q sort N check cursorCond fuel cursor limit set st).set =
          (set ++ accumulated (fetchLoop c s q sort N check cursorCond fuel cursor limit set st).trips).take N ∧
        (fetchLoop c s q sort N check cursorCond fuel cursor limit set st).hasNext = true) ∧
      ((set ++ accumulated (fetchLoop c s q sort N check cursorCond fuel cursor limit set st).trips).length ≤ N →
        (fetchLoop c s q sort N check cursorCond fuel cursor limit set st).set =
          set ++ accumulated (fetchLoop c s q sort N check cursorCond fuel cursor limit set st).trips ∧
        (fetchLoop c s q sort N check cursorCond fuel cursor limit set st).hasNext = false) ∧
      ∀ k, k < (fetchLoop c s q sort N check cursorCond fuel cursor limit set st).trips.length →
        (set ++ accumulated ((fetchLoop c s q sort N check cursorCond fuel cursor limit set st).trips.take k)).length < N := by
  intro fuel
  induction fuel with
  | zero =>
    intro cursor limit set st hlt _
    simp [fetchLoop, accumulated]
    omega
  | succ fuel ih =>
    intro cursor limit set st hlt
    rw [fetchLoop_succ]
    rcases hq : QueryApigwRoutes s (tryQueryOf q cursor limit cursorCond) check st with ⟨res, st1⟩
    rcases res with err | rows
    · simp
    · cases rows with
      | nil =>
        simp [accumulated]
        omega
      | cons a aux =>
        simp only []
        rw [if_neg (Nat.pos_iff_ne_zero.mp hN)]
        by_cases h1 : N > (set ++ a :: aux).length
        · rw [if_pos h1]
          intro herr
          have ih1 := ih (some { collectApigwRouteCursorValues ((a :: aux).getLast (List.cons_ne_nil a aux)) sort
                    with LThen := SortExprSet.Reversed sort })
            (if N - (set ++ a :: aux).length < c.MinEnsureFetchLimit then c.MinEnsureFetchLimit
              else N - (set ++ a :: aux).length) (set ++ a :: aux) st1 h1 herr
          simp only [] at ih1 ⊢
          rw [accumulated_cons, accumulated_ok, ← List.append_assoc]
          refine ⟨ih1.1, ih1.2.1, ?_⟩
          intro k hk
          cases k with
          | zero => simpa [accumulated] using hlt
          | succ k =>
            rw [List.take_succ_cons, accumulated_cons, accumulated_ok, ← List.append_assoc]
            exact ih1.2.2 k (by simpa using hk)
        · rw [if_neg h1]
          by_cases h2 : N < (set ++ a :: aux).length
          · rw [if_pos h2]
            intro _
            simp only [accumulated_ok]
            refine ⟨fun _ => by simp, fun h => absurd h (by omega), ?_⟩
            intro k hk
            have hk0 : k = 0 := by simpa using hk
            subst hk0
            simpa [accumulated] using hlt
          · rw [if_neg h2]
            intro _
            simp only [accumulated_ok]
            refine ⟨fun h => absurd h (by omega), fun _ => by simp, ?_⟩
            intro k hk
            have hk0 : k = 0 := by simpa using hk
            subst hk0
            simpa [accumulated] using hlt

/-- With no requested size the loop makes at most one round trip and keeps all of
it. -/
theorem fetchLoop_unbounded {ε ρ κ σ : Type} (c : Consts) (s : Store ε ρ κ σ)
    (q : SelectBuilder κ) (sort : SortExprSet) (check : Option (Route → Except ε Bool))
    (cursorCond : PagingCursor → κ) (fuel : Nat) (cursor : Option PagingCursor) (limit : Nat)
    (set : List Route) (st : σ)
    (herr : (fetchLoop c s q sort 0 check cursorCond fuel cursor limit set st).err = none) :
    (fetchLoop c s q sort 0 check cursorCond fuel cursor limit set st).set =
        set ++ accumulated (fetchLoop c s q sort 0 check cursorCond fuel cursor limit set st).trips ∧
      (fetchLoop c s q sort 0 check cursorCond fuel cursor limit set st).hasNext = false := by
  cases fuel with
  | zero => simp [fetchLoop, accumulated]
  | succ fuel =>
    rw [fetchLoop_succ] at herr ⊢
    rcases hq : QueryApigwRoutes s (tryQueryOf q cursor limit cursorCond) check st with ⟨res, st1⟩
    rw [hq] at herr
    rcases res with err | rows
    · simp at herr
    · cases rows with
      | nil => simp [accumulated]
      | cons a aux => simp [accumulated]

/-- A round trip that ended in an error is the last one, and the loop returns
that error with an empty set. -/
theorem fetchLoop_error_set {ε ρ κ σ : Type} (c : Consts) (s : Store ε ρ κ σ)
    (q : SelectBuilder κ) (sort : SortExprSet) (N : Nat) (check : Option (Route → Except ε Bool))
    (cursorCond : PagingCursor → κ) :
    ∀ (fuel : Nat) (cursor : Option PagingCursor) (limit : Nat) (set : List Route) (st : σ)
      (i : Nat) (t : RoundTrip ε κ σ) (e : ε),
      (fetchLoop c s q sort N check cursorCond fuel cursor limit set st).trips[i]? = some t →
      t.result = .error e →
      i + 1 = (fetchLoop c s q sort N check cursorCond fuel cursor limit set st).trips.length ∧
      (fetchLoop c s q sort N check cursorCond fuel cursor limit set st).err = some e ∧
      (fetchLoop c s q sort N check cursorCond fuel cursor limit set st).set = [] := by
  intro fuel
  induction fuel with
  | zero =>
    intro cursor limit set st i t e hi
    simp [fetchLoop] at hi
  | succ fuel ih =>
    intro cursor limit set st i t e
    rw [fetchLoop_succ]
    rcases hq : QueryApigwRoutes s (tryQueryOf q cursor limit cursorCond) check st with ⟨res, st1⟩
    rcases res with err | rows
    · intro hi h
      cases i with
      | zero =>
        simp at hi
        subst hi
        simp at h
        simp [h]
      | succ i => simp at hi
    · cases rows with
      | nil =>
        intro hi h
        cases i with
        | zero =>
          simp at hi
          subst hi
          simp at h
        | succ i => simp at hi
      | cons a aux =>
        simp only []
        by_cases h0 : N = 0
        · simp only [if_pos h0]
          intro hi h
          cases i with
          | zero =>
            simp at hi
            subst hi
            simp at h
          | succ i => simp at hi
        · simp only [if_neg h0]
          by_cases h1 : N > (set ++ a :: aux).length
          · simp only [if_pos h1]
            intro hi h
            cases i with
            | zero =>
              simp at hi
              subst hi
              simp at h
            | succ i =>
              simp only [List.getElem?_cons_succ] at hi
              have := ih _ _ _ _ i t e hi h
              exact ⟨by simpa using this.1, this.2.1, this.2.2⟩
          · simp only [if_neg h1]
            by_cases h2 : N < (set ++ a :: aux).length
            · simp only [if_pos h2]
              intro hi h
              cases i with
              | zero =>
                simp at hi
                subst hi
                simp at h
              | succ i => simp at hi
            · simp only [if_neg h2]
              intro hi h
              cases i with
              | zero =>
                simp at hi
                subst hi
                simp at h
              | succ i => simp at hi

/-- An error the loop returns is the result of its last round trip. -/
theorem fetchLoop_err_trip {ε ρ κ σ : Type} (c : Consts) (s : Store ε ρ κ σ)
    (q : SelectBuilder κ) (sort : SortExprSet) (N : Nat) (check : Option (Route → Except ε Bool))
    (cursorCond : PagingCursor → κ) :
    ∀ (fuel : Nat) (cursor : Option PagingCursor) (limit : Nat) (set : List Route) (st : σ)
      (e : ε),
      (fetchLoop c s q sort N check cursorCond fuel cursor limit set st).err = some e →
      ∃ t, t ∈ (fetchLoop c s q sort N check cursorCond fuel cursor limit set st).trips ∧
        t.result = .error e := by
  intro fuel
  induction fuel with
  | zero =>
    intro cursor limit set st e h
    simp [fetchLoop] at h
  | succ fuel ih =>
    intro cursor limit set st e
    rw [fetchLoop_succ]
    rcases hq : QueryApigwRoutes s (tryQueryOf q cursor limit cursorCond) check st with ⟨res, st1⟩
    rcases res with err | rows
    · intro h
      simp at h
      simp [h]
    · cases rows with
      | nil => intro h; simp at h
      | cons a aux =>
        simp only []
        split
        · intro h; simp at h
        · split
          · intro h
            obtain ⟨t, ht, hte⟩ := ih _ _ _ _ e h
            exact ⟨t, List.mem_cons_of_mem _ ht, hte⟩
          · split
            · intro h; simp at h
            · intro h; simp at h

/-- Every recorded round trip holds what `QueryApigwRoutes` returned for its
query in its session state. -/
theorem fetchLoop_trip_result {ε ρ κ σ : Type} (c : Consts) (s : Store ε ρ κ σ)
    (q : SelectBuilder κ) (sort : SortExprSet) (N : Nat) (check : Option (Route → Except ε Bool))
    (cursorCond : PagingCursor → κ) :
    ∀ (fuel : Nat) (cursor : Option PagingCursor) (limit : Nat) (set : List Route) (st : σ)
      (t : RoundTrip ε κ σ),
      t ∈ (fetchLoop c s q sort N check cursorCond fuel cursor limit set st).trips →
      t.result = (QueryApigwRoutes s t.query check t.st).1 := by
  intro fuel
  induction fuel with
  | zero =>
    intro cursor limit set st t h
    simp [fetchLoop] at h
  | succ fuel ih =>
    intro cursor limit set st t
    rw [fetchLoop_succ]
    rcases hq : QueryApigwRoutes s (tryQueryOf q cursor limit cursorCond) check st with ⟨res, st1⟩
    rcases res with err | rows
    · intro h
      simp at h
      subst h
      simp [hq]
    · cases rows with
      | nil =>
        intro h
        simp at h
        subst h
        simp [hq]
      | cons a aux =>
        simp only []
        split
        · intro h
          simp at h
          subst h
          simp [hq]
        · split
          · intro h
            rcases List.mem_cons.mp h with h | h
            · subst h
              simp [hq]
            · exact ih _ _ _ _ t h
          · split
            · intro h
              simp at h
              subst h
              simp [hq]
            · intro h
              simp at h
              subst h
              simp [hq]

/-- An error of the query executor is what `QueryApigwRoutes` returns, unchanged. -/
theorem QueryApigwRoutes_query_error {ε ρ κ σ : Type} (s : Store ε ρ κ σ) (q : SelectBuilder κ)
    (check : Option (Route → Except ε Bool)) (st : σ) (e : ε)
    (h : (s.Query q st).1 = .error e) : (QueryApigwRoutes s q check st).1 = .error e := by
  unfold QueryApigwRoutes
  rcases hq : s.Query q st with ⟨res, st1⟩
  rw [hq] at h
  simp only at h
  subst h
  rfl

/-- No rows from the query executor: `QueryApigwRoutes` returns no entities. -/
theorem QueryApigwRoutes_no_rows {ε ρ κ σ : Type} (s : Store ε ρ κ σ) (q : SelectBuilder κ)
    (check : Option (Route → Except ε Bool)) (st : σ)
    (h : (s.Query q st).1 = .ok []) : (QueryApigwRoutes s q check st).1 = .ok [] := by
  unfold QueryApigwRoutes
  rcases hq : s.Query q st with ⟨res, st1⟩
  rw [hq] at h
  simp only at h
  subst h
  rfl

/-! ### From the loop to the returned page -/

/-- The round trips of a fetch are those of its loop. -/
theorem fetchFullPage_trips {ε ρ κ σ : Type} (c : Consts) (s : Store ε ρ κ σ)
    (q : SelectBuilder κ) (sort : SortExprSet) (cursor : Option PagingCursor) (N : Nat)
    (check : Option (Route → Except ε Bool)) (cursorCond : PagingCursor → κ) (st : σ) :
    (fetchFullPageOfApigwRoutes c s q sort cursor N check cursorCond st).trips =
      (fetchLoop c s q sort N check cursorCond c.MaxRefetches cursor N [] st).trips := by
  unfold fetchFullPageOfApigwRoutes
  simp only []
  split
  · rfl
  · split <;> rfl

/-- The error of a fetch is the error of its loop. -/
theorem fetchFullPage_err {ε ρ κ σ : Type} (c : Consts) (s : Store ε ρ κ σ)
    (q : SelectBuilder κ) (sort : SortExprSet) (cursor : Option PagingCursor) (N : Nat)
    (check : Option (Route → Except ε Bool)) (cursorCond : PagingCursor → κ) (st : σ) :
    (fetchFullPageOfApigwRoutes c s q sort cursor N check cursorCond st).err =
      (fetchLoop c s q sort N check cursorCond c.MaxRefetches cursor N [] st).err := by
  unfold fetchFullPageOfApigwRoutes
  simp only []
  split
  · next e h => rw [h]
  · next h => split <;> rw [h]

/-- A loop error makes the fetch return nothing else. -/
theorem fetchFullPage_of_error {ε ρ κ σ : Type} (c : Consts) (s : Store ε ρ κ σ)
    (q : SelectBuilder κ) (sort : SortExprSet) (cursor : Option PagingCursor) (N : Nat)
    (check : Option (Route → Except ε Bool)) (cursorCond : PagingCursor → κ) (st : σ) (e : ε)
    (h : (fetchLoop c s q sort N check cursorCond c.MaxRefetches cursor N [] st).err = some e) :
    (fetchFullPageOfApigwRoutes c s q sort cursor N check cursorCond st).set = [] ∧
    (fetchFullPageOfApigwRoutes c s q sort cursor N check cursorCond st).prev = none ∧
    (fetchFullPageOfApigwRoutes c s q sort cursor N check cursorCond st).next = none := by
  unfold fetchFullPageOfApigwRoutes
  simp [h]

/-- What a fetch returns after a successful loop, in terms of the loop's set and
`hasNext`; the formulas also cover the empty set. -/
theorem fetchFullPage_of_ok {ε ρ κ σ : Type} (c : Consts) (s : Store ε ρ κ σ)
    (q : SelectBuilder κ) (sort : SortExprSet) (cursor : Option PagingCursor) (N : Nat)
    (check : Option (Route → Except ε Bool)) (cursorCond : PagingCursor → κ) (st : σ)
    (h : (fetchLoop c s q sort N check cursorCond c.MaxRefetches cursor N [] st).err = none) :
    (fetchFullPageOfApigwRoutes c s q sort cursor N check cursorCond st).set =
      (if reversedOrderOf cursor then
        (fetchLoop c s q sort N check cursorCond c.MaxRefetches cursor N [] st).set.reverse
       else (fetchLoop c s q sort N check cursorCond c.MaxRefetches cursor N [] st).set) ∧
    (fetchFullPageOfApigwRoutes c s q sort cursor N check cursorCond st).prev =
      (if (if reversedOrderOf cursor then
            (fetchLoop c s q sort N check cursorCond c.MaxRefetches cursor N [] st).hasNext
           else cursor.isSome) then
        (fetchFullPageOfApigwRoutes c s q sort cursor N check cursorCond st).set.head?.map
          fun res => prevCursorOf res sort
       else none) ∧
    (fetchFullPageOfApigwRoutes c s q sort cursor N check cursorCond st).next =
      (if (if reversedOrderOf cursor then cursor.isSome
           else (fetchLoop c s q sort N check cursorCond c.MaxRefetches cursor N [] st).hasNext) then
        (fetchFullPageOfApigwRoutes c s q sort cursor N check cursorCond st).set.getLast?.map
          fun res => nextCursorOf res sort
       else none) := by
  unfold fetchFullPageOfApigwRoutes
  simp only [h]
  by_cases h0 : (fetchLoop c s q sort N check cursorCond c.MaxRefetches cursor N [] st).set.length = 0
  · have hnil := List.length_eq_zero.mp h0
    simp [hnil]
  · have h1 : (fetchLoop c s q sort N check cursorCond c.MaxRefetches cursor N [] st).set ≠ [] :=
      fun hnil => h0 (by rw [hnil]; rfl)
    simp [h1]

/-- For a successful loop started on an empty set, `hasNext` is set exactly when a
size was requested and more than that many entities were accumulated; the set is
what was accumulated, cut at the requested size. -/
theorem fetchLoop_result {ε ρ κ σ : Type} (c : Consts) (s : Store ε ρ κ σ)
    (q : SelectBuilder κ) (sort : SortExprSet) (N : Nat) (check : Option (Route → Except ε Bool))
    (cursorCond : PagingCursor → κ) (fuel : Nat) (cursor : Option PagingCursor) (limit : Nat)
    (st : σ)
    (herr : (fetchLoop c s q sort N check cursorCond fuel cursor limit [] st).err = none) :
    ((fetchLoop c s q sort N check cursorCond fuel cursor limit [] st).hasNext = true ↔
      (0 < N ∧ N < (accumulated
        (fetchLoop c s q sort N check cursorCond fuel cursor limit [] st).trips).length)) ∧
    (fetchLoop c s q sort N check cursorCond fuel cursor limit [] st).set =
      if 0 < N then
        (accumulated (fetchLoop c s q sort N check cursorCond fuel cursor limit [] st).trips).take N
      else accumulated (fetchLoop c s q sort N check cursorCond fuel cursor limit [] st).trips := by
  rcases Nat.eq_zero_or_pos N with h0 | hN
  · subst h0
    have h := fetchLoop_unbounded c s q sort check cursorCond fuel cursor limit [] st herr
    simp only [List.nil_append] at h
    simp [h.1, h.2]
  · have h := fetchLoop_acc c s q sort N check cursorCond hN fuel cursor limit [] st
      (by simpa using hN) herr
    simp only [List.nil_append] at h
    by_cases hlt : N < (accumulated
        (fetchLoop c s q sort N check cursorCond fuel cursor limit [] st).trips).length
    · simp [(h.1 hlt).1, (h.1 hlt).2, hN, hlt]
    · have hle := h.2.1 (by omega)
      rw [if_pos hN, List.take_of_length_le (by omega)]
      simp [hle.1, hle.2, hlt]

theorem PagingCursor.Set_ROrder (p : PagingCursor) (k : String) (v : Nat) (d : Bool) :
    (p.Set k v d).ROrder = p.ROrder := by
  unfold PagingCursor.Set
  split <;> rfl

theorem collect_fold_ROrder (res : Route) (cc : List SortExpr) :
    ∀ acc : PagingCursor × Bool,
      (cc.foldl (fun (acc : PagingCursor × Bool) c =>
        if c.Column = "id" then (acc.1.Set c.Column res.ID c.Descending, true) else acc) acc).1.ROrder
        = acc.1.ROrder := by
  induction cc with
  | nil => intro acc; rfl
  | cons x xs ih =>
    intro acc
    rw [List.foldl_cons, ih]
    split
    · exact PagingCursor.Set_ROrder _ _ _ _
    · rfl

/-- A freshly collected cursor is not a reversed one. -/
theorem collectApigwRouteCursorValues_ROrder (res : Route) (cc : SortExprSet) :
    (collectApigwRouteCursorValues res cc).ROrder = false := by
  unfold collectApigwRouteCursorValues
  simp only []
  split
  · rw [collect_fold_ROrder, collect_fold_ROrder]
  · rw [collect_fold_ROrder]

/-- If every query the loop made came back without rows, the fetch returns
nothing: no entities, no cursors, no error. -/
theorem fetchFullPage_no_rows {ε ρ κ σ : Type} (c : Consts) (s : Store ε ρ κ σ)
    (q : SelectBuilder κ) (sort : SortExprSet) (cursor : Option PagingCursor) (N : Nat)
    (check : Option (Route → Except ε Bool)) (cursorCond : PagingCursor → κ) (st : σ)
    (hrows : ∀ t, t ∈ (fetchFullPageOfApigwRoutes c s q sort cursor N check cursorCond st).trips →
        t.result = .ok []) :
    (fetchFullPageOfApigwRoutes c s q sort cursor N check cursorCond st).set = [] ∧
    (fetchFullPageOfApigwRoutes c s q sort cursor N check cursorCond st).prev = none ∧
    (fetchFullPageOfApigwRoutes c s q sort cursor N check cursorCond st).next = none ∧
    (fetchFullPageOfApigwRoutes c s q sort cursor N check cursorCond st).err = none := by
  rw [fetchFullPage_trips] at hrows
  have hok : (fetchLoop c s q sort N check cursorCond c.MaxRefetches cursor N [] st).err = none := by
    cases herr : (fetchLoop c s q sort N check cursorCond c.MaxRefetches cursor N [] st).err with
    | none => rfl
    | some e =>
      obtain ⟨t, ht, hte⟩ := fetchLoop_err_trip c s q sort N check cursorCond _ _ _ _ _ e herr
      rw [hrows t ht] at hte
      exact absurd hte (by simp)
  have hacc : accumulated
      (fetchLoop c s q sort N check cursorCond c.MaxRefetches cursor N [] st).trips = [] := by
    unfold accumulated
    rw [List.flatMap_eq_nil_iff]
    intro t ht
    rw [hrows t ht]
  obtain ⟨hset, hprev, hnext⟩ := fetchFullPage_of_ok c s q sort cursor N check cursorCond st hok
  have hloop := (fetchLoop_result c s q sort N check cursorCond c.MaxRefetches cursor N st hok).2
  rw [hacc] at hloop
  have hnil : (fetchLoop c s q sort N check cursorCond c.MaxRefetches cursor N [] st).set = [] := by
    rw [hloop]
    split <;> simp
  have hset1 : (fetchFullPageOfApigwRoutes c s q sort cursor N check cursorCond st).set = [] := by
    rw [hset, hnil]
    simp
  refine ⟨hset1, ?_, ?_, by rw [fetchFullPage_err]; exact hok⟩
  · rw [hprev, hset1]
    simp
  · rw [hnext, hset1]
    simp

/-- If the first query yields no rows, no query the loop made returned any. -/
theorem fetchFullPage_first_query_empty {ε ρ κ σ : Type} (c : Consts) (s : Store ε ρ κ σ)
    (q : SelectBuilder κ) (sort : SortExprSet) (cursor : Option PagingCursor) (N : Nat)
    (check : Option (Route → Except ε Bool)) (cursorCond : PagingCursor → κ) (st : σ)
    (hfirst : (s.Query (tryQueryOf q cursor N cursorCond) st).1 = .ok []) :
    ∀ t, t ∈ (fetchFullPageOfApigwRoutes c s q sort cursor N check cursorCond st).trips →
        t.result = .ok [] := by
  intro t ht
  rw [fetchFullPage_trips] at ht
  have hq := QueryApigwRoutes_no_rows s (tryQueryOf q cursor N cursorCond) check st hfirst
  cases hfuel : c.MaxRefetches with
  | zero =>
    rw [hfuel] at ht
    simp [fetchLoop] at ht
  | succ fuel =>
    rw [hfuel, fetchLoop_succ] at ht
    rcases hqq : QueryApigwRoutes s (tryQueryOf q cursor N cursorCond) check st with ⟨res, st1⟩
    rw [hqq] at hq ht
    simp only at hq
    subst hq
    simp only [List.mem_singleton] at ht
    subst ht
    rfl

/-! ### The table as row source -/

theorem copy_fold (tmp : List Route) :
    ∀ set : List Route, tmp.foldl (fun set res => set ++ [res]) set = set ++ tmp := by
  induction tmp with
  | nil => intro set; simp
  | cons x xs ih => intro set; rw [List.foldl_cons, ih]; simp

theorem scanRows_tableStore (table rows : List Route) :
    ∀ tmp : List Route, scanRows (tableStore table) (rows.map .ok) tmp = .ok (tmp ++ rows) := by
  induction rows with
  | nil => intro tmp; simp [scanRows]
  | cons x xs ih =>
    intro tmp
    simp only [List.map_cons, scanRows, internalApigwRouteRowScanner, tableStore]
    have := ih (tmp ++ [x])
    simp only [tableStore] at this
    rw [this]
    simp

/-- What `QueryApigwRoutes` returns over a table: the rows that satisfy the
conditions, in the applied order, cut at the limit. -/
theorem QueryApigwRoutes_tableStore (table : List Route) (q : SelectBuilder (Route → Bool))
    (check : Option (Route → Except String Bool)) :
    QueryApigwRoutes (tableStore table) q check () =
      (.ok (match q.LimitPart with
        | some n => ((orderRows q.OrderByParts table).filter
            fun r => q.WhereParts.all fun p => p r).take n
        | none => (orderRows q.OrderByParts table).filter
            fun r => q.WhereParts.all fun p => p r), ()) := by
  unfold QueryApigwRoutes
  have h : (tableStore table).Query q () =
      (.ok ((match q.LimitPart with
        | some n => ((orderRows q.OrderByParts table).filter
            fun r => q.WhereParts.all fun p => p r).take n
        | none => (orderRows q.OrderByParts table).filter
            fun r => q.WhereParts.all fun p => p r).map .ok), ()) := rfl
  rw [h]
  simp only [scanRows_tableStore, copy_fold, List.nil_append]

/-- Ordering by `id` alone: equal IDs, or strictly before. -/
theorem orderLE_id (d : Bool) (a b : Route) :
    (orderLE [⟨"id", d⟩] a b = true) ↔ (a.ID = b.ID ∨ strictlyBefore d a b) := by
  unfold strictlyBefore
  simp only [orderLE]
  by_cases h : a.ID = b.ID
  · simp [h]
  · cases d <;> simp [h]

theorem orderRows_perm (ob : List SortExpr) (table : List Route) :
    (orderRows ob table).Perm table :=
  List.perm_insertionSort _ table

/-- Sorting a table with pairwise distinct IDs by `id` puts every row strictly
before the rows that follow it. -/
theorem orderRows_sorted (d : Bool) (table : List Route) (hnd : (table.map Route.ID).Nodup) :
    (orderRows [⟨"id", d⟩] table).Pairwise (strictlyBefore d) := by
  haveI : IsTotal Route (fun a b => orderLE [⟨"id", d⟩] a b = true) := ⟨by
    intro a b
    rw [orderLE_id, orderLE_id]
    unfold strictlyBefore
    cases d <;> simp <;> omega⟩
  haveI : IsTrans Route (fun a b => orderLE [⟨"id", d⟩] a b = true) := ⟨by
    intro a b c
    rw [orderLE_id, orderLE_id, orderLE_id]
    unfold strictlyBefore
    cases d <;> simp <;> omega⟩
  have hs : (orderRows [⟨"id", d⟩] table).Pairwise (fun a b => orderLE [⟨"id", d⟩] a b = true) :=
    List.sorted_insertionSort _ table
  have hn : ((orderRows [⟨"id", d⟩] table).map Route.ID).Nodup :=
    ((orderRows_perm _ table).map Route.ID).nodup_iff.mpr hnd
  have hn1 : (orderRows [⟨"id", d⟩] table).Pairwise (fun a b => a.ID ≠ b.ID) :=
    List.pairwise_map.mp hn
  refine (hs.and hn1).imp ?_
  intro a b hab
  rcases (orderLE_id d a b).mp hab.1 with h | h
  · exact absurd h hab.2
  · exact h

theorem strictlyBefore_flip (d : Bool) (a b : Route) :
    strictlyBefore (!d) a b ↔ strictlyBefore d b a := by
  unfold strictlyBefore
  cases d <;> simp

/-- Sorting in the flipped direction gives the reversed list. -/
theorem orderRows_flip (d : Bool) (table : List Route) (hnd : (table.map Route.ID).Nodup) :
    orderRows [⟨"id", !d⟩] table = (orderRows [⟨"id", d⟩] table).reverse := by
  haveI : IsAntisymm Route (strictlyBefore (!d)) := ⟨by
    intro a b hab hba
    unfold strictlyBefore at hab hba
    cases d <;> simp at hab hba <;> omega⟩
  apply List.eq_of_perm_of_sorted _ (orderRows_sorted (!d) table hnd)
  · have h := orderRows_sorted d table hnd
    rw [List.Sorted, List.pairwise_reverse]
    exact h.imp (fun {a b} hab => (strictlyBefore_flip d b a).mpr hab)
  · exact (orderRows_perm _ table).trans
      ((orderRows_perm _ table).symm.trans (List.reverse_perm _).symm)

/-- The rows strictly after the last row of a sorted prefix are exactly the rest. -/
theorem filter_after_boundary (d : Bool) (pre post : List Route) (x : Route) (p : Route → Bool)
    (hp : ∀ r, p r = true ↔ strictlyBefore d x r)
    (hs : (pre ++ post).Pairwise (strictlyBefore d)) (hx : pre.getLast? = some x) :
    (pre ++ post).filter p = post := by
  rw [List.pairwise_append] at hs
  obtain ⟨hpre, _, hcross⟩ := hs
  have hxmem : x ∈ pre := List.mem_of_getLast?_eq_some hx
  rw [List.filter_append]
  have h1 : pre.filter p = [] := by
    rw [List.filter_eq_nil_iff]
    intro y hy
    rw [hp]
    obtain ⟨init, rfl⟩ : ∃ init, pre = init ++ [x] := List.getLast?_eq_some_iff.mp hx
    rw [List.pairwise_append] at hpre
    rcases List.mem_append.mp hy with hy | hy
    · have := hpre.2.2 y hy x (by simp)
      unfold strictlyBefore at this ⊢
      cases d <;> simp at this ⊢ <;> omega
    · have : y = x := by simpa using hy
      subst this
      unfold strictlyBefore
      cases d <;> simp
  have h2 : post.filter p = post := by
    rw [List.filter_eq_self]
    intro y hy
    exact (hp y).mpr (hcross x hxmem y hy)
  rw [h1, h2]
  rfl

/-- The cursor collected under a sort set of `id` alone binds `id` once. -/
theorem collect_id (x : Route) (d : Bool) :
    collectApigwRouteCursorValues x [⟨"id", d⟩] = ⟨[⟨"id", x.ID, d⟩], false, d⟩ := by
  cases d <;> rfl

theorem nextCursorOf_id (x : Route) (d : Bool) :
    nextCursorOf x [⟨"id", d⟩] = ⟨[⟨"id", x.ID, d⟩], false, d⟩ := by
  unfold nextCursorOf
  rw [collect_id]
  rfl

theorem prevCursorOf_id (x : Route) (d : Bool) :
    prevCursorOf x [⟨"id", d⟩] = ⟨[⟨"id", x.ID, d⟩], true, !d⟩ := by
  unfold prevCursorOf
  rw [collect_id]
  rfl

/-- The condition of a cursor bound to the ID of `x` keeps the rows strictly
beyond `x` in the direction its `LThen` flag names. -/
theorem CursorCondition_id (x : Route) (d l ro : Bool) (r : Route) :
    CursorCondition ⟨[⟨"id", x.ID, d⟩], ro, l⟩ r = true ↔ strictlyBefore l x r := by
  have hget : PagingCursor.get ⟨[⟨"id", x.ID, d⟩], ro, l⟩ "id" = some x.ID := rfl
  unfold CursorCondition strictlyBefore
  rw [hget]
  cases l <;> simp

theorem beyondCursor_none : beyondCursor none = fun _ => true := rfl

theorem beyondCursor_some (cur : PagingCursor) : beyondCursor (some cur) = CursorCondition cur :=
  rfl

/-- The rows a loop query over a table returns: those beyond the cursor, in the
applied order, cut at the limit plus one. -/
theorem tryQuery_tableStore (table : List Route) (ob : List SortExpr)
    (cursor : Option PagingCursor) (limit : Nat) (hl : 0 < limit)
    (check : Option (Route → Except String Bool)) :
    QueryApigwRoutes (tableStore table) (tryQueryOf ⟨ob, [], none⟩ cursor limit CursorCondition)
      check () =
      (.ok (((orderRows ob table).filter (beyondCursor cursor)).take ((limit + 1) % uintModulus)), ()) := by
  rw [QueryApigwRoutes_tableStore]
  unfold tryQueryOf
  simp only [hl, if_true, gt_iff_lt]
  cases cursor with
  | none => simp [SelectBuilder.Limit, beyondCursor_none]
  | some cur =>
    rw [beyondCursor_some]
    simp [SelectBuilder.Limit, SelectBuilder.Where]

/-- One query suffices when at least the requested number of rows is available. -/
theorem fetchLoop_table_enough (c : Consts) (table : List Route) (ob : List SortExpr)
    (sort : SortExprSet) (N : Nat) (check : Option (Route → Except String Bool))
    (cursor : Option PagingCursor) (fuel : Nat) (avail : List Route)
    (hN : 0 < N) (hN64 : N + 1 < uintModulus)
    (havail : ((orderRows ob table).filter (beyondCursor cursor)) = avail)
    (hlen : N ≤ avail.length) :
    (fetchLoop c (tableStore table) ⟨ob, [], none⟩ sort N check CursorCondition (fuel + 1)
      cursor N [] ()).set = avail.take N ∧
    (fetchLoop c (tableStore table) ⟨ob, [], none⟩ sort N check CursorCondition (fuel + 1)
      cursor N [] ()).hasNext = decide (N < avail.length) ∧
    (fetchLoop c (tableStore table) ⟨ob, [], none⟩ sort N check CursorCondition (fuel + 1)
      cursor N [] ()).err = none := by
  rw [fetchLoop_succ, tryQuery_tableStore table ob cursor N hN check, havail,
    Nat.mod_eq_of_lt hN64]
  rcases hA : avail.take (N + 1) with _ | ⟨a, aux⟩
  · have : (avail.take (N + 1)).length = 0 := by rw [hA]; rfl
    rw [List.length_take] at this
    omega
  · have hl : (a :: aux).length = min (N + 1) avail.length := by rw [← hA, List.length_take]
    simp only [List.nil_append]
    rw [if_neg (by omega), if_neg (by omega)]
    by_cases hlt : N < avail.length
    · rw [if_pos (by omega)]
      simp only [hlt, decide_True, and_true]
      rw [← hA, List.take_take]
      simp
    · rw [if_neg (by omega)]
      simp only [hlt, decide_False, and_true]
      rw [← hA, List.take_of_length_le (by omega), List.take_of_length_le (by omega)]

/-- When fewer rows than requested are available and nothing lies beyond the last
of them, the loop keeps exactly those rows, whether or not it may query again. -/
theorem fetchLoop_table_short (c : Consts) (table : List Route) (ob : List SortExpr)
    (sort : SortExprSet) (N : Nat) (check : Option (Route → Except String Bool))
    (cursor : Option PagingCursor) (fuel : Nat) (avail : List Route) (last : Route)
    (hN : 0 < N) (hN64 : N + 1 < uintModulus)
    (havail : ((orderRows ob table).filter (beyondCursor cursor)) = avail)
    (hlen : avail.length < N) (hlast : avail.getLast? = some last)
    (hbeyond : (orderRows ob table).filter (CursorCondition (nextCursorOf last sort)) = []) :
    (fetchLoop c (tableStore table) ⟨ob, [], none⟩ sort N check CursorCondition (fuel + 1)
      cursor N [] ()).set = avail ∧
    (fetchLoop c (tableStore table) ⟨ob, [], none⟩ sort N check CursorCondition (fuel + 1)
      cursor N [] ()).hasNext = false ∧
    (fetchLoop c (tableStore table) ⟨ob, [], none⟩ sort N check CursorCondition (fuel + 1)
      cursor N [] ()).err = none := by
  rw [fetchLoop_succ, tryQuery_tableStore table ob cursor N hN check, havail,
    Nat.mod_eq_of_lt hN64, List.take_of_length_le (by omega)]
  cases avail with
  | nil => simp at hlast
  | cons a aux =>
    have hl : (a :: aux).getLast (List.cons_ne_nil a aux) = last := by
      rw [List.getLast?_eq_getLast _ (List.cons_ne_nil a aux)] at hlast
      exact Option.some.inj hlast
    simp only [List.nil_append]
    rw [if_neg (by omega), if_pos (by simpa using hlen), hl]
    have hcur : ({ collectApigwRouteCursorValues last sort with
        LThen := SortExprSet.Reversed sort } : PagingCursor) = nextCursorOf last sort := rfl
    rw [hcur]
    cases fuel with
    | zero => simp [fetchLoop]
    | succ fuel =>
      have hpos : 0 < (if N - (a :: aux).length < c.MinEnsureFetchLimit then c.MinEnsureFetchLimit
          else N - (a :: aux).length) := by
        split <;> omega
      rw [fetchLoop_succ, tryQuery_tableStore table ob _ _ hpos check]
      simp only [beyondCursor_some, hbeyond, List.take_nil]
      simp

theorem reversedOrderOf_forward (pre : List Route) (d : Bool) :
    reversedOrderOf (pre.getLast?.map fun x => nextCursorOf x [⟨"id", d⟩]) = false := by
  cases pre.getLast? with
  | none => rfl
  | some x =>
    simp only [Option.map_some', reversedOrderOf, nextCursorOf_id]

/-- A forward page of a table: with the sorted table split into the rows already
served (`pre`) and the rows still to come (`post`, non-empty), fetching with the
next cursor of the last served row (or without a cursor at the start) returns the
first `N` rows to come, with a next cursor exactly when more than `N` remain. -/
theorem fetchTablePage_forward (c : Consts) (table : List Route) (d : Bool) (N : Nat)
    (check : Option (Route → Except String Bool)) (pre post : List Route)
    (hnd : (table.map Route.ID).Nodup) (hN : 0 < N) (hN64 : N + 1 < uintModulus)
    (hR : 1 ≤ c.MaxRefetches) (hS : orderRows [⟨"id", d⟩] table = pre ++ post)
    (hpost : post ≠ []) :
    (fetchTablePage c table [⟨"id", d⟩] N check
      (pre.getLast?.map fun x => nextCursorOf x [⟨"id", d⟩])).set = post.take N ∧
    (fetchTablePage c table [⟨"id", d⟩] N check
      (pre.getLast?.map fun x => nextCursorOf x [⟨"id", d⟩])).err = none ∧
    (fetchTablePage c table [⟨"id", d⟩] N check
      (pre.getLast?.map fun x => nextCursorOf x [⟨"id", d⟩])).next =
      (if N < post.length then
        (post.take N).getLast?.map fun x => nextCursorOf x [⟨"id", d⟩]
       else none) ∧
    (fetchTablePage c table [⟨"id", d⟩] N check
      (pre.getLast?.map fun x => nextCursorOf x [⟨"id", d⟩])).prev =
      (if pre = [] then none
       else (post.take N).head?.map fun x => prevCursorOf x [⟨"id", d⟩]) := by
  have hsorted := orderRows_sorted d table hnd
  rw [hS] at hsorted
  have hfwd := reversedOrderOf_forward pre d
  obtain ⟨fuel, hfuel⟩ : ∃ fuel, c.MaxRefetches = fuel + 1 := ⟨c.MaxRefetches - 1, by omega⟩
  -- the rows the first query can see
  have havail : (orderRows [⟨"id", d⟩] table).filter
      (beyondCursor (pre.getLast?.map fun x => nextCursorOf x [⟨"id", d⟩])) = post := by
    rw [hS]
    cases hx : pre.getLast? with
    | none =>
      have : pre = [] := List.getLast?_eq_none_iff.mp hx
      subst this
      simp [beyondCursor_none]
    | some x =>
      simp only [Option.map_some', beyondCursor_some]
      exact filter_after_boundary d pre post x _
        (fun r => by rw [nextCursorOf_id]; exact CursorCondition_id x d d false r) hsorted hx
  have hloop : (fetchLoop c (tableStore table) ⟨[⟨"id", d⟩], [], none⟩ [⟨"id", d⟩] N check
        CursorCondition c.MaxRefetches
        (pre.getLast?.map fun x => nextCursorOf x [⟨"id", d⟩]) N [] ()).set = post.take N ∧
      (fetchLoop c (tableStore table) ⟨[⟨"id", d⟩], [], none⟩ [⟨"id", d⟩] N check
        CursorCondition c.MaxRefetches
        (pre.getLast?.map fun x => nextCursorOf x [⟨"id", d⟩]) N [] ()).hasNext
          = decide (N < post.length) ∧
      (fetchLoop c (tableStore table) ⟨[⟨"id", d⟩], [], none⟩ [⟨"id", d⟩] N check
        CursorCondition c.MaxRefetches
        (pre.getLast?.map fun x => nextCursorOf x [⟨"id", d⟩]) N [] ()).err = none := by
    rw [hfuel]
    by_cases hlen : N ≤ post.length
    · exact fetchLoop_table_enough c table _ _ N check _ fuel post hN hN64 havail hlen
    · obtain ⟨last, hlast⟩ := Option.isSome_iff_exists.mp (List.getLast?_isSome.mpr hpost)
      have hbeyond : (orderRows [⟨"id", d⟩] table).filter
          (CursorCondition (nextCursorOf last [⟨"id", d⟩])) = [] := by
        rw [hS]
        have h := filter_after_boundary d (pre ++ post) [] last
          (CursorCondition (nextCursorOf last [⟨"id", d⟩]))
          (fun r => by rw [nextCursorOf_id]; exact CursorCondition_id last d d false r)
          (by simpa using hsorted)
          (by rw [List.getLast?_append_of_ne_nil _ hpost]; exact hlast)
        simpa using h
      have h := fetchLoop_table_short c table _ [⟨"id", d⟩] N check _ fuel post last hN hN64
        havail (by omega) hlast hbeyond
      rw [List.take_of_length_le (by omega)]
      refine ⟨h.1, ?_, h.2.2⟩
      rw [h.2.1]
      simp
      omega
  have hq : (fetchTablePage c table [⟨"id", d⟩] N check
      (pre.getLast?.map fun x => nextCursorOf x [⟨"id", d⟩])) =
      fetchFullPageOfApigwRoutes c (tableStore table) ⟨[⟨"id", d⟩], [], none⟩ [⟨"id", d⟩]
        (pre.getLast?.map fun x => nextCursorOf x [⟨"id", d⟩]) N check CursorCondition () := by
    unfold fetchTablePage appliedSort
    rw [hfwd]
    rfl
  rw [hq]
  obtain ⟨hset, hprev, hnext⟩ := fetchFullPage_of_ok c (tableStore table)
    ⟨[⟨"id", d⟩], [], none⟩ [⟨"id", d⟩]
    (pre.getLast?.map fun x => nextCursorOf x [⟨"id", d⟩]) N check CursorCondition () hloop.2.2
  rw [hfwd] at hset hprev hnext
  simp only [Bool.false_eq_true, if_false] at hset hprev hnext
  rw [hloop.1] at hset
  refine ⟨hset, by rw [fetchFullPage_err]; exact hloop.2.2, ?_, ?_⟩
  · rw [hnext, hloop.2.1, hset]
    simp
  · rw [hprev, hset]
    cases hx : pre.getLast? with
    | none =>
      have : pre = [] := List.getLast?_eq_none_iff.mp hx
      simp [this]
    | some x =>
      have : pre ≠ [] := by
        intro h
        rw [h] at hx
        simp at hx
      simp [this]

/-- A backward page of a table: with the sorted table split into `pre` and `post`,
fetching with the prev cursor of the first row of `post`, the query ordered in the
flipped direction, returns the last `N` rows of `pre` in forward order, provided
`pre` holds at least `N` rows. -/
theorem fetchTablePage_backward (c : Consts) (table : List Route) (d : Bool) (N : Nat)
    (check : Option (Route → Except String Bool)) (pre post : List Route) (x : Route)
    (hnd : (table.map Route.ID).Nodup) (hN : 0 < N) (hN64 : N + 1 < uintModulus)
    (hR : 1 ≤ c.MaxRefetches) (hS : orderRows [⟨"id", d⟩] table = pre ++ post)
    (hx : post.head? = some x) (hlen : N ≤ pre.length) :
    (fetchTablePage c table [⟨"id", d⟩] N check (some (prevCursorOf x [⟨"id", d⟩]))).set
      = pre.drop (pre.length - N) ∧
    (fetchTablePage c table [⟨"id", d⟩] N check (some (prevCursorOf x [⟨"id", d⟩]))).err
      = none := by
  have hsorted := orderRows_sorted (!d) table hnd
  rw [orderRows_flip d table hnd, hS, List.reverse_append] at hsorted
  have hrev : reversedOrderOf (some (prevCursorOf x [⟨"id", d⟩])) = true := by
    rw [prevCursorOf_id]
    rfl
  obtain ⟨fuel, hfuel⟩ : ∃ fuel, c.MaxRefetches = fuel + 1 := ⟨c.MaxRefetches - 1, by omega⟩
  have havail : (orderRows [⟨"id", !d⟩] table).filter
      (beyondCursor (some (prevCursorOf x [⟨"id", d⟩]))) = pre.reverse := by
    rw [orderRows_flip d table hnd, hS, List.reverse_append, beyondCursor_some]
    exact filter_after_boundary (!d) post.reverse pre.reverse x _
      (fun r => by rw [prevCursorOf_id]; exact CursorCondition_id x d (!d) true r) hsorted
      (by rw [List.getLast?_reverse]; exact hx)
  have hloop := fetchLoop_table_enough c table [⟨"id", !d⟩] [⟨"id", d⟩] N check
    (some (prevCursorOf x [⟨"id", d⟩])) fuel pre.reverse hN hN64 havail (by simpa using hlen)
  rw [← hfuel] at hloop
  have hq : (fetchTablePage c table [⟨"id", d⟩] N check (some (prevCursorOf x [⟨"id", d⟩]))) =
      fetchFullPageOfApigwRoutes c (tableStore table) ⟨[⟨"id", !d⟩], [], none⟩ [⟨"id", d⟩]
        (some (prevCursorOf x [⟨"id", d⟩])) N check CursorCondition () := by
    unfold fetchTablePage appliedSort
    rw [hrev]
    rfl
  rw [hq]
  obtain ⟨hset, _, _⟩ := fetchFullPage_of_ok c (tableStore table)
    ⟨[⟨"id", !d⟩], [], none⟩ [⟨"id", d⟩]
    (some (prevCursorOf x [⟨"id", d⟩])) N check CursorCondition () hloop.2.2
  rw [hrev, hloop.1] at hset
  refine ⟨?_, by rw [fetchFullPage_err]; exact hloop.2.2⟩
  rw [hset]
  simp only [if_true]
  rw [List.reverse_take]
  simp

/-! ### Forward traversal of a table -/

theorem followNext_succ {ε κ σ : Type} (fetch : Option PagingCursor → FetchResult ε κ σ)
    (fuel : Nat) (cursor : Option PagingCursor) :
    followNext fetch (fuel + 1) cursor =
      match (fetch cursor).next with
      | none => [fetch cursor]
      | some next => fetch cursor :: followNext fetch fuel (some next) := rfl

/-- Forward traversal from a split of the sorted table serves exactly the rows
still to come, in ceil(rows / N) pages, none of them failing. -/
theorem followNext_covers (c : Consts) (table : List Route) (d : Bool) (N : Nat)
    (check : Option (Route → Except String Bool))
    (hnd : (table.map Route.ID).Nodup) (hN : 0 < N) (hN64 : N + 1 < uintModulus)
    (hR : 1 ≤ c.MaxRefetches) :
    ∀ (fuel : Nat) (pre post : List Route), orderRows [⟨"id", d⟩] table = pre ++ post →
      post ≠ [] → post.length ≤ fuel →
      ((followNext (fetchTablePage c table [⟨"id", d⟩] N check) fuel
        (pre.getLast?.map fun x => nextCursorOf x [⟨"id", d⟩])).map FetchResult.set).flatten = post ∧
      (followNext (fetchTablePage c table [⟨"id", d⟩] N check) fuel
        (pre.getLast?.map fun x => nextCursorOf x [⟨"id", d⟩])).length = (post.length + N - 1) / N ∧
      (∀ p, p ∈ followNext (fetchTablePage c table [⟨"id", d⟩] N check) fuel
        (pre.getLast?.map fun x => nextCursorOf x [⟨"id", d⟩]) → p.err = none) := by
  intro fuel
  induction fuel with
  | zero =>
    intro pre post _ hpost hlen
    exact absurd (List.length_eq_zero.mp (Nat.le_zero.mp hlen)) hpost
  | succ fuel ih =>
    intro pre post hS hpost hlen
    obtain ⟨hset, herr, hnext, _⟩ :=
      fetchTablePage_forward c table d N check pre post hnd hN hN64 hR hS hpost
    rw [followNext_succ, hnext]
    by_cases hlt : N < post.length
    · have htake : post.take N ≠ [] := by
        intro h
        have : (post.take N).length = 0 := by rw [h]; rfl
        rw [List.length_take] at this
        omega
      obtain ⟨y, hy⟩ := Option.isSome_iff_exists.mp (List.getLast?_isSome.mpr htake)
      have hcur : (pre ++ post.take N).getLast?.map (fun x => nextCursorOf x [⟨"id", d⟩]) =
          some (nextCursorOf y [⟨"id", d⟩]) := by
        rw [List.getLast?_append_of_ne_nil _ htake, hy]
        rfl
      rw [if_pos hlt, hy]
      simp only [Option.map_some']
      rw [← hcur]
      have hdrop : post.drop N ≠ [] := by
        intro h
        have : (post.drop N).length = 0 := by rw [h]; rfl
        rw [List.length_drop] at this
        omega
      have ih1 := ih (pre ++ post.take N) (post.drop N)
        (by rw [List.append_assoc, List.take_append_drop]; exact hS) hdrop
        (by rw [List.length_drop]; omega)
      refine ⟨?_, ?_, ?_⟩
      · rw [List.map_cons, List.flatten_cons, ih1.1, hset, List.take_append_drop]
      · rw [List.length_cons, ih1.2.1, List.length_drop]
        have h1 : post.length + N - 1 = (post.length - N + N - 1) + N := by omega
        rw [h1, Nat.add_div_right _ hN]
      · intro p hp
        rcases List.mem_cons.mp hp with hp | hp
        · rw [hp]; exact herr
        · exact ih1.2.2 p hp
    · rw [if_neg hlt]
      simp only [List.map_cons, List.map_nil, List.flatten_cons, List.flatten_nil,
        List.append_nil, List.length_singleton, List.mem_singleton]
      refine ⟨?_, ?_, ?_⟩
      · rw [hset, List.take_of_length_le (by omega)]
      · have hpos : 0 < post.length := List.length_pos.mpr hpost
        have h1 : (post.length + N - 1) / N = 1 := by
          apply Nat.div_eq_of_lt_le <;> omega
        omega
      · intro p hp
        rw [hp]; exact herr

/-- A forward traversal that is given enough steps ends on a page without a next
cursor. -/
theorem followNext_last (c : Consts) (table : List Route) (d : Bool) (N : Nat)
    (check : Option (Route → Except String Bool))
    (hnd : (table.map Route.ID).Nodup) (hN : 0 < N) (hN64 : N + 1 < uintModulus)
    (hR : 1 ≤ c.MaxRefetches) :
    ∀ (fuel : Nat) (pre post : List Route), orderRows [⟨"id", d⟩] table = pre ++ post →
      post ≠ [] → post.length ≤ fuel →
      ∀ p, (followNext (fetchTablePage c table [⟨"id", d⟩] N check) fuel
        (pre.getLast?.map fun x => nextCursorOf x [⟨"id", d⟩])).getLast? = some p →
        p.next = none := by
  intro fuel
  induction fuel with
  | zero =>
    intro pre post _ hpost hlen
    exact absurd (List.length_eq_zero.mp (Nat.le_zero.mp hlen)) hpost
  | succ fuel ih =>
    intro pre post hS hpost hlen p
    obtain ⟨_, _, hnext, _⟩ :=
      fetchTablePage_forward c table d N check pre post hnd hN hN64 hR hS hpost
    rw [followNext_succ]
    by_cases hlt : N < post.length
    · have htake : post.take N ≠ [] := by
        intro h
        have : (post.take N).length = 0 := by rw [h]; rfl
        rw [List.length_take] at this
        omega
      obtain ⟨y, hy⟩ := Option.isSome_iff_exists.mp (List.getLast?_isSome.mpr htake)
      have hcur : (pre ++ post.take N).getLast?.map (fun x => nextCursorOf x [⟨"id", d⟩]) =
          some (nextCursorOf y [⟨"id", d⟩]) := by
        rw [List.getLast?_append_of_ne_nil _ htake, hy]
        rfl
      rw [hnext, if_pos hlt, hy]
      simp only [Option.map_some']
      rw [← hcur]
      have hdrop : post.drop N ≠ [] := by
        intro h
        have : (post.drop N).length = 0 := by rw [h]; rfl
        rw [List.length_drop] at this
        omega
      have hS1 : orderRows [⟨"id", d⟩] table = (pre ++ post.take N) ++ post.drop N := by
        rw [List.append_assoc, List.take_append_drop]; exact hS
      have hfuel : (post.drop N).length ≤ fuel := by rw [List.length_drop]; omega
      have hlen1 := (followNext_covers c table d N check hnd hN hN64 hR fuel
        (pre ++ post.take N) (post.drop N) hS1 hdrop hfuel).2.1
      have ih1 := ih (pre ++ post.take N) (post.drop N) hS1 hdrop hfuel p
      cases hrest : followNext (fetchTablePage c table [⟨"id", d⟩] N check) fuel
          ((pre ++ post.take N).getLast?.map fun x => nextCursorOf x [⟨"id", d⟩]) with
      | nil =>
        rw [hrest, List.length_nil] at hlen1
        have hpos : 0 < (post.drop N).length := List.length_pos.mpr hdrop
        have : 0 < ((post.drop N).length + N - 1) / N := Nat.div_pos (by omega) hN
        omega
      | cons r rs =>
        rw [hrest] at ih1
        rw [List.getLast?_cons_cons]
        exact ih1
    · intro hp
      rw [hnext, if_neg hlt] at hp
      simp only [List.getLast?_singleton, Option.some.injEq] at hp
      rw [← hp, hnext, if_neg hlt]

/-- A traversal of at least one step starts with the page fetched first. -/
theorem followNext_head {ε κ σ : Type} (fetch : Option PagingCursor → FetchResult ε κ σ)
    (fuel : Nat) (cursor : Option PagingCursor) :
    (followNext fetch (fuel + 1) cursor)[0]? = some (fetch cursor) := by
  rw [followNext_succ]
  split <;> simp

/-- In a forward traversal from a split of the sorted table, the prev cursor of
any page but the first fetches the page served just before it. -/
theorem followNext_prev (c : Consts) (table : List Route) (d : Bool) (N : Nat)
    (check : Option (Route → Except String Bool))
    (hnd : (table.map Route.ID).Nodup) (hN : 0 < N) (hN64 : N + 1 < uintModulus)
    (hR : 1 ≤ c.MaxRefetches) :
    ∀ (fuel : Nat) (pre post : List Route), orderRows [⟨"id", d⟩] table = pre ++ post →
      post ≠ [] →
      ∀ (k : Nat) (Q P : FetchResult String (Route → Bool) Unit),
      (followNext (fetchTablePage c table [⟨"id", d⟩] N check) fuel
        (pre.getLast?.map fun x => nextCursorOf x [⟨"id", d⟩]))[k]? = some Q →
      (followNext (fetchTablePage c table [⟨"id", d⟩] N check) fuel
        (pre.getLast?.map fun x => nextCursorOf x [⟨"id", d⟩]))[k + 1]? = some P →
      ∃ cur, P.prev = some cur ∧
        (fetchTablePage c table [⟨"id", d⟩] N check (some cur)).set = Q.set ∧
        (fetchTablePage c table [⟨"id", d⟩] N check (some cur)).err = none := by
  intro fuel
  induction fuel with
  | zero =>
    intro pre post _ _ k Q P hQ
    simp [followNext] at hQ
  | succ fuel ih =>
    intro pre post hS hpost k Q P
    obtain ⟨hset, _, hnext, _⟩ :=
      fetchTablePage_forward c table d N check pre post hnd hN hN64 hR hS hpost
    rw [followNext_succ, hnext]
    by_cases hlt : N < post.length
    · have htake : post.take N ≠ [] := by
        intro h
        have : (post.take N).length = 0 := by rw [h]; rfl
        rw [List.length_take] at this
        omega
      obtain ⟨y, hy⟩ := Option.isSome_iff_exists.mp (List.getLast?_isSome.mpr htake)
      have hcur : (pre ++ post.take N).getLast?.map (fun x => nextCursorOf x [⟨"id", d⟩]) =
          some (nextCursorOf y [⟨"id", d⟩]) := by
        rw [List.getLast?_append_of_ne_nil _ htake, hy]
        rfl
      rw [if_pos hlt, hy]
      simp only [Option.map_some']
      rw [← hcur]
      have hdrop : post.drop N ≠ [] := by
        intro h
        have : (post.drop N).length = 0 := by rw [h]; rfl
        rw [List.length_drop] at this
        omega
      have hS1 : orderRows [⟨"id", d⟩] table = (pre ++ post.take N) ++ post.drop N := by
        rw [List.append_assoc, List.take_append_drop]; exact hS
      cases k with
      | succ k =>
        intro hQ hP
        rw [List.getElem?_cons_succ] at hQ hP
        exact ih (pre ++ post.take N) (post.drop N) hS1 hdrop k Q P hQ hP
      | zero =>
        intro hQ hP
        rw [List.getElem?_cons_zero] at hQ
        rw [List.getElem?_cons_succ] at hP
        have hQ1 := Option.some.inj hQ
        cases fuel with
        | zero => simp [followNext] at hP
        | succ fuel =>
          rw [followNext_head] at hP
          have hP1 := Option.some.inj hP
          obtain ⟨x, hx⟩ := Option.isSome_iff_exists.mp (List.head?_isSome.mpr hdrop)
          obtain ⟨_, _, _, hprev⟩ := fetchTablePage_forward c table d N check
            (pre ++ post.take N) (post.drop N) hnd hN hN64 hR hS1 hdrop
          have hpre : pre ++ post.take N ≠ [] := by simp [htake]
          rw [if_neg hpre, List.head?_take, if_neg (by omega), hx] at hprev
          have hback := fetchTablePage_backward c table d N check
            (pre ++ post.take N) (post.drop N) x hnd hN hN64 hR hS1 hx
            (by rw [List.length_append, List.length_take]; omega)
          refine ⟨prevCursorOf x [⟨"id", d⟩], by rw [← hP1]; exact hprev, ?_, hback.2⟩
          rw [hback.1, ← hQ1, hset]
          have hl : (post.take N).length = N := by rw [List.length_take]; omega
          rw [List.length_append, hl, Nat.add_sub_cancel]
          exact List.drop_left _ _
    · rw [if_neg hlt]
      intro _ hP
      simp at hP

/-! ## Properties of the page fetcher -/

/-- The first page of a table comes back empty and without a next cursor when no
query is allowed, when the limit `N + 1` wraps to zero, or when the table is
empty. -/
theorem fetchTablePage_first_degenerate (c : Consts) (table : List Route) (sort : SortExprSet)
    (N : Nat) (check : Option (Route → Except String Bool)) (hN : 0 < N)
    (h : c.MaxRefetches = 0 ∨ (N + 1) % uintModulus = 0 ∨ table = []) :
    (fetchTablePage c table sort N check none).next = none := by
  have hq : fetchTablePage c table sort N check none =
      fetchFullPageOfApigwRoutes c (tableStore table) ⟨sort, [], none⟩ sort none N check
        CursorCondition () := rfl
  rw [hq]
  refine (fetchFullPage_no_rows c (tableStore table) ⟨sort, [], none⟩ sort none N check
    CursorCondition () ?_).2.2.1
  intro t ht
  rw [fetchFullPage_trips] at ht
  cases hfuel : c.MaxRefetches with
  | zero =>
    rw [hfuel] at ht
    simp [fetchLoop] at ht
  | succ fuel =>
    have hrows : ((orderRows sort table).filter (beyondCursor none)).take
        ((N + 1) % uintModulus) = [] := by
      rcases h with h | h | h
      · omega
      · rw [h]; rfl
      · subst h
        have : orderRows sort [] = [] := rfl
        rw [this]
        simp
    rw [hfuel, fetchLoop_succ, tryQuery_tableStore table sort none N hN check, hrows] at ht
    simp only [List.mem_singleton] at ht
    subst ht
    rfl

/-- C1: over the table with IDs 1 to 10, sorted by `id` ascending, with size 3 and
at least one query allowed: the fetch without a cursor returns rows 1, 2, 3 with
a next cursor at ID 3 and no prev cursor; the fetch with that next cursor returns
rows 4, 5, 6 with a prev cursor at ID 4 whose reversed-order flag is set; the
fetch with that prev cursor returns rows 1, 2, 3 in ascending order with a next
cursor equal to the first page's. No fetch fails. -/
theorem concrete_scenario (c : Consts) (hR : 1 ≤ c.MaxRefetches) :
    (fetchTablePage c tenRoutes sortByID 3 none none).set
      = [routeWithID 1, routeWithID 2, routeWithID 3] ∧
    (fetchTablePage c tenRoutes sortByID 3 none none).err = none ∧
    (fetchTablePage c tenRoutes sortByID 3 none none).next
      = some ⟨[⟨"id", 3, false⟩], false, false⟩ ∧
    (fetchTablePage c tenRoutes sortByID 3 none none).prev = none ∧
    (fetchTablePage c tenRoutes sortByID 3 none
      (fetchTablePage c tenRoutes sortByID 3 none none).next).set
      = [routeWithID 4, routeWithID 5, routeWithID 6] ∧
    (fetchTablePage c tenRoutes sortByID 3 none
      (fetchTablePage c tenRoutes sortByID 3 none none).next).err = none ∧
    (fetchTablePage c tenRoutes sortByID 3 none
      (fetchTablePage c tenRoutes sortByID 3 none none).next).prev
      = some ⟨[⟨"id", 4, false⟩], true, true⟩ ∧
    (fetchTablePage c tenRoutes sortByID 3 none
      (fetchTablePage c tenRoutes sortByID 3 none
        (fetchTablePage c tenRoutes sortByID 3 none none).next).prev).set
      = [routeWithID 1, routeWithID 2, routeWithID 3] ∧
    (fetchTablePage c tenRoutes sortByID 3 none
      (fetchTablePage c tenRoutes sortByID 3 none
        (fetchTablePage c tenRoutes sortByID 3 none none).next).prev).err = none ∧
    (fetchTablePage c tenRoutes sortByID 3 none
      (fetchTablePage c tenRoutes sortByID 3 none
        (fetchTablePage c tenRoutes sortByID 3 none none).next).prev).next
      = (fetchTablePage c tenRoutes sortByID 3 none none).next := by
  obtain ⟨R, m⟩ := c
  obtain ⟨n, rfl⟩ : ∃ n, R = n + 1 := ⟨R - 1, by simp at hR; omega⟩
  have hnext1 : (fetchTablePage ⟨n + 1, m⟩ tenRoutes sortByID 3 none none).next
      = some ⟨[⟨"id", 3, false⟩], false, false⟩ := rfl
  have hprev2 : (fetchTablePage ⟨n + 1, m⟩ tenRoutes sortByID 3 none
      (some ⟨[⟨"id", 3, false⟩], false, false⟩)).prev
      = some ⟨[⟨"id", 4, false⟩], true, true⟩ := rfl
  rw [hnext1, hprev2]
  exact ⟨rfl, rfl, rfl, rfl, rfl, rfl, rfl, rfl, rfl, rfl⟩

/-- C1, with the constants one query and floor ten. -/
theorem concrete_scenario_witness :
    (fetchTablePage ⟨1, 10⟩ tenRoutes sortByID 3 none none).set
      = [routeWithID 1, routeWithID 2, routeWithID 3] :=
  (concrete_scenario ⟨1, 10⟩ (by decide)).1

/-- C4, the code evaluated: with a check predicate that rejects even
IDs, the first page of three over the table with IDs 1 to 10 holds the rows 1, 2,
3, not 1, 3, 5: `QueryApigwRoutes` never calls the predicate. -/
theorem check_predicate_not_applied (n m : Nat) :
    (fetchTablePage ⟨n + 1, m⟩ tenRoutes sortByID 3 (some rejectEven) none).set.map Route.ID
      = [1, 2, 3] ∧
    (fetchTablePage ⟨n + 1, m⟩ tenRoutes sortByID 3 (some rejectEven) none).err = none ∧
    (fetchTablePage ⟨n + 1, m⟩ tenRoutes sortByID 3 (some rejectEven) none).trips.length = 1 :=
  ⟨rfl, rfl, rfl⟩

/-- C2, the code evaluated: with the largest `uint` as page size the limit
`N + 1` wraps to zero, so the traversal of a one-row table is a single page
without rows and without a next cursor. -/
theorem coverage_fails_at_max_uint (n m fuel : Nat) :
    (followNext (fetchTablePage ⟨n + 1, m⟩ [routeWithID 1] sortByID (2 ^ 64 - 1) none)
      (fuel + 1) none).map FetchResult.set = [[]] ∧
    (fetchTablePage ⟨n + 1, m⟩ [routeWithID 1] sortByID (2 ^ 64 - 1) none none).next = none ∧
    (fetchTablePage ⟨n + 1, m⟩ [routeWithID 1] sortByID (2 ^ 64 - 1) none none).err = none ∧
    ((fetchTablePage ⟨n + 1, m⟩ [routeWithID 1] sortByID (2 ^ 64 - 1) none none).trips.map
      fun t => t.query.LimitPart) = [some 0] :=
  ⟨rfl, rfl, rfl, rfl⟩

/-- Coverage for page sizes whose limit does not wrap: for a non-empty table with
pairwise distinct IDs, sorted by `id` in either direction, a page size `N` with
`0 < N` and `N + 1 < 2 ^ 64`, and at least one query allowed, following the next
cursors from no cursor (for at least as many steps as there are rows) yields
ceil(M / N) pages, none failing and the last without a next cursor, whose
concatenation is the sorted table: a permutation of the table in which every row
comes strictly before its successors. -/
theorem forward_traversal_covers (c : Consts) (table : List Route) (d : Bool) (N fuel : Nat)
    (hne : table ≠ []) (hnd : (table.map Route.ID).Nodup) (hN : 0 < N)
    (hN64 : N + 1 < uintModulus) (hR : 1 ≤ c.MaxRefetches) (hfuel : table.length ≤ fuel) :
    (followNext (fetchTablePage c table [⟨"id", d⟩] N none) fuel none).length
      = (table.length + N - 1) / N ∧
    ((followNext (fetchTablePage c table [⟨"id", d⟩] N none) fuel none).map
      FetchResult.set).flatten = orderRows [⟨"id", d⟩] table ∧
    (∀ p, p ∈ followNext (fetchTablePage c table [⟨"id", d⟩] N none) fuel none → p.err = none) ∧
    (∀ p, (followNext (fetchTablePage c table [⟨"id", d⟩] N none) fuel none).getLast? = some p →
      p.next = none) ∧
    (orderRows [⟨"id", d⟩] table).Perm table ∧
    (orderRows [⟨"id", d⟩] table).Pairwise (strictlyBefore d) := by
  have hperm := orderRows_perm [⟨"id", d⟩] table
  have hS : orderRows [⟨"id", d⟩] table ≠ [] := by
    intro h
    rw [h] at hperm
    exact hne (List.Perm.nil_eq hperm).symm
  have h := followNext_covers c table d N none hnd hN hN64 hR fuel []
    (orderRows [⟨"id", d⟩] table) rfl hS (by rw [hperm.length_eq]; exact hfuel)
  have hlast := followNext_last c table d N none hnd hN hN64 hR fuel []
    (orderRows [⟨"id", d⟩] table) rfl hS (by rw [hperm.length_eq]; exact hfuel)
  rw [hperm.length_eq] at h
  exact ⟨h.2.1, h.1, h.2.2, hlast, hperm, orderRows_sorted d table hnd⟩

/-- C3: in the forward traversal of a table with pairwise distinct IDs, sorted by
`id` in either direction, with page size `N > 0` (a `uint`) and no check
predicate, every page `P` but the first carries a prev cursor, and fetching with
that cursor (the query ordered in the flipped direction, as `SearchApigwRoutes`
orders it for a reversed cursor) returns, without error, exactly the entities of
the page `Q` served just before `P`, in the order of the forward traversal. -/
theorem prev_cursor_restores_previous_page (c : Consts) (table : List Route) (d : Bool)
    (N fuel k : Nat) (Q P : FetchResult String (Route → Bool) Unit)
    (hnd : (table.map Route.ID).Nodup) (hN : 0 < N) (hN64 : N < uintModulus)
    (hQ : (followNext (fetchTablePage c table [⟨"id", d⟩] N none) fuel none)[k]? = some Q)
    (hP : (followNext (fetchTablePage c table [⟨"id", d⟩] N none) fuel none)[k + 1]? = some P) :
    ∃ cur, P.prev = some cur ∧
      (fetchTablePage c table [⟨"id", d⟩] N none (some cur)).set = Q.set ∧
      (fetchTablePage c table [⟨"id", d⟩] N none (some cur)).err = none := by
  by_cases hgood : 1 ≤ c.MaxRefetches ∧ N + 1 < uintModulus ∧ table ≠ []
  · obtain ⟨hR, hN1, hne⟩ := hgood
    have hperm := orderRows_perm [⟨"id", d⟩] table
    have hS : orderRows [⟨"id", d⟩] table ≠ [] := by
      intro h
      rw [h] at hperm
      exact hne (List.Perm.nil_eq hperm).symm
    exact followNext_prev c table d N none hnd hN hN1 hR fuel []
      (orderRows [⟨"id", d⟩] table) rfl hS k Q P hQ hP
  · have hdeg : c.MaxRefetches = 0 ∨ (N + 1) % uintModulus = 0 ∨ table = [] := by
      by_cases h1 : c.MaxRefetches = 0
      · exact Or.inl h1
      · by_cases h2 : table = []
        · exact Or.inr (Or.inr h2)
        · refine Or.inr (Or.inl ?_)
          have h3 : ¬ N + 1 < uintModulus := fun h3 => hgood ⟨by omega, h3, h2⟩
          have h4 : N + 1 = uintModulus := by omega
          rw [h4]
          exact Nat.mod_self _
    have hnone := fetchTablePage_first_degenerate c table [⟨"id", d⟩] N none hN hdeg
    cases fuel with
    | zero => simp [followNext] at hP
    | succ fuel =>
      rw [followNext_succ, hnone] at hP
      simp at hP

/-- C3, at a concrete input: the second page of three over the ten-row table; its
prev cursor fetches the first page. -/
theorem prev_cursor_restores_previous_page_witness :
    ∃ cur, (fetchTablePage ⟨1, 10⟩ tenRoutes [⟨"id", false⟩] 3 none
        (some ⟨[⟨"id", 3, false⟩], false, false⟩)).prev = some cur ∧
      (fetchTablePage ⟨1, 10⟩ tenRoutes [⟨"id", false⟩] 3 none (some cur)).set
        = (fetchTablePage ⟨1, 10⟩ tenRoutes [⟨"id", false⟩] 3 none none).set ∧
      (fetchTablePage ⟨1, 10⟩ tenRoutes [⟨"id", false⟩] 3 none (some cur)).err = none :=
  prev_cursor_restores_previous_page ⟨1, 10⟩ tenRoutes false 3 4 0
    (fetchTablePage ⟨1, 10⟩ tenRoutes [⟨"id", false⟩] 3 none none)
    (fetchTablePage ⟨1, 10⟩ tenRoutes [⟨"id", false⟩] 3 none
      (some ⟨[⟨"id", 3, false⟩], false, false⟩))
    (by decide) (by decide) (by decide) rfl rfl

/-- C5: a successful fetch with a requested size `N > 0` returns at most `N`
entities. When the loop accumulated more than `N`, its set is exactly the first
`N` accumulated entities and `hasNext` is set (the returned page is that set, in
reverse for a reversed cursor); when it accumulated exactly `N`, the set is all
of them and `hasNext` stays unset; and the loop made a further query only while
fewer than `N` entities were accumulated. -/
theorem fetchFullPage_truncates {ε ρ κ σ : Type} (c : Consts) (s : Store ε ρ κ σ)
    (q : SelectBuilder κ) (sort : SortExprSet) (cursor : Option PagingCursor) (N : Nat)
    (check : Option (Route → Except ε Bool)) (cursorCond : PagingCursor → κ) (st : σ)
    (hN : 0 < N)
    (hok : (fetchFullPageOfApigwRoutes c s q sort cursor N check cursorCond st).err = none) :
    (fetchFullPageOfApigwRoutes c s q sort cursor N check cursorCond st).set.length ≤ N ∧
    (N < (accumulated (fetchFullPageOfApigwRoutes c s q sort cursor N check cursorCond st).trips).length →
      (fetchLoop c s q sort N check cursorCond c.MaxRefetches cursor N [] st).set =
        (accumulated (fetchFullPageOfApigwRoutes c s q sort cursor N check cursorCond st).trips).take N ∧
      (fetchLoop c s q sort N check cursorCond c.MaxRefetches cursor N [] st).hasNext = true ∧
      (fetchFullPageOfApigwRoutes c s q sort cursor N check cursorCond st).set =
        if reversedOrderOf cursor then
          ((accumulated (fetchFullPageOfApigwRoutes c s q sort cursor N check cursorCond st).trips).take N).reverse
        else (accumulated (fetchFullPageOfApigwRoutes c s q sort cursor N check cursorCond st).trips).take N) ∧
    ((accumulated (fetchFullPageOfApigwRoutes c s q sort cursor N check cursorCond st).trips).length = N →
      (fetchLoop c s q sort N check cursorCond c.MaxRefetches cursor N [] st).set =
        accumulated (fetchFullPageOfApigwRoutes c s q sort cursor N check cursorCond st).trips ∧
      (fetchLoop c s q sort N check cursorCond c.MaxRefetches cursor N [] st).hasNext = false) ∧
    (∀ k, k < (fetchFullPageOfApigwRoutes c s q sort cursor N check cursorCond st).trips.length →
      (accumulated ((fetchFullPageOfApigwRoutes c s q sort cursor N check cursorCond st).trips.take k)).length < N) := by
  rw [fetchFullPage_err] at hok
  have hacc := fetchLoop_acc c s q sort N check cursorCond hN c.MaxRefetches cursor N [] st
    (by simpa using hN) hok
  simp only [List.nil_append] at hacc
  obtain ⟨hset, _, _⟩ := fetchFullPage_of_ok c s q sort cursor N check cursorCond st hok
  rw [fetchFullPage_trips]
  refine ⟨?_, ?_, ?_, hacc.2.2⟩
  · rw [hset]
    have hlen : (fetchLoop c s q sort N check cursorCond c.MaxRefetches cursor N [] st).set.length ≤ N := by
      by_cases h : N < (accumulated (fetchLoop c s q sort N check cursorCond c.MaxRefetches cursor N [] st).trips).length
      · rw [(hacc.1 h).1]
        simp
      · rw [(hacc.2.1 (by omega)).1]
        omega
    split <;> simpa using hlen
  · intro h
    refine ⟨(hacc.1 h).1, (hacc.1 h).2, ?_⟩
    rw [hset, (hacc.1 h).1]
  · intro h
    exact hacc.2.1 (le_of_eq h)

/-- C5, at a concrete input: the first page of three over the ten-row table. -/
theorem fetchFullPage_truncates_witness :
    (fetchTablePage ⟨1, 10⟩ tenRoutes sortByID 3 none none).err = none ∧
    (fetchTablePage ⟨1, 10⟩ tenRoutes sortByID 3 none none).set.length ≤ 3 := by
  have h1 : (fetchTablePage ⟨1, 10⟩ tenRoutes sortByID 3 none none).err = none := by decide
  exact ⟨h1, (fetchFullPage_truncates ⟨1, 10⟩ (tableStore tenRoutes)
    { OrderByParts := appliedSort sortByID none, WhereParts := [], LimitPart := none }
    sortByID none 3 none CursorCondition () (by decide) h1).1⟩

/-- C6, as stated, fails: fetching the ten-row table with the reversed cursor at
ID 4 (size 3) succeeds with an incoming cursor supplied, yet returns no prev
cursor; and fetching with the forward cursor at ID 10 succeeds with an incoming
cursor supplied and an empty page, again without a prev cursor. -/
theorem prev_cursor_not_iff_incoming :
    (fetchTablePage ⟨1, 10⟩ tenRoutes sortByID 3 none
      (some (prevCursorOf (routeWithID 4) sortByID))).err = none ∧
    ¬ ((fetchTablePage ⟨1, 10⟩ tenRoutes sortByID 3 none
        (some (prevCursorOf (routeWithID 4) sortByID))).prev.isSome = true ↔
      (some (prevCursorOf (routeWithID 4) sortByID)).isSome = true) ∧
    (fetchTablePage ⟨1, 10⟩ tenRoutes sortByID 3 none
      (some (nextCursorOf (routeWithID 10) sortByID))).err = none ∧
    ¬ ((fetchTablePage ⟨1, 10⟩ tenRoutes sortByID 3 none
        (some (nextCursorOf (routeWithID 10) sortByID))).prev.isSome = true ↔
      (some (nextCursorOf (routeWithID 10) sortByID)).isSome = true) := by
  decide

/-- C6, amended: for a successful fetch, an empty page carries no cursor. For a
non-empty page fetched without a cursor or with a forward cursor, the prev cursor
is present exactly when an incoming cursor was supplied and the next cursor
exactly when a size `N > 0` was requested and more than `N` entities were
accumulated. For a non-empty page fetched with a reversed cursor the roles swap:
the next cursor is always present and the prev cursor is present exactly when
`N > 0` and more than `N` entities were accumulated. -/
theorem fetchFullPage_cursor_presence {ε ρ κ σ : Type} (c : Consts) (s : Store ε ρ κ σ)
    (q : SelectBuilder κ) (sort : SortExprSet) (cursor : Option PagingCursor) (N : Nat)
    (check : Option (Route → Except ε Bool)) (cursorCond : PagingCursor → κ) (st : σ)
    (hok : (fetchFullPageOfApigwRoutes c s q sort cursor N check cursorCond st).err = none) :
    ((fetchFullPageOfApigwRoutes c s q sort cursor N check cursorCond st).set = [] →
      (fetchFullPageOfApigwRoutes c s q sort cursor N check cursorCond st).prev = none ∧
      (fetchFullPageOfApigwRoutes c s q sort cursor N check cursorCond st).next = none) ∧
    ((fetchFullPageOfApigwRoutes c s q sort cursor N check cursorCond st).set ≠ [] →
      reversedOrderOf cursor = false →
      ((fetchFullPageOfApigwRoutes c s q sort cursor N check cursorCond st).prev.isSome = true ↔
        cursor.isSome = true) ∧
      ((fetchFullPageOfApigwRoutes c s q sort cursor N check cursorCond st).next.isSome = true ↔
        (0 < N ∧ N < (accumulated
          (fetchFullPageOfApigwRoutes c s q sort cursor N check cursorCond st).trips).length))) ∧
    ((fetchFullPageOfApigwRoutes c s q sort cursor N check cursorCond st).set ≠ [] →
      reversedOrderOf cursor = true →
      (fetchFullPageOfApigwRoutes c s q sort cursor N check cursorCond st).next.isSome = true ∧
      ((fetchFullPageOfApigwRoutes c s q sort cursor N check cursorCond st).prev.isSome = true ↔
        (0 < N ∧ N < (accumulated
          (fetchFullPageOfApigwRoutes c s q sort cursor N check cursorCond st).trips).length))) := by
  rw [fetchFullPage_err] at hok
  obtain ⟨_, hprev, hnext⟩ := fetchFullPage_of_ok c s q sort cursor N check cursorCond st hok
  have hres := (fetchLoop_result c s q sort N check cursorCond c.MaxRefetches cursor N st hok).1
  rw [fetchFullPage_trips]
  refine ⟨?_, ?_, ?_⟩
  · intro hnil
    rw [hprev, hnext, hnil]
    simp
  · intro hne hfwd
    obtain ⟨first, hfirst⟩ := Option.isSome_iff_exists.mp (List.head?_isSome.mpr hne)
    obtain ⟨last, hlast⟩ := Option.isSome_iff_exists.mp (List.getLast?_isSome.mpr hne)
    rw [hprev, hnext, hfirst, hlast, hfwd]
    simp only [Bool.false_eq_true, if_false, Option.map_some']
    rw [← hres]
    constructor
    · by_cases hc : cursor.isSome = true <;> simp [hc]
    · by_cases hn : (fetchLoop c s q sort N check cursorCond c.MaxRefetches cursor N [] st).hasNext = true <;>
        simp [hn]
  · intro hne hrev
    obtain ⟨first, hfirst⟩ := Option.isSome_iff_exists.mp (List.head?_isSome.mpr hne)
    obtain ⟨last, hlast⟩ := Option.isSome_iff_exists.mp (List.getLast?_isSome.mpr hne)
    have hcur : cursor.isSome = true := by
      cases cursor with
      | none => simp [reversedOrderOf] at hrev
      | some cur => rfl
    rw [hprev, hnext, hfirst, hlast, hrev]
    simp only [if_true, Option.map_some', hcur]
    rw [← hres]
    constructor
    · simp
    · by_cases hn : (fetchLoop c s q sort N check cursorCond c.MaxRefetches cursor N [] st).hasNext = true <;>
        simp [hn]

/-- C6 amended, at a concrete input: the page fetched with the reversed cursor at
ID 4. -/
theorem fetchFullPage_cursor_presence_witness :
    (fetchTablePage ⟨1, 10⟩ tenRoutes sortByID 3 none
      (some (prevCursorOf (routeWithID 4) sortByID))).err = none ∧
    (fetchTablePage ⟨1, 10⟩ tenRoutes sortByID 3 none
      (some (prevCursorOf (routeWithID 4) sortByID))).next.isSome = true := by
  have h1 : (fetchTablePage ⟨1, 10⟩ tenRoutes sortByID 3 none
      (some (prevCursorOf (routeWithID 4) sortByID))).err = none := by decide
  have h2 : (fetchTablePage ⟨1, 10⟩ tenRoutes sortByID 3 none
      (some (prevCursorOf (routeWithID 4) sortByID))).set ≠ [] := by decide
  exact ⟨h1, ((fetchFullPage_cursor_presence ⟨1, 10⟩ (tableStore tenRoutes)
    { OrderByParts := appliedSort sortByID (some (prevCursorOf (routeWithID 4) sortByID)),
      WhereParts := [], LimitPart := none }
    sortByID (some (prevCursorOf (routeWithID 4) sortByID)) 3 none CursorCondition () h1).2.2
    h2 (by decide)).1⟩

theorem eq_of_ite_some {α β : Type} {b : Prop} [Decidable b] {f : β → α} {x : β} {p : α}
    (h : (if b then Option.map f (some x) else none) = some p) : p = f x := by
  split at h
  · exact (Option.some.inj h).symm
  · exact absurd h (by simp)

/-- C7: in a successful non-empty result, a returned prev cursor holds the values
collected from the first returned entity under the original sort set, with
`ROrder = true` and `LThen = !sort.Reversed()`; a returned next cursor holds the
values collected from the last returned entity, with `ROrder = false` and
`LThen = sort.Reversed()`. -/
theorem fetchFullPage_cursor_construction {ε ρ κ σ : Type} (c : Consts) (s : Store ε ρ κ σ)
    (q : SelectBuilder κ) (sort : SortExprSet) (cursor : Option PagingCursor) (N : Nat)
    (check : Option (Route → Except ε Bool)) (cursorCond : PagingCursor → κ) (st : σ)
    (hok : (fetchFullPageOfApigwRoutes c s q sort cursor N check cursorCond st).err = none)
    (hne : (fetchFullPageOfApigwRoutes c s q sort cursor N check cursorCond st).set ≠ []) :
    ∃ first last,
      (fetchFullPageOfApigwRoutes c s q sort cursor N check cursorCond st).set.head? = some first ∧
      (fetchFullPageOfApigwRoutes c s q sort cursor N check cursorCond st).set.getLast? = some last ∧
      (∀ p, (fetchFullPageOfApigwRoutes c s q sort cursor N check cursorCond st).prev = some p →
        p.entries = (collectApigwRouteCursorValues first sort).entries ∧
        p.ROrder = true ∧ p.LThen = !SortExprSet.Reversed sort) ∧
      (∀ n, (fetchFullPageOfApigwRoutes c s q sort cursor N check cursorCond st).next = some n →
        n.entries = (collectApigwRouteCursorValues last sort).entries ∧
        n.ROrder = false ∧ n.LThen = SortExprSet.Reversed sort) := by
  rw [fetchFullPage_err] at hok
  obtain ⟨_, hprev, hnext⟩ := fetchFullPage_of_ok c s q sort cursor N check cursorCond st hok
  obtain ⟨first, hfirst⟩ := Option.isSome_iff_exists.mp (List.head?_isSome.mpr hne)
  obtain ⟨last, hlast⟩ := Option.isSome_iff_exists.mp (List.getLast?_isSome.mpr hne)
  refine ⟨first, last, hfirst, hlast, ?_, ?_⟩
  · intro p hp
    rw [hprev, hfirst] at hp
    have hp1 := eq_of_ite_some hp
    subst hp1
    exact ⟨rfl, rfl, rfl⟩
  · intro n hn
    rw [hnext, hlast] at hn
    have hn1 := eq_of_ite_some hn
    subst hn1
    exact ⟨rfl, collectApigwRouteCursorValues_ROrder last sort, rfl⟩

/-- C7, at a concrete input: the second page of three over the ten-row table has
both cursors. -/
theorem fetchFullPage_cursor_construction_witness :
    (fetchTablePage ⟨1, 10⟩ tenRoutes sortByID 3 none
      (some (nextCursorOf (routeWithID 3) sortByID))).err = none ∧
    (fetchTablePage ⟨1, 10⟩ tenRoutes sortByID 3 none
      (some (nextCursorOf (routeWithID 3) sortByID))).set ≠ [] ∧
    ∃ first last,
      (fetchTablePage ⟨1, 10⟩ tenRoutes sortByID 3 none
        (some (nextCursorOf (routeWithID 3) sortByID))).set.head? = some first ∧
      (fetchTablePage ⟨1, 10⟩ tenRoutes sortByID 3 none
        (some (nextCursorOf (routeWithID 3) sortByID))).set.getLast? = some last ∧
      (∀ p, (fetchTablePage ⟨1, 10⟩ tenRoutes sortByID 3 none
          (some (nextCursorOf (routeWithID 3) sortByID))).prev = some p →
        p.entries = (collectApigwRouteCursorValues first sortByID).entries ∧
        p.ROrder = true ∧ p.LThen = !SortExprSet.Reversed sortByID) ∧
      (∀ n, (fetchTablePage ⟨1, 10⟩ tenRoutes sortByID 3 none
          (some (nextCursorOf (routeWithID 3) sortByID))).next = some n →
        n.entries = (collectApigwRouteCursorValues last sortByID).entries ∧
        n.ROrder = false ∧ n.LThen = SortExprSet.Reversed sortByID) := by
  have h1 : (fetchTablePage ⟨1, 10⟩ tenRoutes sortByID 3 none
      (some (nextCursorOf (routeWithID 3) sortByID))).err = none := by decide
  have h2 : (fetchTablePage ⟨1, 10⟩ tenRoutes sortByID 3 none
      (some (nextCursorOf (routeWithID 3) sortByID))).set ≠ [] := by decide
  exact ⟨h1, h2, fetchFullPage_cursor_construction ⟨1, 10⟩ (tableStore tenRoutes)
    { OrderByParts := appliedSort sortByID (some (nextCursorOf (routeWithID 3) sortByID)),
      WhereParts := [], LimitPart := none }
    sortByID (some (nextCursorOf (routeWithID 3) sortByID)) 3 none CursorCondition () h1 h2⟩

/-- C8, as stated, fails for a reversed cursor: with `MaxRefetches = 1` and size 5,
fetching the ten-row table with the reversed cursor at ID 4 makes one query, which
returns the three rows 3, 2, 1; the budget is then exhausted with three entities
accumulated, and the page comes back with a next cursor. -/
theorem budget_exhaustion_reversed_has_next :
    (fetchTablePage ⟨1, 10⟩ tenRoutes sortByID 5 none
      (some (prevCursorOf (routeWithID 4) sortByID))).trips.map
        (fun t => match t.result with
          | .ok rows => rows.map Route.ID
          | .error _ => []) = [[3, 2, 1]] ∧
    (fetchTablePage ⟨1, 10⟩ tenRoutes sortByID 5 none
      (some (prevCursorOf (routeWithID 4) sortByID))).err = none ∧
    (fetchTablePage ⟨1, 10⟩ tenRoutes sortByID 5 none
      (some (prevCursorOf (routeWithID 4) sortByID))).set.map Route.ID = [1, 2, 3] ∧
    (fetchTablePage ⟨1, 10⟩ tenRoutes sortByID 5 none
      (some (prevCursorOf (routeWithID 4) sortByID))).next =
        some ⟨[⟨"id", 3, false⟩], false, false⟩ := by
  decide

/-- C8, amended: if the loop made `MaxRefetches` queries, each returning at least
one row, and fewer than `N` entities were accumulated, the fetch returns a nil
error; without a cursor or with a forward cursor it returns the accumulated
entities in order and no next cursor; with a reversed cursor it returns them in
reverse order with no prev cursor, and with a next cursor as soon as anything was
accumulated. -/
theorem fetchFullPage_budget_exhaustion {ε ρ κ σ : Type} (c : Consts) (s : Store ε ρ κ σ)
    (q : SelectBuilder κ) (sort : SortExprSet) (cursor : Option PagingCursor) (N : Nat)
    (check : Option (Route → Except ε Bool)) (cursorCond : PagingCursor → κ) (st : σ)
    (_hbudget : (fetchFullPageOfApigwRoutes c s q sort cursor N check cursorCond st).trips.length
      = c.MaxRefetches)
    (hrows : ∀ t, t ∈ (fetchFullPageOfApigwRoutes c s q sort cursor N check cursorCond st).trips →
      ∃ a aux, t.result = .ok (a :: aux))
    (hlt : (accumulated
      (fetchFullPageOfApigwRoutes c s q sort cursor N check cursorCond st).trips).length < N) :
    (fetchFullPageOfApigwRoutes c s q sort cursor N check cursorCond st).err = none ∧
    (reversedOrderOf cursor = false →
      (fetchFullPageOfApigwRoutes c s q sort cursor N check cursorCond st).set =
        accumulated (fetchFullPageOfApigwRoutes c s q sort cursor N check cursorCond st).trips ∧
      (fetchFullPageOfApigwRoutes c s q sort cursor N check cursorCond st).next = none) ∧
    (reversedOrderOf cursor = true →
      (fetchFullPageOfApigwRoutes c s q sort cursor N check cursorCond st).set =
        (accumulated
          (fetchFullPageOfApigwRoutes c s q sort cursor N check cursorCond st).trips).reverse ∧
      (fetchFullPageOfApigwRoutes c s q sort cursor N check cursorCond st).prev = none ∧
      (accumulated (fetchFullPageOfApigwRoutes c s q sort cursor N check cursorCond st).trips ≠ [] →
        (fetchFullPageOfApigwRoutes c s q sort cursor N check cursorCond st).next.isSome = true)) := by
  rw [fetchFullPage_trips] at hrows hlt ⊢
  have hok : (fetchLoop c s q sort N check cursorCond c.MaxRefetches cursor N [] st).err = none := by
    cases herr : (fetchLoop c s q sort N check cursorCond c.MaxRefetches cursor N [] st).err with
    | none => rfl
    | some e =>
      obtain ⟨t, ht, hte⟩ := fetchLoop_err_trip c s q sort N check cursorCond _ _ _ _ _ e herr
      obtain ⟨a, aux, hta⟩ := hrows t ht
      rw [hta] at hte
      exact absurd hte (by simp)
  obtain ⟨hset, hprev, hnext⟩ := fetchFullPage_of_ok c s q sort cursor N check cursorCond st hok
  obtain ⟨hhas, hloop⟩ := fetchLoop_result c s q sort N check cursorCond c.MaxRefetches cursor N st hok
  have hN : 0 < N := by omega
  rw [if_pos hN, List.take_of_length_le (by omega)] at hloop
  have hno : (fetchLoop c s q sort N check cursorCond c.MaxRefetches cursor N [] st).hasNext = false := by
    cases hh : (fetchLoop c s q sort N check cursorCond c.MaxRefetches cursor N [] st).hasNext with
    | false => rfl
    | true => exact absurd (hhas.mp hh).2 (by omega)
  refine ⟨by rw [fetchFullPage_err]; exact hok, ?_, ?_⟩
  · intro hfwd
    rw [hnext, hset, hfwd, hloop, hno]
    simp
  · intro hrev
    have hcur : cursor.isSome = true := by
      cases cursor with
      | none => simp [reversedOrderOf] at hrev
      | some cur => rfl
    rw [hprev, hnext, hset, hrev, hloop, hno]
    refine ⟨by simp, by simp, ?_⟩
    intro hne
    simp only [if_true, hcur]
    rw [Option.isSome_map']
    exact List.getLast?_isSome.mpr (by simpa using hne)

/-- C8 amended, at a concrete input: one query allowed, twenty entities asked of
the ten-row table. -/
theorem fetchFullPage_budget_exhaustion_witness :
    (fetchTablePage ⟨1, 10⟩ tenRoutes sortByID 20 none none).trips.length = 1 ∧
    (fetchTablePage ⟨1, 10⟩ tenRoutes sortByID 20 none none).set.length = 10 ∧
    (fetchTablePage ⟨1, 10⟩ tenRoutes sortByID 20 none none).next = none := by
  have h1 : (fetchTablePage ⟨1, 10⟩ tenRoutes sortByID 20 none none).trips.length = 1 := by decide
  have h2 : ∀ t, t ∈ (fetchTablePage ⟨1, 10⟩ tenRoutes sortByID 20 none none).trips →
      ∃ a aux, t.result = .ok (a :: aux) := by
    intro t ht
    have ht1 : t ∈ [(⟨tryQueryOf ⟨sortByID, [], none⟩ none 20 CursorCondition, (),
        .ok tenRoutes⟩ : RoundTrip String (Route → Bool) Unit)] := ht
    rw [List.mem_singleton] at ht1
    subst ht1
    exact ⟨_, _, rfl⟩
  have h3 : (accumulated
      (fetchTablePage ⟨1, 10⟩ tenRoutes sortByID 20 none none).trips).length < 20 := by decide
  have h := fetchFullPage_budget_exhaustion ⟨1, 10⟩ (tableStore tenRoutes)
    { OrderByParts := appliedSort sortByID none, WhereParts := [], LimitPart := none }
    sortByID none 20 none CursorCondition () h1 h2 h3
  refine ⟨h1, ?_, (h.2.1 rfl).2⟩
  decide

/-- C9: if the query executor fails with `e` on the query of any round trip of the
loop, that round trip is the last one (no further query is issued) and the fetch
returns a nil set, nil prev and next cursors, and exactly the error `e`. -/
theorem fetchFullPage_source_error {ε ρ κ σ : Type} (c : Consts) (s : Store ε ρ κ σ)
    (q : SelectBuilder κ) (sort : SortExprSet) (cursor : Option PagingCursor) (N : Nat)
    (check : Option (Route → Except ε Bool)) (cursorCond : PagingCursor → κ) (st : σ)
    (i : Nat) (t : RoundTrip ε κ σ) (e : ε)
    (hi : (fetchFullPageOfApigwRoutes c s q sort cursor N check cursorCond st).trips[i]? = some t)
    (hfail : (s.Query t.query t.st).1 = .error e) :
    i + 1 = (fetchFullPageOfApigwRoutes c s q sort cursor N check cursorCond st).trips.length ∧
    (fetchFullPageOfApigwRoutes c s q sort cursor N check cursorCond st).set = [] ∧
    (fetchFullPageOfApigwRoutes c s q sort cursor N check cursorCond st).prev = none ∧
    (fetchFullPageOfApigwRoutes c s q sort cursor N check cursorCond st).next = none ∧
    (fetchFullPageOfApigwRoutes c s q sort cursor N check cursorCond st).err = some e := by
  rw [fetchFullPage_trips] at hi ⊢
  have hmem : t ∈ (fetchLoop c s q sort N check cursorCond c.MaxRefetches cursor N [] st).trips :=
    List.getElem?_mem hi
  have hres : t.result = .error e := by
    rw [fetchLoop_trip_result c s q sort N check cursorCond _ _ _ _ _ t hmem]
    exact QueryApigwRoutes_query_error s t.query check t.st e hfail
  obtain ⟨hlast, herr, _⟩ :=
    fetchLoop_error_set c s q sort N check cursorCond _ _ _ _ _ i t e hi hres
  obtain ⟨hset, hprev, hnext⟩ :=
    fetchFullPage_of_error c s q sort cursor N check cursorCond st e herr
  exact ⟨hlast, hset, hprev, hnext, by rw [fetchFullPage_err]; exact herr⟩

/-- C9, at a concrete input: a source that serves one row and then fails; the
second query of the loop fails, after one entity was accumulated. -/
theorem fetchFullPage_source_error_witness :
    (fetchFullPageOfApigwRoutes ⟨3, 10⟩ flakyStore ⟨sortByID, [], none⟩ sortByID none 3 none
      (fun _ => ()) 0).trips.length = 2 ∧
    (fetchFullPageOfApigwRoutes ⟨3, 10⟩ flakyStore ⟨sortByID, [], none⟩ sortByID none 3 none
      (fun _ => ()) 0).set = [] ∧
    (fetchFullPageOfApigwRoutes ⟨3, 10⟩ flakyStore ⟨sortByID, [], none⟩ sortByID none 3 none
      (fun _ => ()) 0).err = some "connection lost" := by
  have h := fetchFullPage_source_error ⟨3, 10⟩ flakyStore ⟨sortByID, [], none⟩ sortByID none 3 none
    (fun _ => ()) 0 1
    ⟨tryQueryOf ⟨sortByID, [], none⟩
      (some { collectApigwRouteCursorValues (routeWithID 1) sortByID with
        LThen := SortExprSet.Reversed sortByID }) 10 (fun _ => ()), 1, .error "connection lost"⟩
    "connection lost" rfl rfl
  exact ⟨h.1.symm, h.2.1, h.2.2.2.2⟩

/-- C10: when the row source yields no rows for the first query, and likewise
whenever every query the loop made came back without rows, the fetch returns no
entities, a nil prev cursor, a nil next cursor and a nil error, whatever the
requested size and whether or not a cursor was supplied. -/
theorem fetchFullPage_empty_page {ε ρ κ σ : Type} (c : Consts) (s : Store ε ρ κ σ)
    (q : SelectBuilder κ) (sort : SortExprSet) (cursor : Option PagingCursor) (N : Nat)
    (check : Option (Route → Except ε Bool)) (cursorCond : PagingCursor → κ) (st : σ) :
    ((s.Query (tryQueryOf q cursor N cursorCond) st).1 = .ok [] →
      (fetchFullPageOfApigwRoutes c s q sort cursor N check cursorCond st).set = [] ∧
      (fetchFullPageOfApigwRoutes c s q sort cursor N check cursorCond st).prev = none ∧
      (fetchFullPageOfApigwRoutes c s q sort cursor N check cursorCond st).next = none ∧
      (fetchFullPageOfApigwRoutes c s q sort cursor N check cursorCond st).err = none) ∧
    ((∀ t, t ∈ (fetchFullPageOfApigwRoutes c s q sort cursor N check cursorCond st).trips →
        t.result = .ok []) →
      (fetchFullPageOfApigwRoutes c s q sort cursor N check cursorCond st).set = [] ∧
      (fetchFullPageOfApigwRoutes c s q sort cursor N check cursorCond st).prev = none ∧
      (fetchFullPageOfApigwRoutes c s q sort cursor N check cursorCond st).next = none ∧
      (fetchFullPageOfApigwRoutes c s q sort cursor N check cursorCond st).err = none) := by
  exact ⟨fun hfirst => fetchFullPage_no_rows c s q sort cursor N check cursorCond st
      (fetchFullPage_first_query_empty c s q sort cursor N check cursorCond st hfirst),
    fetchFullPage_no_rows c s q sort cursor N check cursorCond st⟩

/-- C10, at a concrete input: a cursor past the last row of the ten-row table. -/
theorem fetchFullPage_empty_page_witness :
    (fetchTablePage ⟨1, 10⟩ tenRoutes sortByID 3 none
      (some (nextCursorOf (routeWithID 10) sortByID))).set = [] ∧
    (fetchTablePage ⟨1, 10⟩ tenRoutes sortByID 3 none
      (some (nextCursorOf (routeWithID 10) sortByID))).prev = none ∧
    (fetchTablePage ⟨1, 10⟩ tenRoutes sortByID 3 none
      (some (nextCursorOf (routeWithID 10) sortByID))).next = none ∧
    (fetchTablePage ⟨1, 10⟩ tenRoutes sortByID 3 none
      (some (nextCursorOf (routeWithID 10) sortByID))).err = none :=
  (fetchFullPage_empty_page ⟨1, 10⟩ (tableStore tenRoutes)
    { OrderByParts := appliedSort sortByID (some (nextCursorOf (routeWithID 10) sortByID)),
      WhereParts := [], LimitPart := none }
    sortByID (some (nextCursorOf (routeWithID 10) sortByID)) 3 none CursorCondition ()).1 rfl

/-! ### Counting and inspecting the round trips -/

/-- The loop makes no more round trips than it is allowed iterations. -/
theorem fetchLoop_trips_le {ε ρ κ σ : Type} (c : Consts) (s : Store ε ρ κ σ)
    (q : SelectBuilder κ) (sort : SortExprSet) (N : Nat) (check : Option (Route → Except ε Bool))
    (cursorCond : PagingCursor → κ) :
    ∀ (fuel : Nat) (cursor : Option PagingCursor) (limit : Nat) (set : List Route) (st : σ),
      (fetchLoop c s q sort N check cursorCond fuel cursor limit set st).trips.length ≤ fuel := by
  intro fuel
  induction fuel with
  | zero =>
    intro cursor limit set st
    simp [fetchLoop]
  | succ fuel ih =>
    intro cursor limit set st
    rw [fetchLoop_succ]
    rcases hq : QueryApigwRoutes s (tryQueryOf q cursor limit cursorCond) check st with ⟨res, st1⟩
    rcases res with err | rows
    · simp
    · cases rows with
      | nil => simp
      | cons a aux =>
        simp only []
        by_cases h0 : N = 0
        · simp [if_pos h0]
        · simp only [if_neg h0]
          by_cases h1 : N > (set ++ a :: aux).length
          · simp only [if_pos h1, List.length_cons]
            exact Nat.succ_le_succ (ih _ _ _ _)
          · simp only [if_neg h1]
            by_cases h2 : N < (set ++ a :: aux).length
            · rw [if_pos h2]; simp
            · rw [if_neg h2]; simp

/-- The first round trip of the loop runs the query built from the loop's starting
cursor and limit, against the starting session state. -/
theorem fetchLoop_first_trip {ε ρ κ σ : Type} (c : Consts) (s : Store ε ρ κ σ)
    (q : SelectBuilder κ) (sort : SortExprSet) (N : Nat) (check : Option (Route → Except ε Bool))
    (cursorCond : PagingCursor → κ) (fuel : Nat) (cursor : Option PagingCursor) (limit : Nat)
    (set : List Route) (st : σ) :
    ∃ t, (fetchLoop c s q sort N check cursorCond (fuel + 1) cursor limit set st).trips[0]? = some t ∧
      t.query = tryQueryOf q cursor limit cursorCond ∧ t.st = st := by
  rw [fetchLoop_succ]
  rcases hq : QueryApigwRoutes s (tryQueryOf q cursor limit cursorCond) check st with ⟨res, st1⟩
  rcases res with err | rows
  · exact ⟨_, rfl, rfl, rfl⟩
  · cases rows with
    | nil => exact ⟨_, rfl, rfl, rfl⟩
    | cons a aux =>
      simp only []
      by_cases h0 : N = 0
      · simp only [if_pos h0]
        exact ⟨_, rfl, rfl, rfl⟩
      · simp only [if_neg h0]
        by_cases h1 : N > (set ++ a :: aux).length
        · simp only [if_pos h1]
          exact ⟨⟨tryQueryOf q cursor limit cursorCond, st, .ok (a :: aux)⟩, by simp, rfl, rfl⟩
        · simp only [if_neg h1]
          by_cases h2 : N < (set ++ a :: aux).length
          · simp only [if_pos h2]
            exact ⟨_, rfl, rfl, rfl⟩
          · simp only [if_neg h2]
            exact ⟨_, rfl, rfl, rfl⟩

/-- The loop stops after its first round trip when that one fails, returns no
rows, or fills the set to the requested size, and whenever no size is requested. -/
theorem fetchLoop_single_trip {ε ρ κ σ : Type} (c : Consts) (s : Store ε ρ κ σ)
    (q : SelectBuilder κ) (sort : SortExprSet) (N : Nat) (check : Option (Route → Except ε Bool))
    (cursorCond : PagingCursor → κ) (fuel : Nat) (cursor : Option PagingCursor) (limit : Nat)
    (set : List Route) (st : σ)
    (h : N = 0 ∨ ∀ rows, (QueryApigwRoutes s (tryQueryOf q cursor limit cursorCond) check st).1
        = .ok rows → rows = [] ∨ N ≤ (set ++ rows).length) :
    (fetchLoop c s q sort N check cursorCond (fuel + 1) cursor limit set st).trips.length = 1 := by
  rw [fetchLoop_succ]
  rcases hq : QueryApigwRoutes s (tryQueryOf q cursor limit cursorCond) check st with ⟨res, st1⟩
  rw [hq] at h
  rcases res with err | rows
  · rfl
  · cases rows with
    | nil => rfl
    | cons a aux =>
      simp only []
      by_cases h0 : N = 0
      · simp [if_pos h0]
      · simp only [if_neg h0]
        have hlen : N ≤ (set ++ a :: aux).length := by
          rcases h with h | h
          · exact absurd h h0
          · rcases h (a :: aux) rfl with h | h
            · exact absurd h (by simp)
            · exact h
        rw [if_neg (by omega)]
        by_cases h2 : N < (set ++ a :: aux).length
        · rw [if_pos h2]; rfl
        · rw [if_neg h2]; rfl

/-- The rows a loop query over a table returns, for any base query: the rows that
satisfy the base conditions and lie beyond the cursor, in the applied order, cut
at the limit plus one (in `uint` arithmetic). -/
theorem tryQuery_tableStore_where (table : List Route) (q : SelectBuilder (Route → Bool))
    (cursor : Option PagingCursor) (limit : Nat) (hl : 0 < limit)
    (check : Option (Route → Except String Bool)) :
    QueryApigwRoutes (tableStore table) (tryQueryOf q cursor limit CursorCondition) check () =
      (.ok ((matchingRows table q cursor).take ((limit + 1) % uintModulus)), ()) := by
  rw [QueryApigwRoutes_tableStore]
  unfold matchingRows
  unfold tryQueryOf
  simp only [hl, if_true, gt_iff_lt]
  cases cursor with
  | none => simp [SelectBuilder.Limit, beyondCursor_none]
  | some cur =>
    rw [beyondCursor_some]
    simp [SelectBuilder.Limit, SelectBuilder.Where]

/-- C13: for every store, session state, query, sort, cursor, size and check
predicate, one call of `fetchFullPageOfApigwRoutes` returns after at most
`MaxRefetches` queries: the function is total, and its round trips number at most
`MaxRefetches`. -/
theorem fetchFullPage_bounded {ε ρ κ σ : Type} (c : Consts) (s : Store ε ρ κ σ)
    (q : SelectBuilder κ) (sort : SortExprSet) (cursor : Option PagingCursor) (N : Nat)
    (check : Option (Route → Except ε Bool)) (cursorCond : PagingCursor → κ) (st : σ) :
    (fetchFullPageOfApigwRoutes c s q sort cursor N check cursorCond st).trips.length
      ≤ c.MaxRefetches := by
  rw [fetchFullPage_trips]
  exact fetchLoop_trips_le c s q sort N check cursorCond _ _ _ _ _

/-- C11: over a table, with a size `N > 0` (a `uint`), at least one query allowed
and no check predicate: if at least `N` rows satisfy the base query and lie beyond
the incoming cursor (if any), the fetch makes exactly one query round trip. -/
theorem fast_path_single_round_trip (c : Consts) (table : List Route)
    (q : SelectBuilder (Route → Bool)) (sort : SortExprSet) (cursor : Option PagingCursor)
    (N : Nat) (hN : 0 < N) (hN64 : N < uintModulus) (hR : 1 ≤ c.MaxRefetches)
    (hrows : N ≤ (matchingRows table q cursor).length) :
    (fetchFullPageOfApigwRoutes c (tableStore table) q sort cursor N none
      CursorCondition ()).trips.length = 1 := by
  obtain ⟨fuel, hfuel⟩ : ∃ fuel, c.MaxRefetches = fuel + 1 := ⟨c.MaxRefetches - 1, by omega⟩
  rw [fetchFullPage_trips, hfuel]
  apply fetchLoop_single_trip
  right
  intro rows hq
  rw [tryQuery_tableStore_where table q cursor N hN none] at hq
  simp only [Except.ok.injEq] at hq
  subst hq
  by_cases h64 : N + 1 < uintModulus
  · right
    rw [Nat.mod_eq_of_lt h64, List.nil_append, List.length_take]
    omega
  · left
    have : N + 1 = uintModulus := by omega
    rw [this, Nat.mod_self, List.take_zero]

/-- C11, at a concrete input: three rows asked of the ten-row table. -/
theorem fast_path_single_round_trip_witness :
    (fetchFullPageOfApigwRoutes ⟨5, 10⟩ (tableStore tenRoutes) ⟨sortByID, [], none⟩ sortByID none 3
      none CursorCondition ()).trips.length = 1 :=
  fast_path_single_round_trip ⟨5, 10⟩ tenRoutes ⟨sortByID, [], none⟩ sortByID none 3
    (by decide) (by decide) (by decide) (by decide)

/-- The parts of a loop query with a positive limit: the base ordering, the base
conditions followed by the cursor condition (when a cursor is active), and the
limit plus one in `uint` arithmetic. -/
theorem tryQueryOf_pos {κ : Type} (q : SelectBuilder κ) (cursor : Option PagingCursor)
    (limit : Nat) (cursorCond : PagingCursor → κ) (hl : 0 < limit) :
    (tryQueryOf q cursor limit cursorCond).LimitPart = some ((limit + 1) % uintModulus) ∧
    (tryQueryOf q cursor limit cursorCond).WhereParts
      = q.WhereParts ++ (cursor.map cursorCond).toList ∧
    (tryQueryOf q cursor limit cursorCond).OrderByParts = q.OrderByParts := by
  unfold tryQueryOf
  simp only [gt_iff_lt, hl, if_true]
  cases cursor <;> simp [SelectBuilder.Limit, SelectBuilder.Where]

/-- The parts of a loop query without a limit: nothing but the cursor condition is
added to the base query. -/
theorem tryQueryOf_zero {κ : Type} (q : SelectBuilder κ) (cursor : Option PagingCursor)
    (cursorCond : PagingCursor → κ) :
    (tryQueryOf q cursor 0 cursorCond).LimitPart = q.LimitPart ∧
    (tryQueryOf q cursor 0 cursorCond).WhereParts
      = q.WhereParts ++ (cursor.map cursorCond).toList ∧
    (tryQueryOf q cursor 0 cursorCond).OrderByParts = q.OrderByParts := by
  unfold tryQueryOf
  cases cursor <;> simp [SelectBuilder.Where]

/-- One iteration of the loop when no size is requested. -/
theorem fetchLoop_zero_size {ε ρ κ σ : Type} (c : Consts) (s : Store ε ρ κ σ)
    (q : SelectBuilder κ) (sort : SortExprSet) (check : Option (Route → Except ε Bool))
    (cursorCond : PagingCursor → κ) (fuel : Nat) (cursor : Option PagingCursor) (limit : Nat)
    (set : List Route) (st : σ) :
    fetchLoop c s q sort 0 check cursorCond (fuel + 1) cursor limit set st =
      match QueryApigwRoutes s (tryQueryOf q cursor limit cursorCond) check st with
      | (.error err, st1) =>
        ⟨[], false, some err, [⟨tryQueryOf q cursor limit cursorCond, st, .error err⟩], st1⟩
      | (.ok rows, st1) =>
        ⟨set ++ rows, false, none, [⟨tryQueryOf q cursor limit cursorCond, st, .ok rows⟩], st1⟩ := by
  rw [fetchLoop_succ]
  rcases hq : QueryApigwRoutes s (tryQueryOf q cursor limit cursorCond) check st with ⟨res, st1⟩
  rcases res with err | rows
  · rfl
  · cases rows with
    | nil => simp
    | cons a aux => simp

/-- C12, as stated, fails for a reversed cursor: with no size requested, fetching
the ten-row table with the reversed cursor at ID 4 makes one query without a
limit, returns all three rows before ID 4, and, the flags being swapped, ends
with `hasNext` set: a next cursor comes back. -/
theorem unbounded_reversed_has_next :
    (fetchTablePage ⟨3, 10⟩ tenRoutes sortByID 0 none
      (some (prevCursorOf (routeWithID 4) sortByID))).trips.map
        (fun t => t.query.LimitPart) = [none] ∧
    (fetchTablePage ⟨3, 10⟩ tenRoutes sortByID 0 none
      (some (prevCursorOf (routeWithID 4) sortByID))).err = none ∧
    (fetchTablePage ⟨3, 10⟩ tenRoutes sortByID 0 none
      (some (prevCursorOf (routeWithID 4) sortByID))).set.map Route.ID = [1, 2, 3] ∧
    (fetchTablePage ⟨3, 10⟩ tenRoutes sortByID 0 none
      (some (prevCursorOf (routeWithID 4) sortByID))).next =
        some ⟨[⟨"id", 3, false⟩], false, false⟩ := by
  decide

/-- C12, amended: with no size requested and at least one query allowed, the fetch
makes exactly one query, which carries the base query's limit untouched (no LIMIT
is applied) and only the cursor condition added; the loop never sets `hasNext`; a
successful fetch returns every entity that query produced, in order, or in
reverse order for a reversed cursor. An empty result carries no cursor. Without a
reversed cursor no next cursor is returned. With a reversed cursor the flags trade
places after the loop: no prev cursor is returned, and the next cursor is the one
built from the last returned entity, present exactly when the returned set is not
empty. -/
theorem fetchFullPage_unbounded {ε ρ κ σ : Type} (c : Consts) (s : Store ε ρ κ σ)
    (q : SelectBuilder κ) (sort : SortExprSet) (cursor : Option PagingCursor)
    (check : Option (Route → Except ε Bool)) (cursorCond : PagingCursor → κ) (st : σ)
    (hR : 1 ≤ c.MaxRefetches) :
    (∃ t, (fetchFullPageOfApigwRoutes c s q sort cursor 0 check cursorCond st).trips = [t] ∧
      t.st = st ∧ t.query.LimitPart = q.LimitPart ∧
      t.query.WhereParts = q.WhereParts ++ (cursor.map cursorCond).toList ∧
      t.query.OrderByParts = q.OrderByParts) ∧
    (fetchLoop c s q sort 0 check cursorCond c.MaxRefetches cursor 0 [] st).hasNext = false ∧
    ((fetchFullPageOfApigwRoutes c s q sort cursor 0 check cursorCond st).err = none →
      (fetchFullPageOfApigwRoutes c s q sort cursor 0 check cursorCond st).set =
        if reversedOrderOf cursor then
          (accumulated (fetchFullPageOfApigwRoutes c s q sort cursor 0 check cursorCond st).trips).reverse
        else accumulated (fetchFullPageOfApigwRoutes c s q sort cursor 0 check cursorCond st).trips) ∧
    (reversedOrderOf cursor = false →
      (fetchFullPageOfApigwRoutes c s q sort cursor 0 check cursorCond st).next = none) ∧
    (reversedOrderOf cursor = true →
      (fetchFullPageOfApigwRoutes c s q sort cursor 0 check cursorCond st).prev = none) ∧
    ((fetchFullPageOfApigwRoutes c s q sort cursor 0 check cursorCond st).set = [] →
      (fetchFullPageOfApigwRoutes c s q sort cursor 0 check cursorCond st).prev = none ∧
      (fetchFullPageOfApigwRoutes c s q sort cursor 0 check cursorCond st).next = none) ∧
    (reversedOrderOf cursor = true →
      (fetchFullPageOfApigwRoutes c s q sort cursor 0 check cursorCond st).next =
        ((fetchFullPageOfApigwRoutes c s q sort cursor 0 check cursorCond st).set.getLast?.map
          fun res => nextCursorOf res sort) ∧
      ((fetchFullPageOfApigwRoutes c s q sort cursor 0 check cursorCond st).next.isSome = true ↔
        (fetchFullPageOfApigwRoutes c s q sort cursor 0 check cursorCond st).set ≠ [])) := by
  obtain ⟨fuel, hfuel⟩ : ∃ fuel, c.MaxRefetches = fuel + 1 := ⟨c.MaxRefetches - 1, by omega⟩
  have hno : (fetchLoop c s q sort 0 check cursorCond c.MaxRefetches cursor 0 [] st).hasNext
      = false := by
    rw [hfuel, fetchLoop_zero_size]
    rcases QueryApigwRoutes s (tryQueryOf q cursor 0 cursorCond) check st with ⟨res, st1⟩
    rcases res with err | rows <;> rfl
  have hone : ∃ t, (fetchLoop c s q sort 0 check cursorCond c.MaxRefetches cursor 0 [] st).trips
      = [t] ∧ t.st = st ∧ t.query = tryQueryOf q cursor 0 cursorCond := by
    rw [hfuel, fetchLoop_zero_size]
    rcases QueryApigwRoutes s (tryQueryOf q cursor 0 cursorCond) check st with ⟨res, st1⟩
    rcases res with err | rows <;> exact ⟨_, rfl, rfl, rfl⟩
  have hnextrev : reversedOrderOf cursor = true →
      (fetchFullPageOfApigwRoutes c s q sort cursor 0 check cursorCond st).next =
        ((fetchFullPageOfApigwRoutes c s q sort cursor 0 check cursorCond st).set.getLast?.map
          fun res => nextCursorOf res sort) := by
    intro hrev
    have hsome : cursor.isSome = true := by
      cases cursor with
      | none => exact absurd hrev (by simp [reversedOrderOf])
      | some cur => rfl
    cases herr : (fetchLoop c s q sort 0 check cursorCond c.MaxRefetches cursor 0 [] st).err with
    | some e =>
      obtain ⟨hset, _, hnext⟩ :=
        fetchFullPage_of_error c s q sort cursor 0 check cursorCond st e herr
      rw [hnext, hset]
      rfl
    | none =>
      obtain ⟨_, _, hnext⟩ := fetchFullPage_of_ok c s q sort cursor 0 check cursorCond st herr
      rw [hnext, hrev, hsome]
      simp
  refine ⟨?_, hno, ?_, ?_, ?_, ?_, ?_⟩
  · obtain ⟨t, ht, hst, hq⟩ := hone
    have hz := tryQueryOf_zero q cursor cursorCond
    refine ⟨t, by rw [fetchFullPage_trips]; exact ht, hst, ?_, ?_, ?_⟩
    · rw [hq]; exact hz.1
    · rw [hq]; exact hz.2.1
    · rw [hq]; exact hz.2.2
  · intro hok
    rw [fetchFullPage_err] at hok
    obtain ⟨hset, _, _⟩ := fetchFullPage_of_ok c s q sort cursor 0 check cursorCond st hok
    have hloop := (fetchLoop_result c s q sort 0 check cursorCond c.MaxRefetches cursor 0 st hok).2
    simp only [Nat.lt_irrefl, if_false] at hloop
    rw [hset, fetchFullPage_trips, hloop]
  · intro hfwd
    cases herr : (fetchLoop c s q sort 0 check cursorCond c.MaxRefetches cursor 0 [] st).err with
    | some e => exact (fetchFullPage_of_error c s q sort cursor 0 check cursorCond st e herr).2.2
    | none =>
      obtain ⟨_, _, hnext⟩ := fetchFullPage_of_ok c s q sort cursor 0 check cursorCond st herr
      rw [hnext, hfwd, hno]
      simp
  · intro hrev
    cases herr : (fetchLoop c s q sort 0 check cursorCond c.MaxRefetches cursor 0 [] st).err with
    | some e => exact (fetchFullPage_of_error c s q sort cursor 0 check cursorCond st e herr).2.1
    | none =>
      obtain ⟨_, hprev, _⟩ := fetchFullPage_of_ok c s q sort cursor 0 check cursorCond st herr
      rw [hprev, hrev, hno]
      simp
  · intro hnil
    cases herr : (fetchLoop c s q sort 0 check cursorCond c.MaxRefetches cursor 0 [] st).err with
    | some e => exact (fetchFullPage_of_error c s q sort cursor 0 check cursorCond st e herr).2
    | none =>
      obtain ⟨_, hprev, hnext⟩ :=
        fetchFullPage_of_ok c s q sort cursor 0 check cursorCond st herr
      rw [hprev, hnext, hnil]
      simp
  · intro hrev
    refine ⟨hnextrev hrev, ?_⟩
    rw [hnextrev hrev]
    cases hset : (fetchFullPageOfApigwRoutes c s q sort cursor 0 check cursorCond st).set with
    | nil => simp
    | cons a rest =>
      have hne : a :: rest ≠ [] := List.cons_ne_nil a rest
      obtain ⟨last, hlast⟩ := Option.isSome_iff_exists.mp (List.getLast?_isSome.mpr hne)
      rw [hlast]
      simp

/-- C12 amended, at concrete inputs over the ten-row table, no size requested:
without a cursor no next cursor comes back; with the reversed cursor at ID 4 the
page is not empty and a next cursor comes back; with the reversed cursor at ID 1
the page is empty and none does. -/
theorem fetchFullPage_unbounded_witness :
    (fetchFullPageOfApigwRoutes ⟨3, 10⟩ (tableStore tenRoutes) ⟨sortByID, [], none⟩ sortByID none 0
      none CursorCondition ()).next = none ∧
    (fetchTablePage ⟨3, 10⟩ tenRoutes sortByID 0 none
      (some (prevCursorOf (routeWithID 4) sortByID))).next.isSome = true ∧
    (fetchTablePage ⟨3, 10⟩ tenRoutes sortByID 0 none
      (some (prevCursorOf (routeWithID 1) sortByID))).set = [] ∧
    (fetchTablePage ⟨3, 10⟩ tenRoutes sortByID 0 none
      (some (prevCursorOf (routeWithID 1) sortByID))).next = none := by
  have h4 : (fetchTablePage ⟨3, 10⟩ tenRoutes sortByID 0 none
      (some (prevCursorOf (routeWithID 4) sortByID))).set ≠ [] := by decide
  have h1 : (fetchTablePage ⟨3, 10⟩ tenRoutes sortByID 0 none
      (some (prevCursorOf (routeWithID 1) sortByID))).set = [] := by decide
  have hr4 : reversedOrderOf (some (prevCursorOf (routeWithID 4) sortByID)) = true := by decide
  exact ⟨(fetchFullPage_unbounded ⟨3, 10⟩ (tableStore tenRoutes) ⟨sortByID, [], none⟩ sortByID none
      none CursorCondition () (by decide)).2.2.2.1 rfl,
    ((fetchFullPage_unbounded ⟨3, 10⟩ (tableStore tenRoutes)
      { OrderByParts := appliedSort sortByID (some (prevCursorOf (routeWithID 4) sortByID)),
        WhereParts := [], LimitPart := none }
      sortByID (some (prevCursorOf (routeWithID 4) sortByID)) none CursorCondition ()
      (by decide)).2.2.2.2.2.2 hr4).2.mpr h4,
    h1,
    ((fetchFullPage_unbounded ⟨3, 10⟩ (tableStore tenRoutes)
      { OrderByParts := appliedSort sortByID (some (prevCursorOf (routeWithID 1) sortByID)),
        WhereParts := [], LimitPart := none }
      sortByID (some (prevCursorOf (routeWithID 1) sortByID)) none CursorCondition ()
      (by decide)).2.2.2.2.2.1 h1).2⟩

/-- The limit of the first query: for a size `N > 0` and at least one query
allowed, the first round trip carries the limit `N + 1` in `uint` arithmetic. -/
theorem first_query_limit {ε ρ κ σ : Type} (c : Consts) (s : Store ε ρ κ σ)
    (q : SelectBuilder κ) (sort : SortExprSet) (cursor : Option PagingCursor) (N : Nat)
    (check : Option (Route → Except ε Bool)) (cursorCond : PagingCursor → κ) (st : σ)
    (hN : 0 < N) (hR : 1 ≤ c.MaxRefetches) :
    ((fetchFullPageOfApigwRoutes c s q sort cursor N check cursorCond st).trips.head?.map
      fun t => t.query.LimitPart) = some (some ((N + 1) % uintModulus)) := by
  obtain ⟨fuel, hfuel⟩ : ∃ fuel, c.MaxRefetches = fuel + 1 := ⟨c.MaxRefetches - 1, by omega⟩
  rw [fetchFullPage_trips, hfuel]
  obtain ⟨t, ht, hq, _⟩ := fetchLoop_first_trip c s q sort N check cursorCond fuel cursor N [] st
  rw [List.head?_eq_getElem?, ht, Option.map_some', hq, (tryQueryOf_pos q cursor N cursorCond hN).1]

/-- C17, the code evaluated: for the largest `uint` as requested size, whatever the
store, query and cursor, the first query is issued with LIMIT 0, not with a limit
above the requested size: `N + 1` wraps. -/
theorem sentinel_limit_wraps {ε ρ κ σ : Type} (n m : Nat) (s : Store ε ρ κ σ)
    (q : SelectBuilder κ) (sort : SortExprSet) (cursor : Option PagingCursor)
    (check : Option (Route → Except ε Bool)) (cursorCond : PagingCursor → κ) (st : σ) :
    ((fetchFullPageOfApigwRoutes ⟨n + 1, m⟩ s q sort cursor (2 ^ 64 - 1) check cursorCond
      st).trips.head?.map fun t => t.query.LimitPart) = some (some 0) :=
  first_query_limit ⟨n + 1, m⟩ s q sort cursor (2 ^ 64 - 1) check cursorCond st (by decide)
    (Nat.succ_le_succ (Nat.zero_le n))

/-- The query of every round trip after the first: built from the cursor collected
from the last entity accumulated so far, with the limit the shortfall or the
floor, whichever is larger; and it is made only while the set is short. -/
theorem fetchLoop_refetch_query {ε ρ κ σ : Type} (c : Consts) (s : Store ε ρ κ σ)
    (q : SelectBuilder κ) (sort : SortExprSet) (N : Nat) (check : Option (Route → Except ε Bool))
    (cursorCond : PagingCursor → κ) :
    ∀ (fuel : Nat) (cursor : Option PagingCursor) (limit : Nat) (set : List Route) (st : σ)
      (i : Nat) (t : RoundTrip ε κ σ),
      (fetchLoop c s q sort N check cursorCond fuel cursor limit set st).trips[i + 1]? = some t →
      ∃ last,
        (set ++ accumulated ((fetchLoop c s q sort N check cursorCond fuel cursor limit set
          st).trips.take (i + 1))).getLast? = some last ∧
        (set ++ accumulated ((fetchLoop c s q sort N check cursorCond fuel cursor limit set
          st).trips.take (i + 1))).length < N ∧
        t.query = tryQueryOf q (some (nextCursorOf last sort))
          (max (N - (set ++ accumulated ((fetchLoop c s q sort N check cursorCond fuel cursor
            limit set st).trips.take (i + 1))).length) c.MinEnsureFetchLimit) cursorCond := by
  intro fuel
  induction fuel with
  | zero =>
    intro cursor limit set st i t h
    simp [fetchLoop] at h
  | succ fuel ih =>
    intro cursor limit set st i t
    rw [fetchLoop_succ]
    rcases hq : QueryApigwRoutes s (tryQueryOf q cursor limit cursorCond) check st with ⟨res, st1⟩
    rcases res with err | rows
    · intro h; simp at h
    · cases rows with
      | nil => intro h; simp at h
      | cons a aux =>
        simp only []
        by_cases h0 : N = 0
        · simp only [if_pos h0]
          intro h; simp at h
        · simp only [if_neg h0]
          by_cases h1 : N > (set ++ a :: aux).length
          · simp only [if_pos h1]
            have hlim : (if N - (set ++ a :: aux).length < c.MinEnsureFetchLimit
                then c.MinEnsureFetchLimit else N - (set ++ a :: aux).length)
                = max (N - (set ++ a :: aux).length) c.MinEnsureFetchLimit := by
              split <;> omega
            have hcur : ({ collectApigwRouteCursorValues
                ((a :: aux).getLast (List.cons_ne_nil a aux)) sort with
                LThen := SortExprSet.Reversed sort } : PagingCursor)
                = nextCursorOf ((a :: aux).getLast (List.cons_ne_nil a aux)) sort := rfl
            rw [hlim, hcur]
            intro h
            rw [List.getElem?_cons_succ] at h
            cases i with
            | zero =>
              cases fuel with
              | zero => simp [fetchLoop] at h
              | succ fuel =>
                obtain ⟨t0, ht0, hq0, _⟩ := fetchLoop_first_trip c s q sort N check cursorCond fuel
                  (some (nextCursorOf ((a :: aux).getLast (List.cons_ne_nil a aux)) sort))
                  (max (N - (set ++ a :: aux).length) c.MinEnsureFetchLimit) (set ++ a :: aux) st1
                rw [ht0] at h
                have htt : t0 = t := Option.some.inj h
                subst htt
                refine ⟨(a :: aux).getLast (List.cons_ne_nil a aux), ?_, ?_, ?_⟩
                · simp only [List.take_succ_cons, List.take_zero, accumulated_ok]
                  rw [List.getLast?_append_of_ne_nil _ (List.cons_ne_nil a aux),
                    List.getLast?_eq_getLast _ (List.cons_ne_nil a aux)]
                · simp only [List.take_succ_cons, List.take_zero, accumulated_ok]
                  exact h1
                · simp only [List.take_succ_cons, List.take_zero, accumulated_ok]
                  exact hq0
            | succ i =>
              obtain ⟨last, hlast, hlen, hquery⟩ := ih _ _ _ _ i t h
              refine ⟨last, ?_, ?_, ?_⟩
              · rw [List.take_succ_cons, accumulated_cons, accumulated_ok, ← List.append_assoc]
                exact hlast
              · rw [List.take_succ_cons, accumulated_cons, accumulated_ok, ← List.append_assoc]
                exact hlen
              · rw [List.take_succ_cons, accumulated_cons, accumulated_ok, ← List.append_assoc]
                exact hquery
          · simp only [if_neg h1]
            by_cases h2 : N < (set ++ a :: aux).length
            · simp only [if_pos h2]
              intro h; simp at h
            · simp only [if_neg h2]
              intro h; simp at h

/-- A short set and a remaining budget lead to a further round trip: if round trip
`i` returned rows, the set is still short of `N` after it, and the iterations
allowed are not used up, round trip `i + 1` exists. -/
theorem fetchLoop_refetch_exists {ε ρ κ σ : Type} (c : Consts) (s : Store ε ρ κ σ)
    (q : SelectBuilder κ) (sort : SortExprSet) (N : Nat) (check : Option (Route → Except ε Bool))
    (cursorCond : PagingCursor → κ) :
    ∀ (fuel : Nat) (cursor : Option PagingCursor) (limit : Nat) (set : List Route) (st : σ)
      (i : Nat) (t : RoundTrip ε κ σ) (a : Route) (aux : List Route),
      (fetchLoop c s q sort N check cursorCond fuel cursor limit set st).trips[i]? = some t →
      t.result = .ok (a :: aux) →
      (set ++ accumulated ((fetchLoop c s q sort N check cursorCond fuel cursor limit set
        st).trips.take (i + 1))).length < N →
      i + 1 < fuel →
      ∃ t1, (fetchLoop c s q sort N check cursorCond fuel cursor limit set st).trips[i + 1]?
        = some t1 := by
  intro fuel
  induction fuel with
  | zero =>
    intro cursor limit set st i t a aux h
    simp [fetchLoop] at h
  | succ fuel ih =>
    intro cursor limit set st i t a0 aux0
    rw [fetchLoop_succ]
    rcases hq : QueryApigwRoutes s (tryQueryOf q cursor limit cursorCond) check st with ⟨res, st1⟩
    rcases res with err | rows
    · intro h hres
      cases i with
      | zero =>
        simp at h
        subst h
        simp at hres
      | succ i => simp at h
    · cases rows with
      | nil =>
        intro h hres
        cases i with
        | zero =>
          simp at h
          subst h
          simp at hres
        | succ i => simp at h
      | cons a aux =>
        simp only []
        by_cases h0 : N = 0
        · simp only [if_pos h0]
          intro _ _ hlen
          omega
        · simp only [if_neg h0]
          by_cases h1 : N > (set ++ a :: aux).length
          · simp only [if_pos h1]
            intro h hres hlen hfuel
            rw [List.getElem?_cons_succ]
            cases i with
            | zero =>
              cases fuel with
              | zero => omega
              | succ fuel =>
                obtain ⟨t0, ht0, _, _⟩ := fetchLoop_first_trip c s q sort N check cursorCond fuel
                  (some { collectApigwRouteCursorValues
                    ((a :: aux).getLast (List.cons_ne_nil a aux)) sort with
                    LThen := SortExprSet.Reversed sort })
                  (if N - (set ++ a :: aux).length < c.MinEnsureFetchLimit
                    then c.MinEnsureFetchLimit else N - (set ++ a :: aux).length)
                  (set ++ a :: aux) st1
                exact ⟨t0, ht0⟩
            | succ i =>
              rw [List.getElem?_cons_succ] at h
              rw [List.take_succ_cons, accumulated_cons, accumulated_ok, ← List.append_assoc] at hlen
              exact ih _ _ _ _ i t a0 aux0 h hres hlen (by omega)
          · simp only [if_neg h1]
            by_cases h2 : N < (set ++ a :: aux).length
            · simp only [if_pos h2]
              intro h _ hlen
              cases i with
              | zero =>
                simp only [List.take_succ_cons, List.take_zero, accumulated_ok] at hlen
                omega
              | succ i => simp at h
            · simp only [if_neg h2]
              intro h _ hlen
              cases i with
              | zero =>
                simp only [List.take_succ_cons, List.take_zero, accumulated_ok] at hlen
                omega
              | succ i => simp at h

/-- C20: with `N` a `uint` and the floor `MinEnsureFetchLimit` below the largest
`uint`: every round trip after the first follows an iteration that ended with
`0 < accumulated < N`, and it queries with LIMIT
`max(N - accumulated, MinEnsureFetchLimit) + 1`, under the base conditions followed
by the condition of the cursor collected from the last accumulated entity, in the
base ordering. Conversely, after an iteration that received rows and ended with
fewer than `N` accumulated, such a round trip follows whenever fewer than
`MaxRefetches` queries have been made. -/
theorem refetch_step {ε ρ κ σ : Type} (c : Consts) (s : Store ε ρ κ σ)
    (q : SelectBuilder κ) (sort : SortExprSet) (cursor : Option PagingCursor) (N : Nat)
    (check : Option (Route → Except ε Bool)) (cursorCond : PagingCursor → κ) (st : σ)
    (hN64 : N < uintModulus) (hMin : c.MinEnsureFetchLimit + 1 < uintModulus) :
    (∀ (i : Nat) (t : RoundTrip ε κ σ),
      (fetchFullPageOfApigwRoutes c s q sort cursor N check cursorCond st).trips[i + 1]? = some t →
      ∃ last,
        (accumulated ((fetchFullPageOfApigwRoutes c s q sort cursor N check cursorCond
          st).trips.take (i + 1))).getLast? = some last ∧
        0 < (accumulated ((fetchFullPageOfApigwRoutes c s q sort cursor N check cursorCond
          st).trips.take (i + 1))).length ∧
        (accumulated ((fetchFullPageOfApigwRoutes c s q sort cursor N check cursorCond
          st).trips.take (i + 1))).length < N ∧
        t.query.LimitPart = some (max (N - (accumulated ((fetchFullPageOfApigwRoutes c s q sort
          cursor N check cursorCond st).trips.take (i + 1))).length) c.MinEnsureFetchLimit + 1) ∧
        t.query.WhereParts = q.WhereParts ++ [cursorCond (nextCursorOf last sort)] ∧
        t.query.OrderByParts = q.OrderByParts ∧
        (nextCursorOf last sort).entries = (collectApigwRouteCursorValues last sort).entries) ∧
    (∀ (i : Nat) (t : RoundTrip ε κ σ) (a : Route) (aux : List Route),
      (fetchFullPageOfApigwRoutes c s q sort cursor N check cursorCond st).trips[i]? = some t →
      t.result = .ok (a :: aux) →
      (accumulated ((fetchFullPageOfApigwRoutes c s q sort cursor N check cursorCond
        st).trips.take (i + 1))).length < N →
      i + 1 < c.MaxRefetches →
      ∃ t1, (fetchFullPageOfApigwRoutes c s q sort cursor N check cursorCond st).trips[i + 1]?
        = some t1) := by
  rw [fetchFullPage_trips]
  constructor
  · intro i t ht
    obtain ⟨last, hlast, hlen, hquery⟩ :=
      fetchLoop_refetch_query c s q sort N check cursorCond _ _ _ _ _ i t ht
    simp only [List.nil_append] at hlast hlen hquery
    have hpos : 0 < (accumulated ((fetchLoop c s q sort N check cursorCond c.MaxRefetches cursor N
        [] st).trips.take (i + 1))).length := by
      apply List.length_pos.mpr
      intro hnil
      rw [hnil] at hlast
      simp at hlast
    have hlim : 0 < max (N - (accumulated ((fetchLoop c s q sort N check cursorCond c.MaxRefetches
        cursor N [] st).trips.take (i + 1))).length) c.MinEnsureFetchLimit := by omega
    obtain ⟨h1, h2, h3⟩ := tryQueryOf_pos q (some (nextCursorOf last sort)) _ cursorCond hlim
    refine ⟨last, hlast, hpos, hlen, ?_, ?_, ?_, rfl⟩
    · rw [hquery, h1, Nat.mod_eq_of_lt (by omega)]
    · rw [hquery, h2]
      rfl
    · rw [hquery, h3]
  · intro i t a aux ht hres hlen hfuel
    exact fetchLoop_refetch_exists c s q sort N check cursorCond _ _ _ _ _ i t a aux ht hres
      (by simpa using hlen) hfuel

/-- C20, at a concrete input: a source serving one row, three rows asked, floor 2;
the second query carries LIMIT max(3 - 1, 2) + 1 = 3. -/
theorem refetch_step_witness :
    ∃ t, (fetchFullPageOfApigwRoutes ⟨3, 2⟩ flakyStore ⟨sortByID, [], none⟩ sortByID none 3 none
        (fun _ => ()) 0).trips[1]? = some t ∧
      t.query.LimitPart = some 3 := by
  have h := (refetch_step ⟨3, 2⟩ flakyStore ⟨sortByID, [], none⟩ sortByID none 3 none
    (fun _ => ()) 0 (by decide) (by decide)).1 0
    ⟨tryQueryOf ⟨sortByID, [], none⟩
      (some (nextCursorOf (routeWithID 1) sortByID)) 2 (fun _ => ()), 1, .error "connection lost"⟩
    rfl
  obtain ⟨last, _, _, _, hlimit, _⟩ := h
  exact ⟨_, rfl, hlimit⟩

/-- C16, the code evaluated: `QueryApigwRoutes` returns the same for every check
predicate as for none; over a table with IDs 1 and 2 and a predicate rejecting
even IDs it returns both rows, the rejected row 2 included. -/
theorem QueryApigwRoutes_ignores_check {ε ρ κ σ : Type} (s : Store ε ρ κ σ)
    (q : SelectBuilder κ) (check : Option (Route → Except ε Bool)) (st : σ) :
    QueryApigwRoutes s q check st = QueryApigwRoutes s q none st ∧
    (QueryApigwRoutes (tableStore [routeWithID 1, routeWithID 2]) ⟨sortByID, [], none⟩
      (some rejectEven) ()).1 = .ok [routeWithID 1, routeWithID 2] :=
  ⟨rfl, rfl⟩

/-! ### The collected cursor -/

theorem PagingCursor.Set_id_nil (p : PagingCursor) (v : Nat) (d : Bool)
    (h : p.entries = []) : (p.Set "id" v d).entries = [⟨"id", v, d⟩] := by
  unfold PagingCursor.Set
  rw [h]
  rfl

theorem PagingCursor.Set_id_single (p : PagingCursor) (v : Nat) (d d0 : Bool)
    (h : p.entries = [⟨"id", v, d0⟩]) : (p.Set "id" v d).entries = [⟨"id", v, d0⟩] := by
  unfold PagingCursor.Set
  rw [h]
  rfl

/-- Collecting over sort expressions keeps the cursor empty or bound to `id`
alone, with the entity's ID. -/
theorem collect_fold_entries (res : Route) (cc : List SortExpr) :
    ∀ acc : PagingCursor × Bool,
      (acc.1.entries = [] ∨ ∃ d, acc.1.entries = [⟨"id", res.ID, d⟩]) →
      ((cc.foldl (fun (acc : PagingCursor × Bool) c =>
        if c.Column = "id" then (acc.1.Set c.Column res.ID c.Descending, true) else acc)
          acc).1.entries = [] ∨
       ∃ d, (cc.foldl (fun (acc : PagingCursor × Bool) c =>
        if c.Column = "id" then (acc.1.Set c.Column res.ID c.Descending, true) else acc)
          acc).1.entries = [⟨"id", res.ID, d⟩]) := by
  induction cc with
  | nil => intro acc h; exact h
  | cons x xs ih =>
    intro acc h
    rw [List.foldl_cons]
    apply ih
    by_cases hx : x.Column = "id"
    · rw [if_pos hx, hx]
      right
      rcases h with h | ⟨d, h⟩
      · exact ⟨x.Descending, PagingCursor.Set_id_nil _ _ _ h⟩
      · exact ⟨d, PagingCursor.Set_id_single _ _ _ _ h⟩
    · rw [if_neg hx]
      exact h

/-- The collected cursor binds exactly one column, `id`, to the entity's ID. -/
theorem collect_entries (res : Route) (cc : SortExprSet) :
    ∃ d, (collectApigwRouteCursorValues res cc).entries = [⟨"id", res.ID, d⟩] := by
  unfold collectApigwRouteCursorValues
  simp only [Bool.not_false, Bool.true_or, if_true]
  have h1 := collect_fold_entries res cc
    (({ entries := [], ROrder := false, LThen := SortExprSet.Reversed cc } : PagingCursor), false)
    (Or.inl rfl)
  have h2 := collect_fold_entries res [⟨"id", false⟩] _ h1
  rcases h2 with h2 | h2
  · exfalso
    simp only [List.foldl_cons, List.foldl_nil, if_true] at h2
    rcases h1 with h1 | ⟨d, h1⟩
    · rw [PagingCursor.Set_id_nil _ _ _ h1] at h2
      simp at h2
    · rw [PagingCursor.Set_id_single _ _ _ _ h1] at h2
      simp at h2
  · exact h2

/-- C18, as stated, fails: under the sort set `endpoint`, `id` the collected cursor
holds the single column `id`, and under the empty sort set it holds `id` too:
neither the count nor the names match the sort set. -/
theorem cursor_columns_differ_from_sort :
    (collectApigwRouteCursorValues (routeWithID 7)
      [⟨"endpoint", false⟩, ⟨"id", true⟩]).entries.map CursorEntry.key = ["id"] ∧
    (collectApigwRouteCursorValues (routeWithID 7) []).entries.map CursorEntry.key = ["id"] := by
  decide

/-- C18, amended: for every entity and every sort set the collected cursor holds
exactly one value, the entity's ID under the column `id`; its columns are the
columns of the sort set, in order, exactly when the sort set is the single column
`id`. -/
theorem collected_cursor_is_id (res : Route) (cc : SortExprSet) :
    (collectApigwRouteCursorValues res cc).entries.map CursorEntry.key = ["id"] ∧
    (collectApigwRouteCursorValues res cc).entries.map CursorEntry.value = [res.ID] ∧
    ((collectApigwRouteCursorValues res cc).entries.map CursorEntry.key = cc.map SortExpr.Column ↔
      cc.map SortExpr.Column = ["id"]) := by
  obtain ⟨d, h⟩ := collect_entries res cc
  rw [h]
  refine ⟨rfl, rfl, ?_⟩
  constructor
  · intro h1
    exact h1.symm
  · intro h1
    rw [h1]
    rfl

/-! ### The search -/

/-- Looking up `id` finds nothing exactly when no sort expression is on `id`. -/
theorem Get_id_isNone (sort : SortExprSet) :
    (SortExprSet.Get sort "id").isNone = true ↔ ∀ e, e ∈ sort → e.Column ≠ "id" := by
  unfold SortExprSet.Get
  rw [Option.isNone_iff_eq_none, List.find?_eq_none]
  simp

/-- The trailing direction is the flag of the last sort expression, false for the
empty set. -/
theorem LastDescending_eq (sort : SortExprSet) :
    SortExprSet.LastDescending sort = (sort.getLast?.map SortExpr.Descending).getD false := by
  induction sort with
  | nil => rfl
  | cons x xs ih =>
    cases xs with
    | nil => rfl
    | cons y ys =>
      rw [SortExprSet.LastDescending, ih, List.getLast?_cons_cons]

/-- With the filter converted, the sort set `SearchApigwRoutes` hands back in the
filter is the normalised validated sort, unless the cursor validation failed. -/
theorem SearchApigwRoutes_sort {ε ρ κ σ : Type} (c : Consts) (s : Store ε ρ κ σ)
    (deps : SearchDeps ε κ) (f : RouteFilter) (st : σ) (q : SelectBuilder κ)
    (hconv : deps.convertApigwRouteFilter f = .ok q)
    (hvalid : (validatedSort deps { f with PrevPage := none, NextPage := none }).2 = none) :
    (SearchApigwRoutes c s deps f st).f.sort =
      normalizeSort (validatedSort deps { f with PrevPage := none, NextPage := none }).1 := by
  unfold SearchApigwRoutes
  simp only [hconv, hvalid]
  split
  · rfl
  · split <;> rfl

/-- C14: a sort set without a sort expression on `id` is normalised to itself
followed by one expression, on `id`, whose direction is that of the set's last
expression, or ascending for the empty set; a sort set with a sort expression on
`id` is left unchanged. `SearchApigwRoutes`, called without a page cursor, hands
this normalised set back in the filter once the filter has been converted. -/
theorem normalizeSort_appends_id (sort : SortExprSet) :
    ((∀ e, e ∈ sort → e.Column ≠ "id") →
      normalizeSort sort =
        sort ++ [⟨"id", (sort.getLast?.map SortExpr.Descending).getD false⟩]) ∧
    ((∃ e, e ∈ sort ∧ e.Column = "id") → normalizeSort sort = sort) ∧
    (∀ {ε ρ κ σ : Type} (c : Consts) (s : Store ε ρ κ σ) (deps : SearchDeps ε κ) (st : σ)
      (q : SelectBuilder κ) (prev next : Option PagingCursor) (limit : Nat),
      deps.convertApigwRouteFilter ⟨sort, none, prev, next, limit⟩ = .ok q →
      (SearchApigwRoutes c s deps ⟨sort, none, prev, next, limit⟩ st).f.sort
        = normalizeSort sort) := by
  refine ⟨?_, ?_, ?_⟩
  · intro h
    unfold normalizeSort
    rw [if_pos ((Get_id_isNone sort).mpr h), LastDescending_eq]
  · intro h
    unfold normalizeSort
    rw [if_neg]
    intro hnone
    obtain ⟨e, he, hid⟩ := h
    exact (Get_id_isNone sort).mp hnone e he hid
  · intro ε ρ κ σ c s deps st q prev next limit hconv
    exact SearchApigwRoutes_sort c s deps _ st q hconv rfl

/-- C14, at a concrete input: sorting by `endpoint` descending. -/
theorem normalizeSort_appends_id_witness :
    normalizeSort [⟨"endpoint", true⟩] = [⟨"endpoint", true⟩, ⟨"id", true⟩] :=
  (normalizeSort_appends_id [⟨"endpoint", true⟩]).1 (by decide)

/-- C15, as stated, fails: the sort set `id`, `endpoint` contains `id`, so it is
left as it is, and its last element is `endpoint`. -/
theorem normalized_sort_last_not_id :
    normalizeSort [⟨"id", false⟩, ⟨"endpoint", true⟩]
      = [⟨"id", false⟩, ⟨"endpoint", true⟩] ∧
    (normalizeSort [⟨"id", false⟩, ⟨"endpoint", true⟩]).getLast?.map SortExpr.Column
      = some "endpoint" := by
  decide

/-- C15, amended: the normalised sort set always holds a sort expression on the
primary key `id`; that expression is the last element whenever the given set had
none on `id`, and otherwise stands where the given set has it. -/
theorem normalizeSort_contains_id (sort : SortExprSet) :
    (∃ e, e ∈ normalizeSort sort ∧ e.Column = "id") ∧
    ((∀ e, e ∈ sort → e.Column ≠ "id") →
      (normalizeSort sort).getLast?.map SortExpr.Column = some "id") ∧
    ((∃ e, e ∈ sort ∧ e.Column = "id") → normalizeSort sort = sort) := by
  have hkeep : (∃ e, e ∈ sort ∧ e.Column = "id") → normalizeSort sort = sort := by
    intro h
    unfold normalizeSort
    rw [if_neg]
    intro hnone
    obtain ⟨e, he, hid⟩ := h
    exact (Get_id_isNone sort).mp hnone e he hid
  have happ : (∀ e, e ∈ sort → e.Column ≠ "id") →
      normalizeSort sort = sort ++ [⟨"id", SortExprSet.LastDescending sort⟩] := by
    intro h
    unfold normalizeSort
    rw [if_pos ((Get_id_isNone sort).mpr h)]
  refine ⟨?_, ?_, hkeep⟩
  · by_cases h : ∃ e, e ∈ sort ∧ e.Column = "id"
    · rw [hkeep h]
      exact h
    · rw [happ (fun e he hid => h ⟨e, he, hid⟩)]
      exact ⟨⟨"id", SortExprSet.LastDescending sort⟩, by simp, rfl⟩
  · intro h
    rw [happ h]
    simp

/-- C15 amended, at a concrete input: the empty sort set. -/
theorem normalizeSort_contains_id_witness :
    (normalizeSort []).getLast?.map SortExpr.Column = some "id" :=
  (normalizeSort_contains_id []).2.1 (by simp)

/-- C19: once the filter has been converted, if validating the page cursor against
the filter's sort fails with `e`, or if the validation passes and applying the
normalised sort (flipped for a reversed cursor) as ordering fails with `e`,
`SearchApigwRoutes` returns the error `e` and a nil set, having made no query and
left the session state as it was. -/
theorem search_validation_errors {ε ρ κ σ : Type} (c : Consts) (s : Store ε ρ κ σ)
    (deps : SearchDeps ε κ) (f : RouteFilter) (st : σ) (q : SelectBuilder κ) (e : ε)
    (hconv : deps.convertApigwRouteFilter f = .ok q)
    (hfail : (validatedSort deps { f with PrevPage := none, NextPage := none }).2 = some e ∨
      ((validatedSort deps { f with PrevPage := none, NextPage := none }).2 = none ∧
        deps.setOrderBy q
          (appliedSort
            (normalizeSort (validatedSort deps { f with PrevPage := none, NextPage := none }).1)
            f.PageCursor)
          sortableApigwRouteColumns = .error e)) :
    (SearchApigwRoutes c s deps f st).err = some e ∧
    (SearchApigwRoutes c s deps f st).set = [] ∧
    (SearchApigwRoutes c s deps f st).trips = [] ∧
    (SearchApigwRoutes c s deps f st).st = st := by
  unfold SearchApigwRoutes
  rcases hfail with h | ⟨h1, h2⟩
  · simp [hconv, h]
  · simp [hconv, h1, h2]

/-- C19, at a concrete input: a cursor on `id` sent with a sort by `endpoint`. -/
theorem search_validation_errors_witness :
    (SearchApigwRoutes ⟨3, 10⟩ (tableStore tenRoutes) tableDeps
      ⟨[⟨"endpoint", false⟩], some ⟨[⟨"id", 3, false⟩], false, false⟩, none, none, 3⟩ ()).err
        = some "cursor incompatible with sort" ∧
    (SearchApigwRoutes ⟨3, 10⟩ (tableStore tenRoutes) tableDeps
      ⟨[⟨"endpoint", false⟩], some ⟨[⟨"id", 3, false⟩], false, false⟩, none, none, 3⟩ ()).set
        = [] ∧
    (SearchApigwRoutes ⟨3, 10⟩ (tableStore tenRoutes) tableDeps
      ⟨[⟨"endpoint", false⟩], some ⟨[⟨"id", 3, false⟩], false, false⟩, none, none, 3⟩ ()).trips
        = [] ∧
    (SearchApigwRoutes ⟨3, 10⟩ (tableStore tenRoutes) tableDeps
      ⟨[⟨"endpoint", false⟩], some ⟨[⟨"id", 3, false⟩], false, false⟩, none, none, 3⟩ ()).st
        = () :=
  search_validation_errors ⟨3, 10⟩ (tableStore tenRoutes) tableDeps
    ⟨[⟨"endpoint", false⟩], some ⟨[⟨"id", 3, false⟩], false, false⟩, none, none, 3⟩ ()
    ⟨[], [], none⟩ "cursor incompatible with sort" rfl (Or.inl (by decide))

/-! ## The reversed page and the refetch cursor -/

/-- The ordering and the conditions of a loop query do not depend on the limit: the
base ordering, and the base conditions followed by the cursor condition (when a
cursor is active). -/
theorem tryQueryOf_parts {κ : Type} (q : SelectBuilder κ) (cursor : Option PagingCursor)
    (limit : Nat) (cursorCond : PagingCursor → κ) :
    (tryQueryOf q cursor limit cursorCond).WhereParts
      = q.WhereParts ++ (cursor.map cursorCond).toList ∧
    (tryQueryOf q cursor limit cursorCond).OrderByParts = q.OrderByParts := by
  rcases Nat.eq_zero_or_pos limit with h | h
  · subst h
    exact (tryQueryOf_zero q cursor cursorCond).2
  · exact (tryQueryOf_pos q cursor limit cursorCond h).2

/-- C21: when the incoming cursor has `ROrder = true` and the returned set is not
empty, the returned set is the reverse of the loop's set, which is the accumulated
sequence cut at the requested size (whole when no size is requested); a prev
cursor is returned exactly when the loop set `hasNext`, which it does exactly when
a size `N > 0` was requested and more than `N` entities were accumulated; and a
next cursor is always returned. -/
theorem reversed_result {ε ρ κ σ : Type} (c : Consts) (s : Store ε ρ κ σ)
    (q : SelectBuilder κ) (sort : SortExprSet) (inc : PagingCursor) (N : Nat)
    (check : Option (Route → Except ε Bool)) (cursorCond : PagingCursor → κ) (st : σ)
    (hrev : inc.ROrder = true)
    (hne : (fetchFullPageOfApigwRoutes c s q sort (some inc) N check cursorCond st).set ≠ []) :
    (fetchFullPageOfApigwRoutes c s q sort (some inc) N check cursorCond st).set =
      (fetchLoop c s q sort N check cursorCond c.MaxRefetches (some inc) N [] st).set.reverse ∧
    (fetchLoop c s q sort N check cursorCond c.MaxRefetches (some inc) N [] st).set =
      (if 0 < N then
        (accumulated (fetchFullPageOfApigwRoutes c s q sort (some inc) N check cursorCond
          st).trips).take N
       else accumulated (fetchFullPageOfApigwRoutes c s q sort (some inc) N check cursorCond
          st).trips) ∧
    ((fetchFullPageOfApigwRoutes c s q sort (some inc) N check cursorCond st).prev.isSome = true ↔
      (fetchLoop c s q sort N check cursorCond c.MaxRefetches (some inc) N [] st).hasNext = true) ∧
    ((fetchLoop c s q sort N check cursorCond c.MaxRefetches (some inc) N [] st).hasNext = true ↔
      (0 < N ∧ N < (accumulated (fetchFullPageOfApigwRoutes c s q sort (some inc) N check
        cursorCond st).trips).length)) ∧
    (fetchFullPageOfApigwRoutes c s q sort (some inc) N check cursorCond st).next.isSome = true := by
  have hok : (fetchLoop c s q sort N check cursorCond c.MaxRefetches (some inc) N [] st).err
      = none := by
    cases herr : (fetchLoop c s q sort N check cursorCond c.MaxRefetches (some inc) N [] st).err with
    | none => rfl
    | some e =>
      exact absurd (fetchFullPage_of_error c s q sort (some inc) N check cursorCond st e herr).1 hne
  have hr : reversedOrderOf (some inc) = true := hrev
  obtain ⟨hset, hprev, hnext⟩ :=
    fetchFullPage_of_ok c s q sort (some inc) N check cursorCond st hok
  obtain ⟨hhas, hloop⟩ :=
    fetchLoop_result c s q sort N check cursorCond c.MaxRefetches (some inc) N st hok
  obtain ⟨first, hfirst⟩ := Option.isSome_iff_exists.mp (List.head?_isSome.mpr hne)
  obtain ⟨last, hlast⟩ := Option.isSome_iff_exists.mp (List.getLast?_isSome.mpr hne)
  rw [fetchFullPage_trips]
  refine ⟨?_, hloop, ?_, hhas, ?_⟩
  · rw [hset, if_pos hr]
  · rw [hprev, hfirst, hr]
    simp
  · rw [hnext, hlast, hr]
    simp

/-- C21, at a concrete input: the page of three before ID 8 in the table of ten is
the reverse of the loop's set `[7, 6, 5]`. -/
theorem reversed_result_witness :
    (prevCursorOf (routeWithID 8) sortByID).ROrder = true ∧
    (fetchTablePage ⟨5, 10⟩ tenRoutes sortByID 3 none
      (some (prevCursorOf (routeWithID 8) sortByID))).set.map (fun r => r.ID) = [5, 6, 7] ∧
    (fetchLoop ⟨5, 10⟩ (tableStore tenRoutes)
      { OrderByParts := appliedSort sortByID (some (prevCursorOf (routeWithID 8) sortByID)),
        WhereParts := [], LimitPart := none }
      sortByID 3 none CursorCondition 5 (some (prevCursorOf (routeWithID 8) sortByID)) 3 []
      ()).set.map (fun r => r.ID) = [7, 6, 5] ∧
    (fetchTablePage ⟨5, 10⟩ tenRoutes sortByID 3 none
      (some (prevCursorOf (routeWithID 8) sortByID))).next.isSome = true := by
  have h1 : (prevCursorOf (routeWithID 8) sortByID).ROrder = true := by decide
  have h2 : (fetchTablePage ⟨5, 10⟩ tenRoutes sortByID 3 none
      (some (prevCursorOf (routeWithID 8) sortByID))).set ≠ [] := by decide
  have h := reversed_result ⟨5, 10⟩ (tableStore tenRoutes)
    { OrderByParts := appliedSort sortByID (some (prevCursorOf (routeWithID 8) sortByID)),
      WhereParts := [], LimitPart := none }
    sortByID (prevCursorOf (routeWithID 8) sortByID) 3 none CursorCondition () h1 h2
  exact ⟨h1, by decide, by decide, h.2.2.2.2⟩

/-- C22: for every sort set, the cursor collected from an entity binds `id` to the
entity's ID; hence the cursors collected from two entities with different IDs,
under any two sort sets, differ in their values. -/
theorem cursor_identifies_row (res : Route) (cc : SortExprSet) :
    (collectApigwRouteCursorValues res cc).get "id" = some res.ID ∧
    ∀ (other : Route) (cc1 : SortExprSet), res.ID ≠ other.ID →
      (collectApigwRouteCursorValues res cc).entries.map CursorEntry.value ≠
        (collectApigwRouteCursorValues other cc1).entries.map CursorEntry.value := by
  obtain ⟨d, hd⟩ := collect_entries res cc
  constructor
  · unfold PagingCursor.get
    rw [hd]
    rfl
  · intro other cc1 hne
    obtain ⟨d1, hd1⟩ := collect_entries other cc1
    rw [hd, hd1]
    simpa using hne

/-- C22, at a concrete input: routes 1 and 2, the first under a sort set without
`id`, the second under `id` descending. -/
theorem cursor_identifies_row_witness :
    (routeWithID 1).ID ≠ (routeWithID 2).ID ∧
    (collectApigwRouteCursorValues (routeWithID 1) [⟨"endpoint", false⟩]).entries.map
        CursorEntry.value ≠
      (collectApigwRouteCursorValues (routeWithID 2) [⟨"id", true⟩]).entries.map
        CursorEntry.value :=
  ⟨by decide, (cursor_identifies_row (routeWithID 1) [⟨"endpoint", false⟩]).2
    (routeWithID 2) [⟨"id", true⟩] (by decide)⟩

/-- Every query of the loop keeps the ordering of the base query. -/
theorem fetchLoop_trip_order {ε ρ κ σ : Type} (c : Consts) (s : Store ε ρ κ σ)
    (q : SelectBuilder κ) (sort : SortExprSet) (N : Nat) (check : Option (Route → Except ε Bool))
    (cursorCond : PagingCursor → κ) (fuel : Nat) (cursor : Option PagingCursor) (limit : Nat)
    (set : List Route) (st : σ) (j : Nat) (t : RoundTrip ε κ σ)
    (ht : (fetchLoop c s q sort N check cursorCond fuel cursor limit set st).trips[j]? = some t) :
    t.query.OrderByParts = q.OrderByParts := by
  cases j with
  | zero =>
    cases fuel with
    | zero => simp [fetchLoop] at ht
    | succ fuel =>
      obtain ⟨t0, ht0, hq, _⟩ :=
        fetchLoop_first_trip c s q sort N check cursorCond fuel cursor limit set st
      rw [ht0] at ht
      cases ht
      rw [hq]
      exact (tryQueryOf_parts q cursor limit cursorCond).2
  | succ j =>
    obtain ⟨last, _, _, hq⟩ :=
      fetchLoop_refetch_query c s q sort N check cursorCond fuel cursor limit set st j t ht
    rw [hq]
    exact (tryQueryOf_parts q _ _ cursorCond).2

/-- C23: every round trip after the first queries under the condition of a cursor
`cur` the loop built with `ROrder = false` and `LThen = sort.Reversed()`, whatever
the incoming cursor; when the incoming cursor has `ROrder = true` and
`LThen = !sort.Reversed()`, both flags of `cur` differ from the incoming ones;
and every query of the loop, the first included, keeps the ordering of the base
query. -/
theorem refetch_cursor_direction {ε ρ κ σ : Type} (c : Consts) (s : Store ε ρ κ σ)
    (q : SelectBuilder κ) (sort : SortExprSet) (cursor : Option PagingCursor) (N : Nat)
    (check : Option (Route → Except ε Bool)) (cursorCond : PagingCursor → κ) (st : σ) :
    (∀ (i : Nat) (t : RoundTrip ε κ σ),
      (fetchFullPageOfApigwRoutes c s q sort cursor N check cursorCond st).trips[i + 1]? = some t →
      ∃ (cur : PagingCursor) (limit : Nat),
        t.query = tryQueryOf q (some cur) limit cursorCond ∧
        t.query.WhereParts = q.WhereParts ++ [cursorCond cur] ∧
        cur.ROrder = false ∧
        cur.LThen = SortExprSet.Reversed sort ∧
        ∀ inc, cursor = some inc → inc.ROrder = true →
          inc.LThen = !SortExprSet.Reversed sort →
          cur.ROrder ≠ inc.ROrder ∧ cur.LThen ≠ inc.LThen) ∧
    (∀ (j : Nat) (t : RoundTrip ε κ σ),
      (fetchFullPageOfApigwRoutes c s q sort cursor N check cursorCond st).trips[j]? = some t →
      t.query.OrderByParts = q.OrderByParts) := by
  rw [fetchFullPage_trips]
  constructor
  · intro i t ht
    obtain ⟨last, _, _, hq⟩ :=
      fetchLoop_refetch_query c s q sort N check cursorCond _ _ _ _ _ i t ht
    have hro : (nextCursorOf last sort).ROrder = false :=
      collectApigwRouteCursorValues_ROrder last sort
    have hlt : (nextCursorOf last sort).LThen = SortExprSet.Reversed sort := rfl
    refine ⟨nextCursorOf last sort, _, hq, ?_, hro, hlt, ?_⟩
    · rw [hq, (tryQueryOf_parts q _ _ cursorCond).1]
      rfl
    · intro inc _ hr hl
      rw [hro, hlt, hr, hl]
      cases SortExprSet.Reversed sort <;> simp
  · intro j t ht
    exact fetchLoop_trip_order c s q sort N check cursorCond _ _ _ _ _ j t ht

/-- C23, at a concrete input: five rows before ID 4 asked of the table of ten. The
first query, descending below 4, yields three rows; the second query keeps the
descending order but runs under a cursor that is not reversed and keeps the rows
above the boundary. -/
theorem refetch_cursor_direction_witness :
    ∃ t, (fetchTablePage ⟨5, 10⟩ tenRoutes sortByID 5 none
        (some (prevCursorOf (routeWithID 4) sortByID))).trips[1]? = some t ∧
      t.query.OrderByParts = [⟨"id", true⟩] ∧
      ∃ (cur : PagingCursor), cur.ROrder = false ∧ cur.LThen = false ∧
        (prevCursorOf (routeWithID 4) sortByID).ROrder = true ∧
        (prevCursorOf (routeWithID 4) sortByID).LThen = true ∧
        t.query.WhereParts = [CursorCondition cur] := by
  have hsome : ((fetchTablePage ⟨5, 10⟩ tenRoutes sortByID 5 none
      (some (prevCursorOf (routeWithID 4) sortByID))).trips[1]?).isSome = true := by decide
  obtain ⟨t, ht⟩ := Option.isSome_iff_exists.mp hsome
  have h := refetch_cursor_direction ⟨5, 10⟩ (tableStore tenRoutes)
    { OrderByParts := appliedSort sortByID (some (prevCursorOf (routeWithID 4) sortByID)),
      WhereParts := [], LimitPart := none }
    sortByID (some (prevCursorOf (routeWithID 4) sortByID)) 5 none CursorCondition ()
  obtain ⟨cur, limit, _, hw, hro, hlt, _⟩ := h.1 0 t ht
  exact ⟨t, ht, h.2 1 t ht, cur, hro, hlt, by decide, by decide, hw⟩

/-! ## Properties of the offset paging -/

/-- When the sum of offset and limit does not wrap, `calculatePaging` keeps the
pair unless both are zero, and derives it from page and page size exactly when
both are zero. -/
theorem calculatePaging_no_wrap (p : PageFilter) (h : p.Offset + p.Limit < uintModulus) :
    calculatePaging p =
      if p.Offset = 0 ∧ p.Limit = 0 then
        (((max p.Page 1 - 1) * p.PerPage) % uintModulus, p.PerPage)
      else (p.Offset, p.Limit) := by
  unfold calculatePaging
  simp only [Nat.mod_eq_of_lt h]
  by_cases h0 : p.Offset + p.Limit = 0
  · have ho : p.Offset = 0 := by omega
    have hl : p.Limit = 0 := by omega
    have hc : p.Offset = 0 ∧ p.Limit = 0 := ⟨ho, hl⟩
    simp only [if_pos h0, if_pos hc]
    have h1 : (if p.PerPage > 0 then p.PerPage else p.Limit) = p.PerPage := by
      split <;> omega
    rw [h1]
    by_cases hp : p.Page < 1
    · have hm : max p.Page 1 = 1 := by omega
      simp only [if_pos hp, hm]
    · have hm : max p.Page 1 = p.Page := by omega
      simp only [if_neg hp, hm]
  · have hne : ¬ (p.Offset = 0 ∧ p.Limit = 0) := by omega
    simp only [if_neg h0, if_neg hne]

/-- C24, the code evaluated: with offset 1 and limit `2^64 - 1`, neither of them
zero, the sum wraps to zero and `calculatePaging` replaces the pair by the values
derived from page 3 of size 10. -/
theorem calculatePaging_wraps :
    calculatePaging ⟨1, 2 ^ 64 - 1, 3, 10⟩ = (20, 10) ∧
    calculatePaging ⟨1, 2 ^ 64 - 1, 3, 10⟩ ≠ (1, 2 ^ 64 - 1) := by
  decide

/-- C25: the limit and offset `FetchPaged` ends up with are the pair
`calculatePaging` returns; each is put on the query only when greater than zero;
the query `FetchPaged` runs is the query `ApplyPaging` builds, so `FetchPaged` is
`FetchAll` after `ApplyPaging`. -/
theorem FetchPaged_applies_calculatePaging {ε κ τ : Type} (db : SqlDb ε κ τ)
    (q : PagedSelectBuilder κ) (p : PageFilter) :
    ((fetchPagedFilter p).Offset, (fetchPagedFilter p).Limit) = calculatePaging p ∧
    (fetchPagedQuery q p).OffsetPart =
      (if (calculatePaging p).1 > 0 then some (calculatePaging p).1 else q.OffsetPart) ∧
    (fetchPagedQuery q p).LimitPart =
      (if (calculatePaging p).2 > 0 then some (calculatePaging p).2 else q.LimitPart) ∧
    fetchPagedQuery q p = ApplyPaging q p ∧
    FetchPaged db q p = FetchAll db (ApplyPaging q p) := by
  have hpair : ((fetchPagedFilter p).Offset, (fetchPagedFilter p).Limit) = calculatePaging p := by
    unfold fetchPagedFilter calculatePaging
    rw [Nat.add_comm p.Limit p.Offset]
    by_cases h0 : (p.Offset + p.Limit) % uintModulus = 0
    · simp only [if_pos h0]
      by_cases h1 : p.PerPage > 0 <;> by_cases h2 : p.Page < 1 <;> simp [h1, h2]
    · simp only [if_neg h0]
  have hq : fetchPagedQuery q p = ApplyPaging q p := by
    unfold fetchPagedQuery ApplyPaging
    rw [← hpair]
    simp only []
    by_cases h1 : (fetchPagedFilter p).Limit > 0 <;>
      by_cases h2 : (fetchPagedFilter p).Offset > 0 <;>
      simp [h1, h2, PagedSelectBuilder.Limit, PagedSelectBuilder.Offset]
  have ho : (fetchPagedFilter p).Offset = (calculatePaging p).1 := by rw [← hpair]
  have hl : (fetchPagedFilter p).Limit = (calculatePaging p).2 := by rw [← hpair]
  refine ⟨hpair, ?_, ?_, hq, ?_⟩
  · unfold fetchPagedQuery
    simp only [ho, hl]
    by_cases h1 : (calculatePaging p).2 > 0 <;> by_cases h2 : (calculatePaging p).1 > 0 <;>
      simp [h1, h2, PagedSelectBuilder.Limit, PagedSelectBuilder.Offset]
  · unfold fetchPagedQuery
    simp only [ho, hl]
    by_cases h1 : (calculatePaging p).2 > 0 <;> by_cases h2 : (calculatePaging p).1 > 0 <;>
      simp [h1, h2, PagedSelectBuilder.Limit, PagedSelectBuilder.Offset]
  · unfold FetchPaged
    rw [hq]

/-! ## Properties of the script triggers -/

/-- The loop of `popOnManualEventType`, started at an index within the list, never
fails: it filters the part of the list below the index, keeps the rest, and
raises the flag when that part holds the event type. -/
theorem popOnManualLoop_result (m : String) :
    ∀ (n : Nat) (l : List String) (found : Bool), n ≤ l.length →
      popOnManualLoop m n l found =
        .returns ((l.take n).filter (fun e => decide (e ≠ m)) ++ l.drop n,
          found || decide (m ∈ l.take n)) := by
  intro n
  induction n with
  | zero =>
    intro l found _
    simp [popOnManualLoop]
  | succ n ih =>
    intro l found hn
    have hlt : n < l.length := hn
    have hget : l[n]? = some l[n] := List.getElem?_eq_getElem hlt
    have htake : l.take (n + 1) = l.take n ++ [l[n]] := by
      rw [List.take_succ, hget]
      rfl
    have hdrop : l.drop n = l[n] :: l.drop (n + 1) := List.drop_eq_getElem_cons hlt
    unfold popOnManualLoop
    rw [hget]
    simp only []
    by_cases he : l[n] = m
    · rw [if_pos he]
      have hlen : n ≤ (l.take n ++ l.drop (n + 1)).length := by
        rw [List.length_append, List.length_take]
        omega
      rw [ih _ true hlen]
      have h1 : (l.take n ++ l.drop (n + 1)).take n = l.take n := by
        rw [List.take_append_of_le_length (by rw [List.length_take]; omega)]
        rw [List.take_take]
        simp
      have h2 : (l.take n ++ l.drop (n + 1)).drop n = l.drop (n + 1) := by
        have hl : (l.take n).length = n := by rw [List.length_take]; omega
        rw [List.drop_append_of_le_length (by omega)]
        rw [List.drop_of_length_le (by omega)]
        rfl
      rw [h1, h2, htake]
      simp [he]
    · rw [if_neg he]
      rw [ih l found (by omega), htake, hdrop]
      have hne : ¬ m = l[n] := fun h => he h.symm
      simp only [List.filter_append, List.filter_cons, List.filter_nil, List.mem_append,
        List.mem_singleton, he, hne, ne_eq, not_false_eq_true, decide_True, if_true, or_false,
        List.append_assoc, List.singleton_append]

/-- C26: `popOnManualEventType` always returns; afterwards the trigger's event
types are the original ones without any occurrence of the onManual event type, in
their original order, and the result is true exactly when the original list
contained that event type. -/
theorem popOnManualEventType_removes_all (onManualEventType : String) (trigger : Trigger) :
    popOnManualEventType onManualEventType trigger =
      .returns
        ({ trigger with
            EventTypes := trigger.EventTypes.filter fun e => decide (e ≠ onManualEventType) },
         decide (onManualEventType ∈ trigger.EventTypes)) := by
  unfold popOnManualEventType
  rw [popOnManualLoop_result onManualEventType _ _ false (Nat.le_refl _)]
  simp

/-- The loop over the triggers of `makeScriptFilter` computes whether any trigger
passes the test. -/
theorem foldl_any_trigger (P : Trigger → Prop) [DecidablePred P] (ts : List Trigger) :
    ∀ b0 : Bool,
      ts.foldl (fun b t => if P t then true else b) b0 = (b0 || ts.any fun t => decide (P t)) := by
  induction ts with
  | nil => intro b0; simp
  | cons t ts ih =>
    intro b0
    rw [List.foldl_cons, ih]
    by_cases h : P t <;> simp [h]

/-- The model of `slice.IntersectStrings` is non-empty exactly when the two slices
share a string. -/
theorem IntersectStrings_length_pos (a b : List String) :
    0 < (IntersectStrings a b).length ↔ ∃ x, x ∈ a ∧ x ∈ b := by
  unfold IntersectStrings
  rw [List.length_pos_iff_exists_mem]
  simp [List.mem_filter]

/-- C27: given that the intersection helper is non-empty exactly when its two
arguments share a string, the predicate built by `makeScriptFilter` yields no
error, and yields true exactly when the resource types of the filter are empty or
shared with some trigger of the script, and the event types of the filter are
empty or shared with some trigger of the script. -/
theorem makeScriptFilter_matches (intersect : List String → List String → List String)
    (hI : ∀ a b, 0 < (intersect a b).length ↔ ∃ x, x ∈ a ∧ x ∈ b) (f : Filter) (s : Script) :
    (makeScriptFilter intersect f s).2 = none ∧
    ((makeScriptFilter intersect f s).1 = true ↔
      (f.ResourceTypes = [] ∨
        ∃ t, t ∈ s.Triggers ∧ ∃ x, x ∈ f.ResourceTypes ∧ x ∈ t.ResourceTypes) ∧
      (f.EventTypes = [] ∨
        ∃ t, t ∈ s.Triggers ∧ ∃ x, x ∈ f.EventTypes ∧ x ∈ t.EventTypes)) := by
  have hR : (s.Triggers.foldl
      (fun b t => if (intersect f.ResourceTypes t.ResourceTypes).length > 0 then true else b)
      false) = true ↔
      ∃ t, t ∈ s.Triggers ∧ ∃ x, x ∈ f.ResourceTypes ∧ x ∈ t.ResourceTypes := by
    rw [foldl_any_trigger (fun t => (intersect f.ResourceTypes t.ResourceTypes).length > 0)]
    simp [hI]
  have hE : (s.Triggers.foldl
      (fun b t => if (intersect f.EventTypes t.EventTypes).length > 0 then true else b)
      false) = true ↔
      ∃ t, t ∈ s.Triggers ∧ ∃ x, x ∈ f.EventTypes ∧ x ∈ t.EventTypes := by
    rw [foldl_any_trigger (fun t => (intersect f.EventTypes t.EventTypes).length > 0)]
    simp [hI]
  unfold makeScriptFilter
  simp only []
  by_cases hr : f.ResourceTypes.length > 0
  · have hrne : f.ResourceTypes ≠ [] := List.length_pos.mp hr
    simp only [if_pos hr]
    by_cases hb : (s.Triggers.foldl
        (fun b t => if (intersect f.ResourceTypes t.ResourceTypes).length > 0 then true else b)
        false) = true
    · have hbR := hR.mp hb
      simp only [hb, Bool.not_true, Bool.false_eq_true, if_false]
      by_cases he : f.EventTypes.length > 0
      · have hene : f.EventTypes ≠ [] := List.length_pos.mp he
        simp only [if_pos he]
        refine ⟨trivial, ?_⟩
        rw [hE]
        simp [hrne, hene, hbR]
      · have henil : f.EventTypes = [] := List.length_eq_zero.mp (by omega)
        simp only [if_neg he]
        refine ⟨trivial, ?_⟩
        simp [hrne, henil, hbR]
    · have hbf : (s.Triggers.foldl
          (fun b t => if (intersect f.ResourceTypes t.ResourceTypes).length > 0 then true else b)
          false) = false := by simpa using hb
      have hnR : ¬ ∃ t, t ∈ s.Triggers ∧ ∃ x, x ∈ f.ResourceTypes ∧ x ∈ t.ResourceTypes :=
        fun h => hb (hR.mpr h)
      simp only [hbf, Bool.not_false, if_true]
      refine ⟨trivial, ?_⟩
      constructor
      · intro h
        exact absurd h (by simp)
      · intro h
        rcases h.1 with h1 | h1
        · exact absurd h1 hrne
        · exact absurd h1 hnR
  · have hrnil : f.ResourceTypes = [] := List.length_eq_zero.mp (by omega)
    simp only [if_neg hr]
    by_cases he : f.EventTypes.length > 0
    · have hene : f.EventTypes ≠ [] := List.length_pos.mp he
      simp only [if_pos he]
      refine ⟨trivial, ?_⟩
      rw [hE]
      simp [hrnil, hene]
    · have henil : f.EventTypes = [] := List.length_eq_zero.mp (by omega)
      simp only [if_neg he]
      refine ⟨trivial, ?_⟩
      simp [hrnil, henil]

/-- C27, at a concrete input: a filter on resource type `compose:record` and event
type `onManual`, and a script whose one trigger has both. -/
theorem makeScriptFilter_matches_witness :
    (∀ a b, 0 < (IntersectStrings a b).length ↔ ∃ x, x ∈ a ∧ x ∈ b) ∧
    makeScriptFilter IntersectStrings ⟨["compose:record"], ["onManual"]⟩
      ⟨[⟨["onManual", "beforeCreate"], ["compose:record"]⟩]⟩ = (true, none) ∧
    (makeScriptFilter IntersectStrings ⟨["compose:record"], ["onManual"]⟩
      ⟨[⟨["onManual", "beforeCreate"], ["compose:record"]⟩]⟩).2 = none :=
  ⟨IntersectStrings_length_pos, by decide,
    (makeScriptFilter_matches IntersectStrings IntersectStrings_length_pos
      ⟨["compose:record"], ["onManual"]⟩
      ⟨[⟨["onManual", "beforeCreate"], ["compose:record"]⟩]⟩).1⟩

/-! ## Properties of the file store, the script results and the previews -/

/-- When the file name is empty or longer than the namespace, `store.check` returns:
an error for an empty name and for a name that does not start with the namespace
followed by a slash, nil otherwise. -/
theorem store.check_returns (ns filename : List UInt8)
    (h : filename.length = 0 ∨ ns.length < filename.length) :
    store.check ns filename =
      .returns (if filename = [] then some .invalidFilename
        else if (ns ++ bytes "/") <+: filename then none else some .invalidNamespace) := by
  unfold store.check
  by_cases h0 : filename.length = 0
  · have hnil : filename = [] := List.length_eq_zero.mp h0
    simp [hnil]
  · have hne : filename ≠ [] := fun hnil => h0 (by rw [hnil]; rfl)
    have hlt : ¬ ns.length + 1 > filename.length := by omega
    have hlen : (ns ++ bytes "/").length = ns.length + 1 := by
      rw [List.length_append]
      rfl
    rw [if_neg h0, if_neg hlt, if_neg hne]
    by_cases hp : (ns ++ bytes "/") <+: filename
    · have ht : filename.take (ns.length + 1) = ns ++ bytes "/" := by
        rw [← hlen]
        exact (List.prefix_iff_eq_take.mp hp).symm
      simp [hp, ht]
    · have ht : filename.take (ns.length + 1) ≠ ns ++ bytes "/" := by
        intro ht
        apply hp
        rw [← ht]
        exact List.take_prefix _ _
      simp [hp, ht]

/-- C28, the code evaluated: `store.check` fails at run time exactly for the
non-empty file names that are not longer than the namespace; for namespace
`files` and file name `x` it fails. -/
theorem store_check_fails_on_short_filename :
    store.check (bytes "files") (bytes "x") = .panics ∧
    ∀ ns filename : List UInt8,
      store.check ns filename = .panics ↔ (0 < filename.length ∧ filename.length ≤ ns.length) := by
  constructor
  · decide
  · intro ns filename
    unfold store.check
    by_cases h0 : filename.length = 0
    · simp [h0]
    · by_cases h1 : ns.length + 1 > filename.length
      · rw [if_neg h0, if_pos h1]
        simp only [true_iff]
        omega
      · rw [if_neg h0, if_neg h1]
        constructor
        · intro h
          split at h <;> exact absurd h (by simp)
        · intro h
          omega

/-- For a function that yields a `uint64`, a string or a value of another type,
`execute` returns without error; the `uint64` is stored in `ResultInt` after the
conversion to `int64`, the string in `ResultString`, the other value in
`ResultAny`. -/
theorem jsenvHandler.execute_returns {α φ : Type} (vm : JsEnv α φ) (args : jsenvExecuteArgs)
    (fn : φ) (hs : args.hasSource = true) (hc : args.hasScope = true)
    (hfn : vm.RegisterFunction args.Source = .ok fn) :
    (∀ v, vm.Exec fn args.scopeString = .ok (.uint64 v) →
      jsenvHandler.execute vm args = .returns (⟨toInt64 v, "", none⟩, none)) ∧
    (∀ v, vm.Exec fn args.scopeString = .ok (.string v) →
      jsenvHandler.execute vm args = .returns (⟨0, v, none⟩, none)) ∧
    (∀ v, vm.Exec fn args.scopeString = .ok (.other v) →
      jsenvHandler.execute vm args = .returns (⟨0, "", some (.other v)⟩, none)) ∧
    (∀ v, vm.Exec fn args.scopeString = .ok (.int64 v) →
      jsenvHandler.execute vm args = .panics) := by
  refine ⟨?_, ?_, ?_, ?_⟩ <;>
  · intro v hv
    unfold jsenvHandler.execute
    simp [hs, hc, hfn, hv]

/-- C29, the code evaluated: when the function yields the `int64` value 5,
`execute` fails at run time; when it yields the `uint64` value `2^63`, the value
stored in `ResultInt` is `-2^63`. -/
theorem execute_fails_on_int64 :
    jsenvHandler.execute (constEnv (JsValue.int64 5 : JsValue Unit)) ⟨true, "f", true, "s"⟩
      = .panics ∧
    jsenvHandler.execute (constEnv (JsValue.uint64 (2 ^ 63) : JsValue Unit))
      ⟨true, "f", true, "s"⟩ = .returns (⟨-(2 ^ 63), "", none⟩, none) := by
  constructor
  · rfl
  · decide

/-- The preview never exceeds the maximal width; it stays within the maximal height
unless the image is wider than the maximal width and wider than high, in which
case its height is that of the image scaled to the maximal width. -/
theorem attachment.processImage_bounds (w h : Nat) (hw : 0 < w) (hh : 0 < h) :
    (attachment.processImage w h).1 ≤ attachmentPreviewMaxWidth ∧
    (¬ (w > attachmentPreviewMaxWidth ∧ w > h) →
      (attachment.processImage w h).2 ≤ attachmentPreviewMaxHeight) ∧
    (w > attachmentPreviewMaxWidth ∧ w > h →
      attachment.processImage w h =
        (attachmentPreviewMaxWidth, max 1 ((2 * attachmentPreviewMaxWidth * h + w) / (2 * w)))) := by
  unfold attachment.processImage resizeBounds attachmentPreviewMaxWidth attachmentPreviewMaxHeight
  by_cases h1 : w > 320 ∧ w > h
  · have hw0 : ¬ (w = 0 ∨ h = 0) := by omega
    simp [h1, hw0]
  · rw [if_neg h1]
    by_cases h2 : h > 180
    · have hw0 : ¬ (w = 0 ∨ h = 0) := by omega
      have hdiv : (360 * w + h) / (2 * h) ≤ 320 := by
        apply Nat.div_le_of_le_mul
        rcases Nat.lt_or_ge 320 w with hlt | hle
        · have : w ≤ h := by omega
          omega
        · omega
      simp only [if_pos h2, hw0, if_false]
      simp
      refine ⟨?_, fun hl hl2 => absurd ⟨hl, hl2⟩ h1⟩
      omega
    · rw [if_neg h2]
      refine ⟨?_, fun _ => by omega, fun hl => absurd hl h1⟩
      show w ≤ 320
      omega

/-- C30, the code evaluated: for an image 640 wide and 480 high the preview is 320
wide and 240 high, higher than `attachmentPreviewMaxHeight`. -/
theorem preview_exceeds_max_height :
    attachment.processImage 640 480 = (320, 240) ∧
    ¬ (attachment.processImage 640 480).2 ≤ attachmentPreviewMaxHeight := by
  decide

end Rdbms
